import Mathlib

/-!
# Verification of the cosmolog event-logging library

Shallow embedding of `cosmolog/cosmologger.py` and `cosmolog/bin/cli.py`
(planetlabs/cosmolog) in Lean 4, together with proofs settling the frozen
claims about the natural-language specification.

Modelling conventions:
* Python values flowing through the event pipeline are modelled by `PyVal`;
  Python numbers (ints and floats) are modelled exactly, with floats as
  rationals (the decimal values written in the sources round-trip through
  IEEE doubles at the precision the code uses, so exact rationals are
  faithful on every input exercised here).
* Python exceptions are modelled by the `Err` type: `Err.cosmolog args`
  is `CosmologgerException(*args)`; `typeError`/`valueError`/`keyError`/
  `attributeError` model the corresponding untyped built-in exceptions.
* The external libraries `dateutil.parser.parse` and the `json` module are
  modelled by executable Lean functions faithful to their behaviour on the
  ISO-8601 shaped inputs and JSON documents this code base produces and
  consumes (restrictions are noted at each definition).
-/

namespace Cosmolog

/-- Model of a Python `datetime.datetime`: a wall-clock reading plus an
optional fixed UTC offset in minutes (`none` models a naive datetime,
`some 0` models `pytz.utc`). -/
structure PyDatetime where
  year : Nat
  month : Nat
  day : Nat
  hour : Nat
  minute : Nat
  second : Nat
  microsecond : Nat
  tz : Option Int
deriving DecidableEq, Repr

/-- The field ranges the Python `datetime` constructor enforces; every
`datetime` object the source can hold satisfies them. -/
def PyDatetime.WF (d : PyDatetime) : Prop :=
  1 ≤ d.year ∧ d.year ≤ 9999 ∧ 1 ≤ d.month ∧ d.month ≤ 12 ∧
  1 ≤ d.day ∧ d.day ≤ 31 ∧ d.hour ≤ 23 ∧ d.minute ≤ 59 ∧
  d.second ≤ 59 ∧ d.microsecond ≤ 999999

instance (d : PyDatetime) : Decidable d.WF := by
  unfold PyDatetime.WF; infer_instance

/-- Model of `t.replace(tzinfo=utc)`: the wall-clock fields are kept and the
timezone label is overwritten (no instant conversion happens). -/
def PyDatetime.replaceTzUtc (d : PyDatetime) : PyDatetime :=
  { d with tz := some 0 }

/-- Python values that can flow into `CosmologEvent` construction: the JSON
scalar and container types plus `datetime` objects. -/
inductive PyVal where
  | none
  | bool (b : Bool)
  | int (n : Int)
  | float (q : ℚ)
  | str (s : String)
  | datetime (d : PyDatetime)
  | list (xs : List PyVal)
  | dict (xs : List (String × PyVal))

/-- Python exceptions relevant to this code base. `cosmolog args` models
`CosmologgerException(*args)` (the library's typed failure); the others model
untyped built-in exceptions escaping the library. -/
inductive Err where
  | cosmolog (args : List String)
  | typeError (msg : String)
  | valueError (msg : String)
  | keyError (key : String)
  | attributeError (msg : String)
deriving DecidableEq, Repr

/-! ## Decimal digit rendering and reading

`padDig k n` renders the `k` low-order decimal digits of `n`,
most-significant first and zero-padded — the behaviour of `%0kd` (and hence
of `strftime`'s `%Y`, `%m`, …, `%f` directives) on in-range field values.
`readDigits` is the matching fixed-width reader used by the model of
`dateutil.parser.parse`. -/

/-- Character for the decimal digit `n % 10`. -/
def digitChar (n : Nat) : Char := Char.ofNat (48 + n % 10)

/-- Zero-padded `k`-digit decimal rendering of `n % 10^k`,
most significant digit first. -/
def padDig : Nat → Nat → List Char
  | 0, _ => []
  | k+1, n => digitChar (n / 10 ^ k) :: padDig k n

/-- Decimal digit character test (the class `[0-9]`). -/
def isDig (c : Char) : Bool := 48 ≤ c.toNat && c.toNat ≤ 57

/-- Numeric value of a decimal digit character. -/
def digitVal (c : Char) : Nat := c.toNat - 48

/-- Read exactly `k` decimal digits, most significant first, onto the
accumulator `acc`; fails if a non-digit (or end of input) is hit. -/
def readDigits : Nat → Nat → List Char → Option (Nat × List Char)
  | 0, acc, cs => some (acc, cs)
  | _+1, _, [] => Option.none
  | k+1, acc, c :: cs =>
      if isDig c then readDigits k (10 * acc + digitVal c) cs else Option.none

theorem isDig_digitChar (n : Nat) : isDig (digitChar n) = true := by
  unfold digitChar
  have h : n % 10 < 10 := Nat.mod_lt _ (by omega)
  interval_cases h : n % 10 <;> decide

theorem digitVal_digitChar (n : Nat) : digitVal (digitChar n) = n % 10 := by
  unfold digitChar digitVal
  have h : n % 10 < 10 := Nat.mod_lt _ (by omega)
  interval_cases h : n % 10 <;> decide

theorem digitVal_le_of_isDig {c : Char} (h : isDig c = true) : digitVal c ≤ 9 := by
  unfold isDig at h
  unfold digitVal
  simp only [Bool.and_eq_true, decide_eq_true_eq] at h
  omega

theorem readDigits_padDig (k : Nat) :
    ∀ (acc n : Nat) (rest : List Char),
      readDigits k acc (padDig k n ++ rest) =
        some (acc * 10 ^ k + n % 10 ^ k, rest) := by
  induction k with
  | zero => intro acc n rest; simp [padDig, readDigits, Nat.mod_one]
  | succ k ih =>
      intro acc n rest
      show (if isDig (digitChar (n / 10 ^ k)) then
          readDigits k (10 * acc + digitVal (digitChar (n / 10 ^ k)))
            (padDig k n ++ rest)
        else Option.none) = some (acc * 10 ^ (k + 1) + n % 10 ^ (k + 1), rest)
      rw [isDig_digitChar, if_pos rfl, digitVal_digitChar, ih]
      congr 2
      have h1 : n % 10 ^ (k + 1) = n % 10 ^ k + 10 ^ k * (n / 10 ^ k % 10) := by
        rw [pow_succ]
        exact Nat.mod_mul
      rw [h1]; ring

theorem readDigits_acc_lt (k : Nat) :
    ∀ (acc : Nat) (cs : List Char) (v : Nat) (rest : List Char),
      readDigits k acc cs = some (v, rest) → v < (acc + 1) * 10 ^ k := by
  induction k with
  | zero =>
      intro acc cs v rest h
      simp [readDigits] at h
      omega
  | succ k ih =>
      intro acc cs v rest h
      match cs with
      | [] => simp [readDigits] at h
      | c :: cs =>
          simp only [readDigits] at h
          split at h
          · rename_i hdig
            have hval := ih _ _ _ _ h
            have hd : digitVal c ≤ 9 := digitVal_le_of_isDig hdig
            have : (10 * acc + digitVal c + 1) * 10 ^ k ≤ (acc + 1) * 10 ^ (k + 1) := by
              rw [pow_succ]
              nlinarith [pow_pos (show (0:ℕ) < 10 by omega) k]
            omega
          · exact absurd h (by simp)

theorem readDigits_lt (k : Nat) (cs : List Char) (v : Nat) (rest : List Char)
    (h : readDigits k 0 cs = some (v, rest)) : v < 10 ^ k := by
  have := readDigits_acc_lt k 0 cs v rest h
  simpa using this

/-! ## Proleptic Gregorian calendar arithmetic

CPython's `datetime.utcfromtimestamp` converts an epoch offset to a civil
date with `_ord2ymd`: the day number (counted from 0001-01-01) is split into
400-year, 100-year, 4-year and 1-year cycles, with the last day of a
leap-year handled separately, and the month is found from a
days-before-month table.  The functions below model that algorithm; `/` and
`%` agree with Python's floor division on the nonnegative values used
here. -/

/-- Gregorian leap-year test (`calendar.isleap` / `datetime._is_leap`). -/
def isLeap (y : Nat) : Bool := decide (y % 4 = 0 ∧ (¬y % 100 = 0 ∨ y % 400 = 0))

/-- Days in the year before month `m` begins, with `f` the leap-day offset
(0 or 1); the table of CPython `_days_before_month`. -/
def dbmAux (f m : Nat) : Nat :=
  match m with
  | 1 => 0 | 2 => 31 | 3 => 59 + f | 4 => 90 + f | 5 => 120 + f | 6 => 151 + f
  | 7 => 181 + f | 8 => 212 + f | 9 => 243 + f | 10 => 273 + f | 11 => 304 + f
  | _ => 334 + f

/-- Month (1–12) containing the 0-based day-of-year `rem`, with `f` the
leap-day offset. -/
def mfrAux (f rem : Nat) : Nat :=
  if rem < 31 then 1 else if rem < 59 + f then 2 else if rem < 90 + f then 3
  else if rem < 120 + f then 4 else if rem < 151 + f then 5
  else if rem < 181 + f then 6 else if rem < 212 + f then 7
  else if rem < 243 + f then 8 else if rem < 273 + f then 9
  else if rem < 304 + f then 10 else if rem < 334 + f then 11 else 12

/-- Day of month for the 0-based day-of-year `rem`, with `f` the leap-day
offset. -/
def dfrAux (f rem : Nat) : Nat := rem - dbmAux f (mfrAux f rem) + 1

/-- Days in the year before month `m` begins (CPython `_days_before_month`). -/
def daysBeforeMonth (leap : Bool) (m : Nat) : Nat :=
  dbmAux (if leap then 1 else 0) m

/-- Month (1–12) containing the 0-based day-of-year `rem` (`rem ≤ 364`). -/
def monthFromRem (leap : Bool) (rem : Nat) : Nat :=
  mfrAux (if leap then 1 else 0) rem

/-- Day of month for the 0-based day-of-year `rem`. -/
def dayFromRem (leap : Bool) (rem : Nat) : Nat :=
  dfrAux (if leap then 1 else 0) rem

/-- Civil year of day number `n` counted from 0001-01-01 (CPython
`_ord2ymd`). -/
def cYear (n : Nat) : Nat :=
  let n400 := n / 146097
  let r1 := n % 146097
  let n100 := r1 / 36524
  let r2 := r1 % 36524
  let n4 := r2 / 1461
  let r3 := r2 % 1461
  let n1 := r3 / 365
  if n1 = 4 ∨ n100 = 4 then 400 * n400 + 100 * n100 + 4 * n4 + n1
  else 400 * n400 + 100 * n100 + 4 * n4 + n1 + 1

/-- Civil month of day number `n` counted from 0001-01-01. -/
def cMonth (n : Nat) : Nat :=
  let r1 := n % 146097
  let n100 := r1 / 36524
  let r2 := r1 % 36524
  let n4 := r2 / 1461
  let r3 := r2 % 1461
  let n1 := r3 / 365
  if n1 = 4 ∨ n100 = 4 then 12
  else monthFromRem (decide (n1 = 3 ∧ (¬n4 = 24 ∨ n100 = 3))) (r3 % 365)

/-- Civil day of month of day number `n` counted from 0001-01-01. -/
def cDay (n : Nat) : Nat :=
  let r1 := n % 146097
  let n100 := r1 / 36524
  let r2 := r1 % 36524
  let n4 := r2 / 1461
  let r3 := r2 % 1461
  let n1 := r3 / 365
  if n1 = 4 ∨ n100 = 4 then 31
  else dayFromRem (decide (n1 = 3 ∧ (¬n4 = 24 ∨ n100 = 3))) (r3 % 365)

/-- Day number (from 0001-01-01) of the civil date `y-m-d` (CPython
`_ymd2ord`, shifted by one). -/
def dFromCivil (y m d : Nat) : Nat :=
  let y' := y - 1
  365 * y' + y' / 4 - y' / 100 + y' / 400 +
    daysBeforeMonth (isLeap y) m + (d - 1)

/-- Epoch microseconds of `0001-01-01T00:00:00`, the smallest instant a
Python `datetime` can hold. -/
def minEpochMicros : Int := -62135596800000000

/-- Epoch microseconds of `9999-12-31T23:59:59.999999`, the largest instant a
Python `datetime` can hold. -/
def maxEpochMicros : Int := 253402300799999999

/-- Model of `datetime.utcfromtimestamp` after the input has been scaled to
whole microseconds: split the epoch offset into days and time of day and
convert the day count to a civil date.  The result is naive (`tz = none`),
as in Python. -/
def fromEpochMicros (t : Int) : PyDatetime :=
  let us := (t % 1000000).toNat
  let secs := t / 1000000
  let days := secs / 86400
  let sod := (secs % 86400).toNat
  let n := (days + 719162).toNat
  { year := cYear n
    month := cMonth n
    day := cDay n
    hour := sod / 3600
    minute := sod % 3600 / 60
    second := sod % 60
    microsecond := us
    tz := Option.none }

/-- The instant a `PyDatetime` denotes, in microseconds since the Unix epoch;
a naive datetime is read as UTC.  This is the denotation function used to
state instant-preservation claims. -/
def toEpochMicros (d : PyDatetime) : Int :=
  ((dFromCivil d.year d.month d.day : Int) - 719162) * 86400000000 +
    ((d.hour * 3600 + d.minute * 60 + d.second : Nat) : Int) * 1000000 +
    (d.microsecond : Int) - d.tz.getD 0 * 60000000

theorem aux_layer (f rem : Nat) (hf : f ≤ 1) (h : rem ≤ 364 + f) :
    1 ≤ mfrAux f rem ∧ mfrAux f rem ≤ 12 ∧
    1 ≤ dfrAux f rem ∧ dfrAux f rem ≤ 31 ∧
    dbmAux f (mfrAux f rem) + (dfrAux f rem - 1) = rem := by
  unfold dfrAux mfrAux
  by_cases h1 : rem < 31
  · simp only [if_pos h1, dbmAux]; omega
  simp only [if_neg h1]
  by_cases h2 : rem < 59 + f
  · simp only [if_pos h2, dbmAux]; omega
  simp only [if_neg h2]
  by_cases h3 : rem < 90 + f
  · simp only [if_pos h3, dbmAux]; omega
  simp only [if_neg h3]
  by_cases h4 : rem < 120 + f
  · simp only [if_pos h4, dbmAux]; omega
  simp only [if_neg h4]
  by_cases h5 : rem < 151 + f
  · simp only [if_pos h5, dbmAux]; omega
  simp only [if_neg h5]
  by_cases h6 : rem < 181 + f
  · simp only [if_pos h6, dbmAux]; omega
  simp only [if_neg h6]
  by_cases h7 : rem < 212 + f
  · simp only [if_pos h7, dbmAux]; omega
  simp only [if_neg h7]
  by_cases h8 : rem < 243 + f
  · simp only [if_pos h8, dbmAux]; omega
  simp only [if_neg h8]
  by_cases h9 : rem < 273 + f
  · simp only [if_pos h9, dbmAux]; omega
  simp only [if_neg h9]
  by_cases h10 : rem < 304 + f
  · simp only [if_pos h10, dbmAux]; omega
  simp only [if_neg h10]
  by_cases h11 : rem < 334 + f
  · simp only [if_pos h11, dbmAux]; omega
  simp only [if_neg h11, dbmAux]
  omega

theorem month_day_layer (leap : Bool) (rem : Nat) (h : rem ≤ 364) :
    1 ≤ monthFromRem leap rem ∧ monthFromRem leap rem ≤ 12 ∧
    1 ≤ dayFromRem leap rem ∧ dayFromRem leap rem ≤ 31 ∧
    daysBeforeMonth leap (monthFromRem leap rem) + (dayFromRem leap rem - 1)
      = rem := by
  cases leap
  · exact aux_layer 0 rem (by omega) (by omega)
  · exact aux_layer 1 rem (by omega) (by omega)

theorem isLeap_decomp (a b c d : Nat) (hb : b ≤ 3) (hc : c ≤ 24) (hd : d ≤ 3) :
    isLeap (400 * a + 100 * b + 4 * c + d + 1) =
      decide (d = 3 ∧ (¬c = 24 ∨ b = 3)) := by
  unfold isLeap
  rw [decide_eq_decide]
  omega

theorem isLeap_quad (a b c : Nat) (_hb : b ≤ 3) (hc : c ≤ 23) :
    isLeap (400 * a + 100 * b + 4 * c + 4) = true := by
  unfold isLeap
  rw [decide_eq_true_eq]
  omega

theorem isLeap_era (a : Nat) : isLeap (400 * a + 400) = true := by
  unfold isLeap
  rw [decide_eq_true_eq]
  omega

theorem civil_layer (n : Nat) (h : n ≤ 3652058) :
    1 ≤ cYear n ∧ cYear n ≤ 9999 ∧
    1 ≤ cMonth n ∧ cMonth n ≤ 12 ∧
    1 ≤ cDay n ∧ cDay n ≤ 31 ∧
    dFromCivil (cYear n) (cMonth n) (cDay n) = n := by
  have hy : cYear n =
      (if n % 146097 % 36524 % 1461 / 365 = 4 ∨ n % 146097 / 36524 = 4 then
        400 * (n / 146097) + 100 * (n % 146097 / 36524) +
          4 * (n % 146097 % 36524 / 1461) + n % 146097 % 36524 % 1461 / 365
      else
        400 * (n / 146097) + 100 * (n % 146097 / 36524) +
          4 * (n % 146097 % 36524 / 1461) + n % 146097 % 36524 % 1461 / 365
          + 1) := rfl
  have hm : cMonth n =
      (if n % 146097 % 36524 % 1461 / 365 = 4 ∨ n % 146097 / 36524 = 4 then 12
       else
        monthFromRem
          (decide (n % 146097 % 36524 % 1461 / 365 = 3 ∧
            (¬n % 146097 % 36524 / 1461 = 24 ∨ n % 146097 / 36524 = 3)))
          (n % 146097 % 36524 % 1461 % 365)) := rfl
  have hd : cDay n =
      (if n % 146097 % 36524 % 1461 / 365 = 4 ∨ n % 146097 / 36524 = 4 then 31
       else
        dayFromRem
          (decide (n % 146097 % 36524 % 1461 / 365 = 3 ∧
            (¬n % 146097 % 36524 / 1461 = 24 ∨ n % 146097 / 36524 = 3)))
          (n % 146097 % 36524 % 1461 % 365)) := rfl
  have hfrom : dFromCivil (cYear n) (cMonth n) (cDay n) =
      365 * (cYear n - 1) + (cYear n - 1) / 4 - (cYear n - 1) / 100 +
        (cYear n - 1) / 400 +
        daysBeforeMonth (isLeap (cYear n)) (cMonth n) + (cDay n - 1) := rfl
  rw [hfrom]
  by_cases hedge : n % 146097 % 36524 % 1461 / 365 = 4 ∨ n % 146097 / 36524 = 4
  · rw [if_pos hedge] at hy hm hd
    have hleap : isLeap (cYear n) = true := by
      rcases hedge with h4 | h100
      · rw [hy, h4]
        have hc23 : n % 146097 % 36524 / 1461 ≤ 23 := by omega
        exact isLeap_quad (n / 146097) (n % 146097 / 36524)
          (n % 146097 % 36524 / 1461) (by omega) hc23
      · have hr2 : n % 146097 % 36524 = 0 := by omega
        have hyv : cYear n = 400 * (n / 146097) + 400 := by
          rw [hy]
          omega
        rw [hyv]
        exact isLeap_era (n / 146097)
    rw [hleap, hm, hd]
    have hdb : daysBeforeMonth true 12 = 335 := rfl
    rw [hdb, hy]
    clear hfrom hleap hm hd hy
    rcases hedge with h4 | h100
    · rw [h4]
      have hb : n % 146097 / 36524 ≤ 3 := by omega
      have hc : n % 146097 % 36524 / 1461 ≤ 23 := by omega
      have e1 : (400 * (n / 146097) + 100 * (n % 146097 / 36524) +
          4 * (n % 146097 % 36524 / 1461) + 4 - 1) / 4 =
          100 * (n / 146097) + 25 * (n % 146097 / 36524) +
            n % 146097 % 36524 / 1461 := by omega
      have e2 : (400 * (n / 146097) + 100 * (n % 146097 / 36524) +
          4 * (n % 146097 % 36524 / 1461) + 4 - 1) / 100 =
          4 * (n / 146097) + n % 146097 / 36524 := by omega
      have e3 : (400 * (n / 146097) + 100 * (n % 146097 / 36524) +
          4 * (n % 146097 % 36524 / 1461) + 4 - 1) / 400 =
          n / 146097 := by omega
      exact ⟨by omega, by omega, by omega, by omega, by omega, by omega,
        by omega⟩
    · have hr2 : n % 146097 % 36524 = 0 := by omega
      have hyv : 400 * (n / 146097) + 100 * (n % 146097 / 36524) +
          4 * (n % 146097 % 36524 / 1461) + n % 146097 % 36524 % 1461 / 365 =
          400 * (n / 146097) + 400 := by omega
      rw [hyv]
      have e1 : (400 * (n / 146097) + 400 - 1) / 4 =
          100 * (n / 146097) + 99 := by omega
      have e2 : (400 * (n / 146097) + 400 - 1) / 100 =
          4 * (n / 146097) + 3 := by omega
      have e3 : (400 * (n / 146097) + 400 - 1) / 400 = n / 146097 := by omega
      exact ⟨by omega, by omega, by omega, by omega, by omega, by omega,
        by omega⟩
  · rw [if_neg hedge] at hy hm hd
    have hb3 : n % 146097 / 36524 ≤ 3 := by omega
    have hc24 : n % 146097 % 36524 / 1461 ≤ 24 := by omega
    have hd3 : n % 146097 % 36524 % 1461 / 365 ≤ 3 := by omega
    have hrem : n % 146097 % 36524 % 1461 % 365 ≤ 364 := by omega
    have hleap : isLeap (cYear n) =
        decide (n % 146097 % 36524 % 1461 / 365 = 3 ∧
          (¬n % 146097 % 36524 / 1461 = 24 ∨ n % 146097 / 36524 = 3)) := by
      rw [hy]
      exact isLeap_decomp _ _ _ _ hb3 hc24 hd3
    obtain ⟨hm1, hm2, hd1, hd2, hsum⟩ :=
      month_day_layer
        (decide (n % 146097 % 36524 % 1461 / 365 = 3 ∧
          (¬n % 146097 % 36524 / 1461 = 24 ∨ n % 146097 / 36524 = 3)))
        (n % 146097 % 36524 % 1461 % 365) hrem
    rw [hleap, hm, hd, hy]
    clear hfrom hleap hm hd hy
    have e1 : (400 * (n / 146097) + 100 * (n % 146097 / 36524) +
        4 * (n % 146097 % 36524 / 1461) + n % 146097 % 36524 % 1461 / 365
        + 1 - 1) / 4 =
        100 * (n / 146097) + 25 * (n % 146097 / 36524) +
          n % 146097 % 36524 / 1461 := by omega
    have e2 : (400 * (n / 146097) + 100 * (n % 146097 / 36524) +
        4 * (n % 146097 % 36524 / 1461) + n % 146097 % 36524 % 1461 / 365
        + 1 - 1) / 100 =
        4 * (n / 146097) + n % 146097 / 36524 := by omega
    have e3 : (400 * (n / 146097) + 100 * (n % 146097 / 36524) +
        4 * (n % 146097 % 36524 / 1461) + n % 146097 % 36524 % 1461 / 365
        + 1 - 1) / 400 = n / 146097 := by omega
    exact ⟨by omega, by omega, by omega, by omega, by omega, by omega,
      by omega⟩

theorem fromEpochMicros_wf (t : Int) (h1 : minEpochMicros ≤ t)
    (h2 : t ≤ maxEpochMicros) : (fromEpochMicros t).WF := by
  have h1' : (-62135596800000000 : Int) ≤ t := h1
  have h2' : t ≤ (253402300799999999 : Int) := h2
  have hn : (t / 1000000 / 86400 + 719162).toNat ≤ 3652058 := by omega
  have hc := civil_layer _ hn
  unfold fromEpochMicros PyDatetime.WF
  simp only
  exact ⟨hc.1, hc.2.1, hc.2.2.1, hc.2.2.2.1, hc.2.2.2.2.1, hc.2.2.2.2.2.1,
    by omega, by omega, by omega, by omega⟩

theorem toEpochMicros_fromEpochMicros (t : Int) (h1 : minEpochMicros ≤ t)
    (h2 : t ≤ maxEpochMicros) :
    toEpochMicros ((fromEpochMicros t).replaceTzUtc) = t := by
  have h1' : (-62135596800000000 : Int) ≤ t := h1
  have h2' : t ≤ (253402300799999999 : Int) := h2
  have hn : (t / 1000000 / 86400 + 719162).toNat ≤ 3652058 := by omega
  have hc := civil_layer _ hn
  have hrt := hc.2.2.2.2.2.2
  unfold fromEpochMicros PyDatetime.replaceTzUtc toEpochMicros
  simp only [Option.getD]
  rw [hrt]
  omega

/-! ## The wire timestamp format

`CosmologEvent._default_datefmt` is the fixed `strftime` pattern
`%Y-%m-%dT%H:%M:%S.%fZ`; `strftimeDefault` renders it. -/

/-- Character sequence of the wire timestamp rendering of `d`. -/
def strfChars (d : PyDatetime) : List Char :=
  (padDig 4 d.year ++ '-' :: padDig 2 d.month ++ '-' :: padDig 2 d.day
    ++ 'T' :: padDig 2 d.hour ++ ':' :: padDig 2 d.minute
    ++ ':' :: padDig 2 d.second ++ '.' :: padDig 6 d.microsecond) ++ ['Z']

/-- Rendering of a datetime with the format `%Y-%m-%dT%H:%M:%S.%fZ`
(`CosmologEvent._default_datefmt`). -/
def strftimeDefault (d : PyDatetime) : String :=
  String.mk (strfChars d)

/-! ## Model of Python `float(str)`

`float()` strips surrounding whitespace and accepts an optional sign, a
decimal mantissa (digits, optionally with one point, at least one digit
somewhere), and an optional exponent.  `inf`/`nan` forms and underscore
separators are not modelled (no input in this code base uses them); the
value is computed exactly as a rational. -/

/-- Whitespace characters `str.strip` removes (the ones relevant here). -/
def isSpacePy (c : Char) : Bool := c = ' ' || c = '\t' || c = '\n' || c = '\r'

/-- Read an optional leading sign. -/
def parseSign : List Char → (Int × List Char)
  | [] => (1, [])
  | c :: cs =>
      if c = '+' then (1, cs)
      else if c = '-' then (-1, cs)
      else (1, c :: cs)

/-- Numeric value of a digit string, most significant digit first. -/
def digitsVal (ds : List Char) : Nat := ds.foldl (fun a c => 10 * a + digitVal c) 0

/-- Parse a stripped float literal to its exact rational value. -/
def floatParseCore (cs : List Char) : Option ℚ :=
  let p := parseSign cs
  let ip := p.2.takeWhile isDig
  let cs2 := p.2.dropWhile isDig
  let q :=
    match cs2 with
    | c :: r => if c = '.' then (r.takeWhile isDig, r.dropWhile isDig)
                else ([], cs2)
    | [] => ([], ([] : List Char))
  if ip.isEmpty && q.1.isEmpty then Option.none
  else
    let mant : Int := p.1 *
      ((digitsVal ip * 10 ^ q.1.length + digitsVal q.1 : Nat) : Int)
    let fden : Nat := 10 ^ q.1.length
    match q.2 with
    | [] => some (mkRat mant fden)
    | c :: r =>
        if c = 'e' ∨ c = 'E' then
          let pe := parseSign r
          let ed := pe.2.takeWhile isDig
          let r2 := pe.2.dropWhile isDig
          if ed.isEmpty || !r2.isEmpty then Option.none
          else
            let e : Int := pe.1 * (digitsVal ed : Int)
            if 0 ≤ e then some (mkRat (mant * 10 ^ e.toNat) fden)
            else some (mkRat mant (fden * 10 ^ e.natAbs))
        else Option.none

/-- Model of Python `float(s)` on decimal literals. -/
def pyFloatOfString (s : String) : Option ℚ :=
  let cs := s.toList.dropWhile isSpacePy
  floatParseCore ((cs.reverse.dropWhile isSpacePy).reverse)

/-! ## Model of `dateutil.parser.parse`

`dateutil` accepts far more shapes than this code base ever produces; the
model covers the ISO-8601 family `YYYY-MM-DD[THH:MM:SS[.ffffff]][Z|±HH:MM]`,
which includes every string the library emits (its own `strftime` output)
and the strings the tests feed it.  Anything else is a parse failure
(`ValueError` in Python). -/

/-- Expect one specific character. -/
def expectChar (c : Char) : List Char → Option (List Char)
  | [] => Option.none
  | x :: xs => if x = c then some xs else Option.none

/-- Read up to `fuel` fractional-second digits, scaling the result to
microseconds; fails when more than `fuel` digits are present. -/
def readFracAux : Nat → Nat → List Char → Option (Nat × List Char)
  | fuel, acc, [] => some (acc * 10 ^ fuel, [])
  | fuel, acc, c :: cs =>
      if isDig c then
        match fuel with
        | 0 => Option.none
        | k+1 => readFracAux k (10 * acc + digitVal c) cs
      else some (acc * 10 ^ fuel, c :: cs)

/-- Parse the timezone suffix: nothing (naive), `Z` (UTC), or `±HH:MM`. -/
def parseTzPart : List Char → Option (Option Int × List Char)
  | [] => some (Option.none, [])
  | c :: cs =>
      if c = 'Z' then some (some 0, cs)
      else if c = '+' ∨ c = '-' then
        match readDigits 2 0 cs with
        | Option.none => Option.none
        | some (h, cs1) =>
            match expectChar ':' cs1 with
            | Option.none => Option.none
            | some cs2 =>
                match readDigits 2 0 cs2 with
                | Option.none => Option.none
                | some (m, cs3) =>
                    some (some ((if c = '-' then -1 else 1) *
                      ((h : Int) * 60 + (m : Int))), cs3)
      else Option.none

/-- Parse `HH:MM:SS[.ffffff]`. -/
def parseTimePart (cs : List Char) : Option (Nat × Nat × Nat × Nat × List Char) :=
  match readDigits 2 0 cs with
  | Option.none => Option.none
  | some (h, r1) =>
      match expectChar ':' r1 with
      | Option.none => Option.none
      | some r2 =>
          match readDigits 2 0 r2 with
          | Option.none => Option.none
          | some (mi, r3) =>
              match expectChar ':' r3 with
              | Option.none => Option.none
              | some r4 =>
                  match readDigits 2 0 r4 with
                  | Option.none => Option.none
                  | some (s, r5) =>
                      match r5 with
                      | [] => some (h, mi, s, 0, [])
                      | c :: r6 =>
                          if c = '.' then
                            if isDig (r6.headD 'x') then
                              match readFracAux 6 0 r6 with
                              | Option.none => Option.none
                              | some (us, r7) => some (h, mi, s, us, r7)
                            else Option.none
                          else some (h, mi, s, 0, r5)

/-- Parse the optional time-of-day part: absent means midnight, otherwise a
`T` separator followed by `HH:MM:SS[.ffffff]`. -/
def parseTimeOpt : List Char → Option (Nat × Nat × Nat × Nat × List Char)
  | [] => some (0, 0, 0, 0, [])
  | c :: r => if c = 'T' then parseTimePart r else Option.none

/-- Parse the full ISO-8601 shape; `ignoretz` models the keyword of the same
name (drop the parsed offset). -/
def parseIsoChars (ignoretz : Bool) (cs : List Char) : Option PyDatetime :=
  match readDigits 4 0 cs with
  | Option.none => Option.none
  | some (y, cs1) =>
      match expectChar '-' cs1 with
      | Option.none => Option.none
      | some cs2 =>
          match readDigits 2 0 cs2 with
          | Option.none => Option.none
          | some (mo, cs3) =>
              match expectChar '-' cs3 with
              | Option.none => Option.none
              | some cs4 =>
                  match readDigits 2 0 cs4 with
                  | Option.none => Option.none
                  | some (dd, cs5) =>
                      match parseTimeOpt cs5 with
                      | Option.none => Option.none
                      | some (h, mi, s, us, r) =>
                          match parseTzPart r with
                          | Option.none => Option.none
                          | some (tz, r2) =>
                              if r2.isEmpty ∧ 1 ≤ y ∧ 1 ≤ mo ∧ mo ≤ 12 ∧
                                  1 ≤ dd ∧ dd ≤ 31 ∧ h ≤ 23 ∧ mi ≤ 59 ∧
                                  s ≤ 59 ∧ us ≤ 999999 then
                                some ⟨y, mo, dd, h, mi, s, us,
                                  if ignoretz then Option.none else tz⟩
                              else Option.none

/-- Model of `dateutil.parser.parse`, restricted as documented above. -/
def dateparse (ignoretz : Bool) (s : String) : Except Err PyDatetime :=
  match parseIsoChars ignoretz s.toList with
  | some d => .ok d
  | Option.none => .error (.valueError ("Unknown string format: " ++ s))

/-! ## Inversion lemmas for the wire timestamp format -/

theorem padDig_all_dig (k : Nat) :
    ∀ (n : Nat) (c : Char), c ∈ padDig k n → isDig c = true := by
  induction k with
  | zero => intro n c hc; simp [padDig] at hc
  | succ k ih =>
      intro n c hc
      simp only [padDig, List.mem_cons] at hc
      rcases hc with h | h
      · rw [h]; exact isDig_digitChar _
      · exact ih n c h

theorem takeWhile_append_stop {p : Char → Bool} (xs : List Char)
    (hxs : ∀ c ∈ xs, p c = true) (y : Char) (hy : p y = false)
    (ys : List Char) :
    (xs ++ y :: ys).takeWhile p = xs ∧ (xs ++ y :: ys).dropWhile p = y :: ys := by
  induction xs with
  | nil => simp [List.takeWhile, List.dropWhile, hy]
  | cons x xs ih =>
      have hx : p x = true := hxs x (by simp)
      have ih' := ih (fun c hc => hxs c (by simp [hc]))
      simp only [List.cons_append, List.takeWhile_cons, List.dropWhile_cons,
        hx, if_true]
      exact ⟨by rw [ih'.1], by rw [ih'.2]⟩

theorem isDig_not_special {c : Char} (h : isDig c = true) :
    c ≠ '+' ∧ c ≠ '-' ∧ c ≠ '.' ∧ c ≠ 'e' ∧ c ≠ 'E' ∧ isSpacePy c = false := by
  unfold isDig at h
  simp only [Bool.and_eq_true, decide_eq_true_eq] at h
  refine ⟨?_, ?_, ?_, ?_, ?_, ?_⟩
  · intro hc; rw [hc] at h; simp at h
  · intro hc; rw [hc] at h; simp at h
  · intro hc; rw [hc] at h; simp at h
  · intro hc; rw [hc] at h; simp at h
  · intro hc; rw [hc] at h; simp at h
  · unfold isSpacePy
    have h1 : c ≠ ' ' := by intro hc; rw [hc] at h; simp at h
    have h2 : c ≠ '\t' := by intro hc; rw [hc] at h; simp at h
    have h3 : c ≠ '\n' := by intro hc; rw [hc] at h; simp at h
    have h4 : c ≠ '\r' := by intro hc; rw [hc] at h; simp at h
    simp [h1, h2, h3, h4]

theorem parseSign_digit {c : Char} (h : isDig c = true) (cs : List Char) :
    parseSign (c :: cs) = (1, c :: cs) := by
  obtain ⟨h1, h2, -⟩ := isDig_not_special h
  show (if c = '+' then ((1 : Int), cs)
    else if c = '-' then ((-1 : Int), cs) else ((1 : Int), c :: cs)) =
    ((1 : Int), c :: cs)
  rw [if_neg h1, if_neg h2]

theorem strip_right_noop (cs : List Char) (h : cs.getLast? = some 'Z') :
    (cs.reverse.dropWhile isSpacePy).reverse = cs := by
  induction cs using List.reverseRecOn with
  | nil => simp at h
  | append_singleton L z _ =>
      have hz : z = 'Z' := by
        rw [List.getLast?_concat] at h
        exact Option.some_inj.mp h
      subst hz
      rw [List.reverse_append]
      simp only [List.reverse_singleton, List.singleton_append,
        List.dropWhile_cons]
      rw [show isSpacePy 'Z' = false from rfl]
      simp only [Bool.false_eq_true, if_false]
      simp [List.reverse_append]

/-- Fully right-associated form of `strfChars`, exposing each fixed-width
digit group followed by its separator. -/
theorem strfChars_eq (d : PyDatetime) :
    strfChars d = padDig 4 d.year ++ ('-' :: (padDig 2 d.month ++ ('-' ::
      (padDig 2 d.day ++ ('T' :: (padDig 2 d.hour ++ (':' ::
      (padDig 2 d.minute ++ (':' :: (padDig 2 d.second ++ ('.' ::
      (padDig 6 d.microsecond ++ ['Z'])))))))))))) := by
  unfold strfChars
  simp [List.append_assoc]

theorem strfChars_getLast? (d : PyDatetime) :
    (strfChars d).getLast? = some 'Z' := by
  unfold strfChars
  rw [List.getLast?_concat]

/-- The wire timestamp can never be read back as a float: its fifth
character is `-`, which ends the digit run with trailing input left. -/
theorem pyFloat_strftime (d : PyDatetime) :
    pyFloatOfString (strftimeDefault d) = Option.none := by
  show floatParseCore
    ((((strfChars d).dropWhile isSpacePy).reverse.dropWhile isSpacePy).reverse)
    = Option.none
  have hds := padDig_all_dig 4 d.year
  have hhead : ∃ c cs, padDig 4 d.year = c :: cs := by
    simp only [padDig]
    exact ⟨_, _, rfl⟩
  obtain ⟨c0, cs0, hc0⟩ := hhead
  have hc0dig : isDig c0 = true := hds c0 (by rw [hc0]; simp)
  obtain ⟨rest, heq⟩ : ∃ r, strfChars d = padDig 4 d.year ++ '-' :: r :=
    ⟨_, strfChars_eq d⟩
  -- leading whitespace strip is a no-op: the first char is a digit
  have hdw : (strfChars d).dropWhile isSpacePy = strfChars d := by
    rw [heq, hc0]
    simp only [List.cons_append, List.dropWhile_cons,
      (isDig_not_special hc0dig).2.2.2.2.2, Bool.false_eq_true, if_false]
  rw [hdw]
  -- trailing whitespace strip is a no-op: the last char is Z
  rw [strip_right_noop _ (strfChars_getLast? d)]
  rw [heq]
  unfold floatParseCore
  rw [hc0, List.cons_append, parseSign_digit hc0dig]
  simp only
  rw [← List.cons_append, ← hc0]
  have hspan := takeWhile_append_stop (padDig 4 d.year) hds '-'
    (by decide) rest
  rw [hspan.1, hspan.2]
  simp only
  rw [if_neg (by decide : ¬('-' : Char) = '.')]
  have hne : (padDig 4 d.year).isEmpty = false := by
    rw [hc0]; rfl
  simp only [hne, Bool.false_and, Bool.false_eq_true, if_false]
  rw [if_neg (by decide : ¬(('-' : Char) = 'e' ∨ ('-' : Char) = 'E'))]

theorem readFracAux_padDig (k : Nat) :
    ∀ (acc n : Nat) (c : Char) (rest : List Char), isDig c = false →
      readFracAux k acc (padDig k n ++ c :: rest) =
        some (acc * 10 ^ k + n % 10 ^ k, c :: rest) := by
  induction k with
  | zero =>
      intro acc n c rest hc
      show (if isDig c then _ else some (acc * 10 ^ 0, c :: rest)) = _
      rw [hc]
      simp [Nat.mod_one]
  | succ k ih =>
      intro acc n c rest hc
      show (if isDig (digitChar (n / 10 ^ k)) then
          readFracAux k (10 * acc + digitVal (digitChar (n / 10 ^ k)))
            (padDig k n ++ c :: rest)
        else some (acc * 10 ^ (k + 1),
          digitChar (n / 10 ^ k) :: (padDig k n ++ c :: rest))) = _
      rw [isDig_digitChar, if_pos rfl, digitVal_digitChar, ih _ _ _ _ hc]
      congr 2
      have h1 : n % 10 ^ (k + 1) = n % 10 ^ k + 10 ^ k * (n / 10 ^ k % 10) := by
        rw [pow_succ]
        exact Nat.mod_mul
      rw [h1]; ring

theorem expectChar_cons_self (c : Char) (cs : List Char) :
    expectChar c (c :: cs) = some cs := by
  show (if c = c then some cs else Option.none) = some cs
  rw [if_pos rfl]

/-- Parsing the wire rendering of a well-formed datetime recovers its
fields, with the `Z` suffix read as UTC. -/
theorem parseIso_strftime (izt : Bool) (d : PyDatetime) (hwf : d.WF) :
    parseIsoChars izt (strftimeDefault d).toList =
      some ⟨d.year, d.month, d.day, d.hour, d.minute, d.second, d.microsecond,
        if izt then Option.none else some 0⟩ := by
  obtain ⟨h1, h2, h3, h4, h5, h6, h7, h8, h9, h10⟩ := hwf
  have hyr : 0 * 10 ^ 4 + d.year % 10 ^ 4 = d.year := by
    rw [Nat.mod_eq_of_lt (by omega)]; ring
  have hmo : 0 * 10 ^ 2 + d.month % 10 ^ 2 = d.month := by
    rw [Nat.mod_eq_of_lt (by omega)]; ring
  have hdd : 0 * 10 ^ 2 + d.day % 10 ^ 2 = d.day := by
    rw [Nat.mod_eq_of_lt (by omega)]; ring
  have hhr : 0 * 10 ^ 2 + d.hour % 10 ^ 2 = d.hour := by
    rw [Nat.mod_eq_of_lt (by omega)]; ring
  have hmi : 0 * 10 ^ 2 + d.minute % 10 ^ 2 = d.minute := by
    rw [Nat.mod_eq_of_lt (by omega)]; ring
  have hse : 0 * 10 ^ 2 + d.second % 10 ^ 2 = d.second := by
    rw [Nat.mod_eq_of_lt (by omega)]; ring
  have hus : 0 * 10 ^ 6 + d.microsecond % 10 ^ 6 = d.microsecond := by
    rw [Nat.mod_eq_of_lt (by omega)]; ring
  have htoList : (strftimeDefault d).toList = strfChars d := rfl
  rw [htoList, strfChars_eq]
  unfold parseIsoChars
  have hfrac := readFracAux_padDig 6 0 d.microsecond 'Z' [] (by decide)
  have hhead : ((padDig 6 d.microsecond ++ ['Z']).headD 'x') =
      digitChar (d.microsecond / 10 ^ 5) := rfl
  have htz : parseTzPart ['Z'] = some (some 0, []) := by decide
  simp only [readDigits_padDig, expectChar_cons_self, parseTimeOpt,
    parseTimePart, hyr, hmo, hdd, hhr, hmi, hse, reduceIte, hhead,
    isDig_digitChar, hfrac, hus, htz]
  rw [if_pos (by
    refine ⟨rfl, by omega, by omega, by omega, by omega, by omega, by omega,
      by omega, by omega, by omega⟩)]

/-- Every datetime the ISO parser produces is well-formed: the parser
enforces the field ranges (as `dateutil` does through the `datetime`
constructor). -/
theorem parseIso_wf (izt : Bool) (cs : List Char) (d : PyDatetime)
    (hp : parseIsoChars izt cs = some d) : d.WF := by
  unfold parseIsoChars at hp
  split at hp
  · exact absurd hp (by simp)
  rename_i y cs1 hy
  split at hp
  · exact absurd hp (by simp)
  split at hp
  · exact absurd hp (by simp)
  split at hp
  · exact absurd hp (by simp)
  split at hp
  · exact absurd hp (by simp)
  split at hp
  · exact absurd hp (by simp)
  split at hp
  · exact absurd hp (by simp)
  split at hp
  swap
  · exact absurd hp (by simp)
  rename_i hguard
  obtain ⟨-, hg1, hg2, hg3, hg4, hg5, hg6, hg7, hg8, hg9⟩ := hguard
  have hylt : y < 10 ^ 4 := readDigits_lt 4 cs y cs1 hy
  cases hp
  refine ⟨hg1, ?_, hg2, hg3, hg4, hg5, hg6, hg7, hg8, hg9⟩
  show y ≤ 9999
  omega

/-! ## Python value helpers -/

/-- ASCII letter or digit (the regex classes `a-zA-Z0-9` used by the
validators; Python matches them ASCII-only). -/
def isAlnumAscii (c : Char) : Bool :=
  (48 ≤ c.toNat && c.toNat ≤ 57) || (65 ≤ c.toNat && c.toNat ≤ 90) ||
    (97 ≤ c.toNat && c.toNat ≤ 122)

/-- Python truthiness of the values `or` tests (`origin or default`). -/
def pyTruthy : PyVal → Bool
  | .none => false
  | .bool b => b
  | .int n => n ≠ 0
  | .float q => q ≠ 0
  | .str s => s ≠ ""
  | .datetime _ => true
  | .list xs => !xs.isEmpty
  | .dict xs => !xs.isEmpty

/-- Python `a or b`. -/
def pyOr (a b : PyVal) : PyVal := if pyTruthy a then a else b

/-- Decimal digits of `n`, most significant first (`fuel ≥` digit count;
`natDecimal` supplies it). -/
def natDecimalAux : Nat → Nat → List Char
  | 0, _ => []
  | fuel + 1, n =>
      if n < 10 then [digitChar n]
      else natDecimalAux fuel (n / 10) ++ [digitChar (n % 10)]

/-- Decimal rendering of a natural number. -/
def natDecimal (n : Nat) : List Char := natDecimalAux (n + 1) n

/-- Decimal rendering of the fractional part of `r / d`, most significant
digit first, stopping when the remainder vanishes (bounded by `fuel`). -/
def fracDigitsAux : Nat → Nat → Nat → List Char
  | 0, _, _ => []
  | _ + 1, 0, _ => []
  | fuel + 1, r, d => digitChar (r * 10 / d) :: fracDigitsAux fuel (r * 10 % d) d

/-- The digits after the decimal point of `str(float)`: the exact fractional
expansion, or the single digit `0` when it is empty (Python's trailing `.0`
on integral floats). -/
def floatFracDigits (q : ℚ) : List Char :=
  let ds := fracDigitsAux 30 (q.num.natAbs % q.den) q.den
  if ds.isEmpty then ['0'] else ds

/-- Model of Python `str(float)`.  The rationals flowing through this model
are exact decimals, for which this prints the exact shortest decimal form
(with Python's trailing `.0` on integral floats), matching `repr(float)` on
every value this code base handles. -/
def floatStr (q : ℚ) : String :=
  String.mk ((if q.num < 0 then ['-'] else []) ++
    natDecimal (q.num.natAbs / q.den) ++ '.' :: floatFracDigits q)

mutual

/-- Model of Python `repr` on the values that can appear in payloads
(`pyReprList` renders the comma-separated element list of a list,
`pyReprItems` the `'k': v` item list of a dict). -/
def pyRepr : PyVal → String
  | .none => "None"
  | .bool b => if b then "True" else "False"
  | .int n => toString n
  | .float q => floatStr q
  | .str s => "'" ++ s ++ "'"
  | .datetime _ => "datetime.datetime(...)"
  | .list xs => "[" ++ pyReprList xs ++ "]"
  | .dict xs => "\x7b" ++ pyReprItems xs ++ "\x7d"

def pyReprList : List PyVal → String
  | [] => ""
  | [x] => pyRepr x
  | x :: rest => pyRepr x ++ ", " ++ pyReprList rest

def pyReprItems : List (String × PyVal) → String
  | [] => ""
  | [kv] => "'" ++ kv.1 ++ "': " ++ pyRepr kv.2
  | kv :: rest => "'" ++ kv.1 ++ "': " ++ pyRepr kv.2 ++ ", " ++
      pyReprItems rest

end

/-- Model of Python `str` on the values that can appear in payloads. -/
def pyStr : PyVal → String
  | .str s => s
  | v => pyRepr v

/-- Model of Python `type(v)` rendering inside error messages. -/
def pyTypeName : PyVal → String
  | .none => "<class 'NoneType'>"
  | .bool _ => "<class 'bool'>"
  | .int _ => "<class 'int'>"
  | .float _ => "<class 'float'>"
  | .str _ => "<class 'str'>"
  | .datetime _ => "<class 'datetime.datetime'>"
  | .list _ => "<class 'list'>"
  | .dict _ => "<class 'dict'>"

/-! ## Event field validation (`CosmologEvent._validate_*`)

The regexes are modelled as executable character-class predicates.
`re.match(p, s)` with a greedy character-class pattern returns a match on
the longest matching prefix; combined with the `group(0) != s` check (or
an explicit `$`), a string passes exactly when the whole string matches,
which the predicates below test directly. -/

/-- Characters of the class `[a-zA-Z0-9._-]` (stream names, payload keys). -/
def streamBodyChar (c : Char) : Bool :=
  isAlnumAscii c || c = '.' || c = '_' || c = '-'

/-- Full-string match of `[a-zA-Z0-9][a-zA-Z0-9._-]+`: at least two
characters, alphanumeric start, class body. -/
def streamNameOk (s : String) : Bool :=
  match s.toList with
  | c :: c2 :: rest => isAlnumAscii c && (c2 :: rest).all streamBodyChar
  | _ => false

/-- Characters of the class `[A-Z0-9_-]` with `re.IGNORECASE`. -/
def fqdnChar (c : Char) : Bool := isAlnumAscii c || c = '_' || c = '-'

/-- `str.split('.')`: cut at every dot, keeping empty pieces. -/
def splitDotAux : List Char → List Char → List String
  | [], acc => [String.mk acc.reverse]
  | c :: rest, acc =>
      if c = '.' then String.mk acc.reverse :: splitDotAux rest []
      else splitDotAux rest (c :: acc)

/-- Python `s.split('.')`. -/
def splitDot (s : String) : List String := splitDotAux s.toList []

/-- Full-string match of `(?!-)[A-Z0-9_-]{1,63}(?<!-)$` (case-insensitive)
on one dot-separated label.  Python's `$` also matches before one trailing
newline, which the model reproduces. -/
def originPartOk (part : String) : Bool :=
  let cs := part.toList
  let core := if cs.getLast? = some '\n' then cs.dropLast else cs
  decide (1 ≤ core.length) && decide (core.length ≤ 63) &&
    core.all fqdnChar && !(core.headD '-' = '-') && !(core.getLastD '-' = '-')

/-- Model of `CosmologEvent._validate_origin`.  Returns the origin string on
success; a non-string origin raises an untyped `TypeError` (from `len` or
`.split`), as in Python. -/
def validateOrigin : PyVal → Except Err String
  | .str s =>
      if s.length > 255 then
        .error (.cosmolog ["ValidationError",
          "Invalid origin: \"" ++ s ++
            "\". Origin length cannot exceed 255 characters"])
      else if (splitDot s).all originPartOk then .ok s
      else .error (.cosmolog ["ValidationError",
        "Origin must be a fully qualified domain name"])
  | .list xs =>
      if xs.length > 255 then
        .error (.cosmolog ["ValidationError",
          "Invalid origin: \"" ++ pyStr (.list xs) ++
            "\". Origin length cannot exceed 255 characters"])
      else .error (.typeError "list object has no attribute split")
  | .none => .error (.typeError "object of type NoneType has no len()")
  | v => .error (.typeError ("object of type " ++ pyTypeName v ++
      " has no len()"))

/-- Model of `CosmologEvent._validate_stream_name`.  `re.match` on a
non-string raises an untyped `TypeError`. -/
def validateStreamName : PyVal → Except Err String
  | .str s =>
      if streamNameOk s then .ok s
      else .error (.cosmolog ["ValidationError",
        "Invalid stream_name: \"" ++ s ++
          "\". Stream name can contain alphanumeric characters and \"_\", \"-\", \".\""])
  | _ => .error (.typeError "expected string or bytes-like object")

/-- Model of `CosmologEvent._validate_payload_key`. -/
def validatePayloadKey (k : String) : Except Err Unit :=
  if streamNameOk k then .ok ()
  else .error (.cosmolog ["ValidationError",
    "Invalid payload key: \"" ++ k ++
      "\". Payload keys can contain alphanumeric characters, underscores, dashes, and dots."])

/-- Model of `CosmologEvent._validate_payload_value`: the value's exact type
must be one of the scalar primitives. -/
def validatePayloadValue (v : PyVal) : Except Err Unit :=
  match v with
  | .bool _ | .int _ | .float _ | .str _ | .none => .ok ()
  | v => .error (.cosmolog ["ValidationError",
      "Invalid payload value: \"" ++ pyStr v ++
        "\". Payload values can be any scalar type. No lists, dicts or other complex types. Not type "
        ++ pyTypeName v])

/-- Per-entry checks of the payload dict comprehension, in iteration order
(key first, then value, short-circuiting on the first failure). -/
def checkEntries : List (String × PyVal) → Except Err Unit
  | [] => .ok ()
  | (k, v) :: rest =>
      match validatePayloadKey k with
      | .error e => .error e
      | .ok _ =>
          match validatePayloadValue v with
          | .error e => .error e
          | .ok _ => checkEntries rest

/-- Model of `CosmologEvent._validate_payload`.  A non-mapping payload
raises `CosmologgerException(msg)` with a single argument — no
`ValidationError` tag.  On success the original entries are returned (the
constructor stores the payload it was handed, not the comprehension's
result, which the source discards). -/
def validatePayload : PyVal → Except Err (List (String × PyVal))
  | .dict entries =>
      match checkEntries entries with
      | .error e => .error e
      | .ok _ => .ok entries
  | v => .error (.cosmolog [
      "Invalid payload: \"" ++ pyStr v ++
        "\". Payload must be a dictionary, not type " ++ pyTypeName v])

/-! ## Timestamp coercion (`CosmologEvent._coerce_timestamp`) -/

/-- The microsecond count `utcfromtimestamp` keeps: `⌊q·10⁶ + 1/2⌋`,
computed as the floor division `(2·num·10⁶ + den) fdiv (2·den)` (Python
rounds to the nearest microsecond; exact halves are not exercised by this
code base). -/
def roundMicros (q : ℚ) : Int :=
  Int.fdiv (2 * q.num * 1000000 + (q.den : Int)) (2 * (q.den : Int))

/-- Model of `datetime.utcfromtimestamp` on an exact rational number of
seconds: scale to microseconds, range-check against the years 1–9999, and
convert.  Out-of-range input raises `ValueError`. -/
def utcfromtimestamp (q : ℚ) : Except Err PyDatetime :=
  let m : Int := roundMicros q
  if minEpochMicros ≤ m ∧ m ≤ maxEpochMicros then .ok (fromEpochMicros m)
  else .error (.valueError "year is out of range")

/-- Model of `CosmologEvent._coerce_timestamp`, with `now` the value the
host clock would return for `datetime.now(utc)`.  Note the final
`t.replace(tzinfo=utc)`: the timezone label is overwritten without
converting the instant.  Only `float(t)` and `utcfromtimestamp` failures on
the string branch are caught (falling back to `dateparse`); a `dateparse`
failure, or an out-of-range numeric timestamp, escapes untyped. -/
def coerceTimestamp (now : PyDatetime) : PyVal → Except Err String
  | .datetime d => .ok (strftimeDefault d.replaceTzUtc)
  | .str s =>
      if s = "now" then .ok (strftimeDefault now.replaceTzUtc)
      else
        match pyFloatOfString s with
        | some q =>
            match utcfromtimestamp q with
            | .ok d => .ok (strftimeDefault d.replaceTzUtc)
            | .error _ =>
                match dateparse false s with
                | .ok d => .ok (strftimeDefault d.replaceTzUtc)
                | .error e => .error e
        | Option.none =>
            match dateparse false s with
            | .ok d => .ok (strftimeDefault d.replaceTzUtc)
            | .error e => .error e
  | .bool b =>
      match utcfromtimestamp (mkRat (if b then 1 else 0) 1) with
      | .ok d => .ok (strftimeDefault d.replaceTzUtc)
      | .error e => .error e
  | .int n =>
      match utcfromtimestamp (mkRat n 1) with
      | .ok d => .ok (strftimeDefault d.replaceTzUtc)
      | .error e => .error e
  | .float q =>
      match utcfromtimestamp q with
      | .ok d => .ok (strftimeDefault d.replaceTzUtc)
      | .error e => .error e
  | v => .error (.cosmolog ["Unable to parse " ++ pyStr v ++ " (" ++
      pyTypeName v ++ ") to UTC time"])

/-! ## The event (`CosmologEvent`) -/

/-- The canonical structured event: the dict the Python `CosmologEvent`
holds after `__init__`.  `stream_name`, `origin` and `timestamp` are
guaranteed strings by validation/coercion; the other fields are stored
verbatim. -/
structure CosmologEvent where
  version : PyVal
  stream_name : String
  origin : String
  timestamp : String
  format : PyVal
  level : PyVal
  payload : List (String × PyVal)

/-- Model of `CosmologEvent.__init__`: default the origin, validate origin,
stream name and payload (in that order), coerce the timestamp, store.
`fqdn` models `socket.getfqdn()` and `now` models the host clock. -/
def CosmologEvent.init (fqdn : String) (now : PyDatetime)
    (version stream_name origin timestamp format level payload : PyVal) :
    Except Err CosmologEvent :=
  match validateOrigin (pyOr origin (.str fqdn)) with
  | .error e => .error e
  | .ok originS =>
      match validateStreamName stream_name with
      | .error e => .error e
      | .ok streamS =>
          match validatePayload payload with
          | .error e => .error e
          | .ok entries =>
              match coerceTimestamp now timestamp with
              | .error e => .error e
              | .ok ts =>
                  .ok ⟨version, streamS, originS, ts, format, level, entries⟩

/-! ## The JSON layer

`Json` is the document a wire line denotes, distinguishing ints, floats and
booleans exactly as Python's `json` module does.  `jsonLoads` is an
executable model of `json.loads` (numbers are read as exact rationals;
`\uXXXX` escapes outside the surrogate range are decoded; control-character
strictness and trailing-comma rejection follow the Python grammar). -/

/-- JSON documents. -/
inductive Json where
  | null
  | b (v : Bool)
  | int (n : Int)
  | float (q : ℚ)
  | str (s : String)
  | arr (xs : List Json)
  | obj (entries : List (String × Json))

mutual

/-- The Python value a decoded JSON document denotes. -/
def jsonToPy : Json → PyVal
  | .null => .none
  | .b v => .bool v
  | .int n => .int n
  | .float q => .float q
  | .str s => .str s
  | .arr xs => .list (jsonToPyArr xs)
  | .obj es => .dict (jsonToPyObj es)

def jsonToPyArr : List Json → List PyVal
  | [] => []
  | x :: rest => jsonToPy x :: jsonToPyArr rest

def jsonToPyObj : List (String × Json) → List (String × PyVal)
  | [] => []
  | kv :: rest => (kv.1, jsonToPy kv.2) :: jsonToPyObj rest

end

/-- JSON encoding of a scalar Python value.  `json.dumps` also encodes
nested lists and dicts (and rejects datetimes with `TypeError`); the claims
settled here only exercise scalar `version`/`format`/`level` fields and
scalar-validated payload values, so containers are marked unserializable
rather than recursively encoded. -/
def pyToJson : PyVal → Option Json
  | .none => some .null
  | .bool v => some (.b v)
  | .int n => some (.int n)
  | .float q => some (.float q)
  | .str s => some (.str s)
  | _ => Option.none

/-- The JSON document `json.dumps(self)` serializes (the `json` property):
the seven keys in the insertion order `__init__` fixes. -/
def CosmologEvent.serializeDoc (e : CosmologEvent) : Option Json := do
  let v ← pyToJson e.version
  let f ← pyToJson e.format
  let l ← pyToJson e.level
  let pl ← e.payload.mapM (fun kv => do
    let jv ← pyToJson kv.2
    pure (kv.1, jv))
  pure (.obj [("version", v), ("stream_name", .str e.stream_name),
    ("origin", .str e.origin), ("timestamp", .str e.timestamp),
    ("format", f), ("level", l), ("payload", .obj pl)])

/-- JSON whitespace. -/
def jsonWs (c : Char) : Bool := c = ' ' || c = '\t' || c = '\n' || c = '\r'

/-- Python-dict insertion: overwrite in place when the key exists, append
otherwise (duplicate keys in a JSON object: the last value wins, first
position kept). -/
def dictInsert (es : List (String × Json)) (k : String) (v : Json) :
    List (String × Json) :=
  match es with
  | [] => [(k, v)]
  | (k', v') :: rest =>
      if k' = k then (k', v) :: rest else (k', v') :: dictInsert rest k v

/-- Hexadecimal digit value. -/
def hexVal (c : Char) : Option Nat :=
  if 48 ≤ c.toNat ∧ c.toNat ≤ 57 then some (c.toNat - 48)
  else if 97 ≤ c.toNat ∧ c.toNat ≤ 102 then some (c.toNat - 87)
  else if 65 ≤ c.toNat ∧ c.toNat ≤ 70 then some (c.toNat - 55)
  else Option.none

/-- Expect a literal character sequence. -/
def expectLit : List Char → List Char → Option (List Char)
  | [], cs => some cs
  | _ :: _, [] => Option.none
  | l :: ls, c :: cs => if c = l then expectLit ls cs else Option.none

/-- Scan a JSON string body after the opening quote. -/
def jsonStringAux : Nat → List Char → List Char → Option (String × List Char)
  | 0, _, _ => Option.none
  | _ + 1, _, [] => Option.none
  | fuel + 1, acc, c :: cs =>
      if c = '"' then some (String.mk acc.reverse, cs)
      else if c = '\\' then
        match cs with
        | [] => Option.none
        | e :: cs2 =>
            if e = '"' then jsonStringAux fuel ('"' :: acc) cs2
            else if e = '\\' then jsonStringAux fuel ('\\' :: acc) cs2
            else if e = '/' then jsonStringAux fuel ('/' :: acc) cs2
            else if e = 'n' then jsonStringAux fuel ('\n' :: acc) cs2
            else if e = 't' then jsonStringAux fuel ('\t' :: acc) cs2
            else if e = 'r' then jsonStringAux fuel ('\r' :: acc) cs2
            else if e = 'b' then jsonStringAux fuel (Char.ofNat 8 :: acc) cs2
            else if e = 'f' then jsonStringAux fuel (Char.ofNat 12 :: acc) cs2
            else if e = 'u' then
              match cs2 with
              | h1 :: h2 :: h3 :: h4 :: cs3 =>
                  match hexVal h1, hexVal h2, hexVal h3, hexVal h4 with
                  | some a, some b, some c', some d =>
                      jsonStringAux fuel
                        (Char.ofNat (((a * 16 + b) * 16 + c') * 16 + d) :: acc)
                        cs3
                  | _, _, _, _ => Option.none
              | _ => Option.none
            else Option.none
      else jsonStringAux fuel (c :: acc) cs

/-- Parse a JSON number (strict grammar: no leading zeros, at least one
digit in each part), as an exact `int` or `float`. -/
def jsonNumber (cs : List Char) : Option (Json × List Char) :=
  let p := match cs with
    | c :: r => if c = '-' then (true, r) else (false, cs)
    | [] => (false, ([] : List Char))
  let ip := p.2.takeWhile isDig
  let cs2 := p.2.dropWhile isDig
  if ip.isEmpty then Option.none
  else if 1 < ip.length ∧ ip.headD 'x' = '0' then Option.none
  else
    let fr := match cs2 with
      | c :: r =>
          if c = '.' then
            let fd := r.takeWhile isDig
            if fd.isEmpty then Option.none
            else some (fd, r.dropWhile isDig)
          else some ([], cs2)
      | [] => some (([] : List Char), ([] : List Char))
    match fr with
    | Option.none => Option.none
    | some (fd, cs3) =>
        let ex := match cs3 with
          | c :: r =>
              if c = 'e' ∨ c = 'E' then
                let pe := parseSign r
                let ed := pe.2.takeWhile isDig
                if ed.isEmpty then Option.none
                else some (some (pe.1 * (digitsVal ed : Int)),
                  pe.2.dropWhile isDig)
              else some (Option.none, cs3)
          | [] => some (Option.none, ([] : List Char))
        match ex with
        | Option.none => Option.none
        | some (eo, rest) =>
            match fd, eo with
            | [], Option.none =>
                some (.int ((if p.1 then -1 else 1) * (digitsVal ip : Int)),
                  rest)
            | _, _ =>
                let mant : Int := (if p.1 then -1 else 1) *
                  ((digitsVal ip * 10 ^ fd.length + digitsVal fd : Nat) : Int)
                let e : Int := eo.getD 0
                if 0 ≤ e then
                  some (.float (mkRat (mant * 10 ^ e.toNat) (10 ^ fd.length)),
                    rest)
                else
                  some (.float (mkRat mant (10 ^ fd.length * 10 ^ e.natAbs)),
                    rest)

mutual

/-- Parse one JSON value (fuel-bounded recursive descent). -/
def jsonVal : Nat → List Char → Option (Json × List Char)
  | 0, _ => Option.none
  | fuel + 1, cs =>
      match cs.dropWhile jsonWs with
      | [] => Option.none
      | c :: rest =>
          if c = 'n' then
            match expectLit ['u', 'l', 'l'] rest with
            | some r => some (.null, r)
            | Option.none => Option.none
          else if c = 't' then
            match expectLit ['r', 'u', 'e'] rest with
            | some r => some (.b true, r)
            | Option.none => Option.none
          else if c = 'f' then
            match expectLit ['a', 'l', 's', 'e'] rest with
            | some r => some (.b false, r)
            | Option.none => Option.none
          else if c = '"' then
            match jsonStringAux (rest.length + 1) [] rest with
            | some (s, r) => some (.str s, r)
            | Option.none => Option.none
          else if c = '[' then
            match rest.dropWhile jsonWs with
            | ']' :: r2 => some (.arr [], r2)
            | _ => match jsonArrItems fuel rest with
                   | some (vs, r) => some (.arr vs, r)
                   | Option.none => Option.none
          else if c = '\x7b' then
            match rest.dropWhile jsonWs with
            | '\x7d' :: r2 => some (.obj [], r2)
            | _ => match jsonObjItems fuel [] rest with
                   | some (es, r) => some (.obj es, r)
                   | Option.none => Option.none
          else jsonNumber (c :: rest)

/-- Parse the comma-separated items of a (nonempty) array, then `]`. -/
def jsonArrItems : Nat → List Char → Option (List Json × List Char)
  | 0, _ => Option.none
  | fuel + 1, cs =>
      match jsonVal fuel cs with
      | Option.none => Option.none
      | some (v, r) =>
          match r.dropWhile jsonWs with
          | c :: r2 =>
              if c = ',' then
                match jsonArrItems fuel r2 with
                | some (vs, r3) => some (v :: vs, r3)
                | Option.none => Option.none
              else if c = ']' then some ([v], r2)
              else Option.none
          | [] => Option.none

/-- Parse the comma-separated members of a (nonempty) object, then `}`. -/
def jsonObjItems : Nat → List (String × Json) → List Char →
    Option (List (String × Json) × List Char)
  | 0, _, _ => Option.none
  | fuel + 1, acc, cs =>
      match cs.dropWhile jsonWs with
      | c :: r =>
          if c = '"' then
            match jsonStringAux (r.length + 1) [] r with
            | Option.none => Option.none
            | some (k, r2) =>
                match r2.dropWhile jsonWs with
                | c2 :: r3 =>
                    if c2 = ':' then
                      match jsonVal fuel r3 with
                      | Option.none => Option.none
                      | some (v, r4) =>
                          match r4.dropWhile jsonWs with
                          | c3 :: r5 =>
                              if c3 = ',' then
                                jsonObjItems fuel (dictInsert acc k v) r5
                              else if c3 = '\x7d' then
                                some (dictInsert acc k v, r5)
                              else Option.none
                          | [] => Option.none
                    else Option.none
                | [] => Option.none
          else Option.none
      | [] => Option.none

end

/-- Model of `json.loads`. -/
def jsonLoads (s : String) : Except String Json :=
  match jsonVal (s.toList.length * 2 + 4) s.toList with
  | Option.none => .error "Expecting value: line 1 column 1 (char 0)"
  | some (j, rest) =>
      if (rest.dropWhile jsonWs).isEmpty then .ok j
      else .error "Extra data"

/-- Model of `CosmologEvent.from_dict` / `cls(**d)` on a decoded JSON
document: a non-object blows up with `TypeError` (`cls(**42)`), as does an
object carrying a key that is not one of the seven parameter names; absent
parameters take `__init__`'s defaults. -/
def from_json_doc (fqdn : String) (now : PyDatetime) (j : Json) :
    Except Err CosmologEvent :=
  match j with
  | .obj entries =>
      if entries.all (fun kv =>
          ["version", "stream_name", "origin", "timestamp", "format",
            "level", "payload"].contains kv.1) then
        CosmologEvent.init fqdn now
          (match entries.lookup "version" with
           | some v => jsonToPy v | Option.none => .int 0)
          (match entries.lookup "stream_name" with
           | some v => jsonToPy v | Option.none => .none)
          (match entries.lookup "origin" with
           | some v => jsonToPy v | Option.none => .none)
          (match entries.lookup "timestamp" with
           | some v => jsonToPy v | Option.none => .none)
          (match entries.lookup "format" with
           | some v => jsonToPy v | Option.none => .none)
          (match entries.lookup "level" with
           | some v => jsonToPy v | Option.none => .none)
          (match entries.lookup "payload" with
           | some v => jsonToPy v | Option.none => .dict [])
      else .error
        (.typeError "__init__() got an unexpected keyword argument")
  | _ => .error (.typeError "argument after ** must be a mapping")

/-- Model of `CosmologEvent.from_json`: `json.loads`, whose `ValueError` is
re-raised as a typed `CosmologgerException`, then `from_dict`. -/
def CosmologEvent.from_json (fqdn : String) (now : PyDatetime) (j : String) :
    Except Err CosmologEvent :=
  match jsonLoads j with
  | .error m => .error (.cosmolog [m])
  | .ok doc => from_json_doc fqdn now doc

/-! ## Model of `json.dumps`

`CosmologEvent.json` is `json.dumps(self)` with the default separators
`', '` and `': '` and `ensure_ascii=True`.  Decimal integer rendering is
modelled by `natDecimal`/`intDecimal`; float rendering reuses `floatStr`
(`repr`).  Non-ASCII and control characters are escaped (`\uXXXX` rendering
covers the Basic Multilingual Plane, which is all this code base meets). -/

/-- Decimal rendering of an integer. -/
def intDecimal (n : Int) : List Char :=
  if n < 0 then '-' :: natDecimal n.natAbs else natDecimal n.toNat

/-- Lowercase hexadecimal digit. -/
def hexDigitChar (n : Nat) : Char :=
  if n % 16 < 10 then Char.ofNat (48 + n % 16) else Char.ofNat (87 + n % 16)

/-- Zero-padded `k`-digit hexadecimal rendering of `n`, most significant
digit first. -/
def padHex : Nat → Nat → List Char
  | 0, _ => []
  | k + 1, n => hexDigitChar (n / 16 ^ k) :: padHex k n

/-- Characters `json.dumps` emits verbatim inside a string literal:
printable ASCII other than the quote and the backslash. -/
def jsonPlainChar (c : Char) : Bool :=
  32 ≤ c.toNat && c.toNat < 127 && !(c = '"') && !(c = '\\')

/-- A string `json.dumps` emits verbatim (between quotes). -/
def jsonPlain (s : String) : Bool := s.toList.all jsonPlainChar

/-- The escape `json.dumps` (with `ensure_ascii=True`) emits for one
character. -/
def jsonEscapeChar (c : Char) : List Char :=
  if c = '"' then ['\\', '"']
  else if c = '\\' then ['\\', '\\']
  else if c = '\n' then ['\\', 'n']
  else if c = '\t' then ['\\', 't']
  else if c = '\r' then ['\\', 'r']
  else if c.toNat = 8 then ['\\', 'b']
  else if c.toNat = 12 then ['\\', 'f']
  else if c.toNat < 32 ∨ 127 ≤ c.toNat then '\\' :: 'u' :: padHex 4 c.toNat
  else [c]

/-- Escaped rendering of a string body. -/
def jsonEscapeStr : List Char → List Char
  | [] => []
  | c :: cs => jsonEscapeChar c ++ jsonEscapeStr cs

mutual

/-- `json.dumps` of a document (default separators). -/
def jsonDumpsVal : Json → List Char
  | .null => ['n', 'u', 'l', 'l']
  | .b true => ['t', 'r', 'u', 'e']
  | .b false => ['f', 'a', 'l', 's', 'e']
  | .int n => intDecimal n
  | .float q => (floatStr q).toList
  | .str s => '"' :: (jsonEscapeStr s.toList ++ ['"'])
  | .arr xs => '[' :: (jsonDumpsArr xs ++ [']'])
  | .obj es => '\x7b' :: (jsonDumpsObj es ++ ['\x7d'])

def jsonDumpsArr : List Json → List Char
  | [] => []
  | [x] => jsonDumpsVal x
  | x :: rest => jsonDumpsVal x ++ ',' :: ' ' :: jsonDumpsArr rest

def jsonDumpsObj : List (String × Json) → List Char
  | [] => []
  | [kv] => '"' :: (jsonEscapeStr kv.1.toList ++ '"' :: ':' :: ' ' ::
      jsonDumpsVal kv.2)
  | kv :: rest => '"' :: (jsonEscapeStr kv.1.toList ++ '"' :: ':' :: ' ' ::
      jsonDumpsVal kv.2 ++ ',' :: ' ' :: jsonDumpsObj rest)

end

/-- The wire line `json.dumps` produces for a document. -/
def jsonDumps (j : Json) : String := String.mk (jsonDumpsVal j)

/-- Whether what follows a rendered number cannot extend it (the characters
that follow a value in a rendered document — `,`, `\x7d`, or nothing —
satisfy this). -/
def numStop : List Char → Bool
  | [] => true
  | c :: _ => !isDig c && !(c = '.') && !(c = 'e') && !(c = 'E')

/-- A Unicode scalar in the Basic Multilingual Plane.  The `ensure_ascii`
escaping model renders one `\uXXXX` escape per character; Python encodes an
astral character as a surrogate pair instead, which this model does not
reproduce, so the inversion lemmas are stated over BMP strings. -/
def bmpChar (c : Char) : Bool := decide (c.toNat < 65536)

/-- A string of BMP characters (every string this code base meets). -/
def bmpStr (s : String) : Bool := s.toList.all bmpChar

/-- The rationals that stand for floats in this model: exact decimals of at
most thirty fractional digits (`floatStr`'s exactness bound).  Every float
value written in the sources and tests is of this form. -/
def decimalFloat (q : ℚ) : Bool := decide (10 ^ 30 % q.den = 0)

/-- The scalar documents whose rendered form is covered by the round-trip
inversion lemmas: everything the wire format carries except datetimes
(which `json.dumps` genuinely rejects) and containers. -/
def wireScalarJson : Json → Bool
  | .null => true
  | .b _ => true
  | .int _ => true
  | .float q => decimalFloat q
  | .str s => bmpStr s
  | _ => false

/-- The Python values whose serialized form is covered by the round-trip
inversion lemmas. -/
def wirePyScalar : PyVal → Bool
  | .none => true
  | .bool _ => true
  | .int _ => true
  | .float q => decimalFloat q
  | .str s => bmpStr s
  | _ => false

/-! ## The level registry and ANSI colors -/

/-- Model of `Cosmologger.to_cosmolog_level`: `_level_mappings.get(lvl)`.
The dict literal keys collapse (`logging.FATAL == logging.CRITICAL == 50`,
`logging.WARN == logging.WARNING == 30`), leaving
`{50: 100, 40: 200, 30: 300, 20: 400, 10: 500}`; `.get` returns `None` for
any other key. -/
def to_cosmolog_level (lvl : Int) : Option Int :=
  if lvl = 50 then some 100
  else if lvl = 40 then some 200
  else if lvl = 30 then some 300
  else if lvl = 20 then some 400
  else if lvl = 10 then some 500
  else Option.none

/-- Lookup in the mixed `LEVELS` dict (six int keys to names, six string
keys to ranks).  Python equates numeric keys across int/float/bool; other
values miss (raising `KeyError` at the subscript site). -/
def LEVELS_lookup : PyVal → Option PyVal
  | .int n =>
      if n = 100 then some (.str "FATAL")
      else if n = 200 then some (.str "ERROR")
      else if n = 300 then some (.str "WARN")
      else if n = 400 then some (.str "INFO")
      else if n = 500 then some (.str "DEBUG")
      else if n = 600 then some (.str "TRACE")
      else Option.none
  | .float q =>
      if q = 100 then some (.str "FATAL")
      else if q = 200 then some (.str "ERROR")
      else if q = 300 then some (.str "WARN")
      else if q = 400 then some (.str "INFO")
      else if q = 500 then some (.str "DEBUG")
      else if q = 600 then some (.str "TRACE")
      else Option.none
  | .str s =>
      if s = "FATAL" then some (.int 100)
      else if s = "ERROR" then some (.int 200)
      else if s = "WARN" then some (.int 300)
      else if s = "INFO" then some (.int 400)
      else if s = "DEBUG" then some (.int 500)
      else if s = "TRACE" then some (.int 600)
      else Option.none
  | _ => Option.none

/-- The ANSI escape constants of the sources. -/
def CRESET : String := "\x1b[0m"

/-- Red foreground escape. -/
def CRED : String := "\x1b[31m"

/-- Green foreground escape. -/
def CGREEN : String := "\x1b[32m"

/-- Yellow foreground escape. -/
def CYELLOW : String := "\x1b[33m"

/-- Blue foreground escape. -/
def CBLUE : String := "\x1b[34m"

/-- Red background escape. -/
def BRED : String := "\x1b[41m"

/-- The strip list `COLOR_CODES`, in source order. -/
def COLOR_CODES : List String := [CRESET, CRED, CGREEN, CYELLOW, CBLUE, BRED]

/-- Wrap in red. -/
def red (s : String) : String := CRED ++ s ++ CRESET

/-- Wrap in red background. -/
def bg_red (s : String) : String := BRED ++ s ++ CRESET

/-- Wrap in green. -/
def green (s : String) : String := CGREEN ++ s ++ CRESET

/-- Wrap in yellow. -/
def yellow (s : String) : String := CYELLOW ++ s ++ CRESET

/-- Wrap in blue. -/
def blue (s : String) : String := CBLUE ++ s ++ CRESET

/-- Lookup in `LEVEL_COLORS` (`.get`: `None` for unmapped levels). -/
def LEVEL_COLORS_lookup : PyVal → Option String
  | .int n =>
      if n = 100 then some (bg_red "FATAL")
      else if n = 200 then some (bg_red "ERROR")
      else if n = 300 then some (yellow "WARN")
      else if n = 400 then some (green "INFO")
      else if n = 500 then some "DEBUG"
      else if n = 600 then some "TRACE"
      else Option.none
  | .float q =>
      if q = 100 then some (bg_red "FATAL")
      else if q = 200 then some (bg_red "ERROR")
      else if q = 300 then some (yellow "WARN")
      else if q = 400 then some (green "INFO")
      else if q = 500 then some "DEBUG"
      else if q = 600 then some "TRACE"
      else Option.none
  | _ => Option.none

/-- Model of `re.sub` of each known color code by the empty string
(`_clear_colors`), in source order. -/
def clearColors (s : String) : String :=
  COLOR_CODES.foldl (fun acc c => acc.replace c "") s

/-! ## Template substitution

`_PayloadFormatter().vformat(fmt, [], payload)` substitutes `{name}`
placeholders, with `get_field` overridden to look the whole field name up
in the payload (so dotted and dashed keys work).  The CLI's
`fmt.format(**payload)` instead uses `str.format`'s standard field
resolution, where a dot splits off attribute access.  Format specs
(`{x:...}`) and conversions (`{x!r}`) are not modelled (treated as part of
the field name); no input in this code base uses them. -/

/-- Core scanner shared by both substitution models.  `permissive` selects
the `_PayloadFormatter` lookup (whole name) over `str.format`'s
(dot splits off attribute access). -/
def vformatAux (permissive : Bool) (kwargs : List (String × PyVal)) :
    Nat → List Char → Except Err (List Char)
  | 0, _ => .error (.valueError "format recursion fuel exhausted")
  | _ + 1, [] => .ok []
  | fuel + 1, c :: cs =>
      if c = '\x7b' then
        match cs with
        | [] => .error (.valueError "Single brace encountered in format string")
        | c2 :: cs2 =>
            if c2 = '\x7b' then
              match vformatAux permissive kwargs fuel cs2 with
              | .ok r => .ok ('\x7b' :: r)
              | .error e => .error e
            else
              let name := cs.takeWhile (fun x => !(x = '\x7d'))
              let rest := cs.dropWhile (fun x => !(x = '\x7d'))
              match rest with
              | [] => .error (.valueError "expected closing brace before end of string")
              | _ :: rest2 =>
                  let key := String.mk name
                  if permissive then
                    match kwargs.lookup key with
                    | some v =>
                        match vformatAux permissive kwargs fuel rest2 with
                        | .ok r => .ok ((pyStr v).toList ++ r)
                        | .error e => .error e
                    | Option.none => .error (.keyError key)
                  else
                    let base := String.mk (name.takeWhile (fun x => !(x = '.')))
                    if base = key then
                      match kwargs.lookup key with
                      | some v =>
                          match vformatAux permissive kwargs fuel rest2 with
                          | .ok r => .ok ((pyStr v).toList ++ r)
                          | .error e => .error e
                      | Option.none => .error (.keyError key)
                    else
                      match kwargs.lookup base with
                      | some _ => .error (.attributeError
                          "scalar object has no such attribute")
                      | Option.none => .error (.keyError base)
      else if c = '\x7d' then
        match cs with
        | c2 :: cs2 =>
            if c2 = '\x7d' then
              match vformatAux permissive kwargs fuel cs2 with
              | .ok r => .ok ('\x7d' :: r)
              | .error e => .error e
            else .error (.valueError "Single brace encountered in format string")
        | [] => .error (.valueError "Single brace encountered in format string")
      else
        match vformatAux permissive kwargs fuel cs with
        | .ok r => .ok (c :: r)
        | .error e => .error e

/-- Model of `_PayloadFormatter().vformat(fmt, [], kwargs)`. -/
def vformat (fmt : String) (kwargs : List (String × PyVal)) :
    Except Err String :=
  match vformatAux true kwargs (fmt.toList.length + 1) fmt.toList with
  | .ok cs => .ok (String.mk cs)
  | .error e => .error e

/-- Model of the CLI's plain `fmt.format(**kwargs)`. -/
def pyFormat (fmt : String) (kwargs : List (String × PyVal)) :
    Except Err String :=
  match vformatAux false kwargs (fmt.toList.length + 1) fmt.toList with
  | .ok cs => .ok (String.mk cs)
  | .error e => .error e

/-! ## The human formatter (`CosmologgerHumanFormatter`) -/

/-- English month abbreviations for `%b`. -/
def monthAbbrev (m : Nat) : String :=
  match m with
  | 1 => "Jan" | 2 => "Feb" | 3 => "Mar" | 4 => "Apr" | 5 => "May"
  | 6 => "Jun" | 7 => "Jul" | 8 => "Aug" | 9 => "Sep" | 10 => "Oct"
  | 11 => "Nov" | 12 => "Dec" | _ => "?"

/-- One `strftime` directive. -/
def strfDirective (c : Char) (d : PyDatetime) : List Char :=
  if c = 'Y' then padDig 4 d.year
  else if c = 'm' then padDig 2 d.month
  else if c = 'd' then padDig 2 d.day
  else if c = 'H' then padDig 2 d.hour
  else if c = 'M' then padDig 2 d.minute
  else if c = 'S' then padDig 2 d.second
  else if c = 'f' then padDig 6 d.microsecond
  else if c = 'b' then (monthAbbrev d.month).toList
  else if c = '%' then ['%']
  else ['%', c]

/-- Scanner for `strftime` with an arbitrary format string (the directives
this code base uses). -/
def strftimeAux (d : PyDatetime) : List Char → List Char
  | [] => []
  | c :: cs =>
      if c = '%' then
        match cs with
        | [] => ['%']
        | c2 :: cs2 => strfDirective c2 d ++ strftimeAux d cs2
      else c :: strftimeAux d cs

/-- `d.strftime(fmt)` for a caller-supplied format string. -/
def strftimeFmt (fmt : String) (d : PyDatetime) : String :=
  String.mk (strftimeAux d fmt.toList)

/-- The human formatter's default date formats, keyed by color mode
(`_default_datefmt` in `cosmologger.py`). -/
def hfDefaultDatefmt (color : Bool) : String :=
  if color then CRED ++ "%b %d " ++ CGREEN ++ "%H:%M:%S" ++ CRESET
  else "%b %d %H:%M:%S"

/-- Model of `CosmologgerHumanFormatter._format_timestamp`: reparse the
stored ISO string ignoring its offset, relabel as UTC, render with the
configured date format.  A `dateutil` failure propagates untyped. -/
def hfFormatTimestamp (datefmt : String) (ts : String) : Except Err String :=
  match dateparse true ts with
  | .ok d => .ok (strftimeFmt datefmt d.replaceTzUtc)
  | .error e => .error e

/-- The payload segment of `CosmologgerHumanFormatter.event_format`: when a
format string is present, substitute the payload into it, falling back to
the `BadLogFormat("<format>") <payload-repr>` marker on a missing key
(`KeyError` only — other failures propagate); with no format string, render
the payload as a comma-joined `key: value` list. -/
def humanPayloadPart (fmtV : PyVal) (payload : List (String × PyVal)) :
    Except Err String :=
  if pyTruthy fmtV then
    match fmtV with
    | .str fmt =>
        match vformat fmt payload with
        | .ok s => .ok s
        | .error (.keyError _) =>
            .ok ("BadLogFormat(\"" ++ fmt ++ "\") " ++ pyStr (.dict payload))
        | .error e => .error e
    | v => .error (.typeError ("format object is not a string: " ++
        pyTypeName v))
  else
    .ok (String.intercalate ", "
      (payload.map (fun kv => kv.1 ++ ": " ++ pyStr kv.2)))

/-- Model of `CosmologgerHumanFormatter.event_format` with the default
output template `{timestamp} {origin} {stream_name}: [{level}] {payload}`.
In color mode the level is looked up with `.get` (an unmapped level renders
as the string `None`); in plain mode `LEVELS[level]` raises an untyped
`KeyError` on an unmapped level. -/
def event_format (color : Bool) (datefmt : String) (e : CosmologEvent) :
    Except Err String :=
  match hfFormatTimestamp datefmt e.timestamp with
  | .error err => .error err
  | .ok ts =>
      match (if color then
          (.ok (blue e.origin, yellow e.stream_name,
            match LEVEL_COLORS_lookup e.level with
            | some s => s
            | Option.none => "None") : Except Err (String × String × String))
        else
          match LEVELS_lookup e.level with
          | some lv => .ok (e.origin, e.stream_name, pyStr lv)
          | Option.none => Except.error (Err.keyError (pyRepr e.level))) with
      | .error err => .error err
      | .ok parts =>
          match humanPayloadPart e.format e.payload with
          | .error err => .error err
          | .ok payloadStr =>
              .ok (ts ++ " " ++ parts.1 ++ " " ++ parts.2.1 ++ ": [" ++
                parts.2.2 ++ "] " ++ payloadStr)

/-! ## The CLI line processor (`cosmolog/bin/cli.py`)

`cli.py` targets Python 2 (`iteritems`, `e.message`); the comparison
`verbosity < e['level']` therefore never raises: mixed-type comparisons
order numerically among numbers and by type name otherwise. -/

/-- Python-2 `verbosity < level` for the decoded level value. -/
def pyLessVerbosity (v : Int) : PyVal → Bool
  | .int m => v < m
  | .float q => (v : ℚ) < q
  | .bool b => v < (if b then 1 else 0)
  | .none => false
  | .str _ => true
  | .list _ => true
  | .dict _ => false
  | .datetime _ => false

/-- Model of the CLI `_format_timestamp`: reparse, then render red with a
caller-supplied date format, or with the colorized default. -/
def cliFormatTimestamp (ts : String) (datefmt : Option String) :
    Except Err String :=
  match dateparse true ts with
  | .error e => .error e
  | .ok d =>
      match datefmt with
      | some f => .ok (red (strftimeFmt f d.replaceTzUtc))
      | Option.none =>
          .ok (strftimeFmt (CRED ++ "%b %d " ++ CGREEN ++ "%H:%M:%S" ++ CRESET)
            d.replaceTzUtc)

/-- Model of the CLI `_format_payload`: plain `str.format` substitution
with the bare `BadLogFormat <format>` fallback on `KeyError`; with no
format string, a `key: value, ` run (trailing separator included, as the
`+=` loop writes it). -/
def cliFormatPayload (fmtV : PyVal) (kwargs : List (String × PyVal)) :
    Except Err String :=
  if pyTruthy fmtV then
    match fmtV with
    | .str fmt =>
        match pyFormat fmt kwargs with
        | .ok s => .ok s
        | .error (.keyError _) => .ok ("BadLogFormat " ++ fmt)
        | .error e => .error e
    | v => .error (.typeError ("format object is not a string: " ++
        pyTypeName v))
  else
    .ok (String.join (kwargs.map (fun kv => kv.1 ++ ": " ++ pyStr kv.2 ++ ", ")))

/-- Model of `cli.process`: parse the line, filter by verbosity (`None`
output), format the pieces, compose, and strip colors in `--no-color`
mode. -/
def cliProcess (fqdn : String) (now : PyDatetime) (verbosity : Int)
    (datefmt : Option String) (noColor : Bool) (line : String) :
    Except Err (Option String) :=
  match CosmologEvent.from_json fqdn now line with
  | .error err => .error err
  | .ok e =>
      if pyLessVerbosity verbosity e.level then .ok Option.none
      else
        match cliFormatTimestamp e.timestamp datefmt with
        | .error err => .error err
        | .ok ts =>
            match cliFormatPayload e.format e.payload with
            | .error err => .error err
            | .ok payloadStr =>
                let levelStr := match LEVEL_COLORS_lookup e.level with
                  | some s => s
                  | Option.none => "None"
                let output := ts ++ " " ++ blue e.origin ++ " " ++
                  yellow e.stream_name ++ ": [" ++ levelStr ++ "] " ++
                  payloadStr
                .ok (some (if noColor then clearColors output else output))

/-- Model of `cli._format_exception`.  Python 2's `e.message` is the sole
argument when the exception carries exactly one, and the empty string
otherwise. -/
def formatException (line : String) (args : List String) (noColor : Bool) :
    String :=
  let message := match args with
    | [m] => m
    | _ => ""
  let msg := red ("Failed to interpret '" ++ line ++ "': " ++ message)
  if noColor then clearColors msg else msg

/-- Outcome of a `human` run: emitted stdout and stderr lines, and the
exception that aborted the stream, if any (exit code 0 iff `none`). -/
structure CliResult where
  stdout : List String
  stderr : List String
  crashed : Option Err

/-- Python `line.strip()` on the whitespace this code base meets. -/
def pyStrip (s : String) : String :=
  String.mk ((s.toList.dropWhile isSpacePy).reverse.dropWhile isSpacePy).reverse

/-- Model of the `human` command's stdin loop: strip each line, process it,
report `CosmologgerException`s to stderr and continue; any other exception
escapes the loop and aborts the stream. -/
def humanRun (fqdn : String) (now : PyDatetime) (verbosity : Int)
    (datefmt : Option String) (noColor : Bool) : List String → CliResult
  | [] => ⟨[], [], Option.none⟩
  | line :: rest =>
      let stripped := pyStrip line
      match cliProcess fqdn now verbosity datefmt noColor stripped with
      | .ok Option.none => humanRun fqdn now verbosity datefmt noColor rest
      | .ok (some out) =>
          let r := humanRun fqdn now verbosity datefmt noColor rest
          ⟨out :: r.stdout, r.stderr, r.crashed⟩
      | .error (.cosmolog args) =>
          let r := humanRun fqdn now verbosity datefmt noColor rest
          ⟨r.stdout, formatException stripped args noColor :: r.stderr,
            r.crashed⟩
      | .error e => ⟨[], [], some e⟩

/-! ## Shared fixtures for the claim theorems -/

/-- A fixed UTC-aware host clock reading used to instantiate witnesses. -/
def nowExample : PyDatetime := ⟨2020, 1, 1, 0, 0, 0, 0, some 0⟩

/-- Whether an exception value is the library's typed
`CosmologgerException`. -/
def Err.isCosmolog : Err → Bool
  | .cosmolog _ => true
  | _ => false

/-- The instant (epoch microseconds) a wire timestamp string denotes, read
back through the date parser. -/
def isoInstant (s : String) : Option Int :=
  match dateparse false s with
  | .ok d => some (toEpochMicros d)
  | .error _ => Option.none

/-! ## Claim C7 -/

/-- C7: the Level Registry's translation function maps the external logging
facility's constants exactly by the table critical/fatal (50) → 100,
error (40) → 200, warn/warning (30) → 300, info (20) → 400,
debug (10) → 500, and translates every other severity — including
trace-level values below DEBUG such as 5 — to no rank at all (`None`, the
detectable unmappable signal), never silently defaulting to a rank. -/
theorem C7_level_registry :
    (to_cosmolog_level 50 = some 100 ∧ to_cosmolog_level 40 = some 200 ∧
     to_cosmolog_level 30 = some 300 ∧ to_cosmolog_level 20 = some 400 ∧
     to_cosmolog_level 10 = some 500) ∧
    ∀ lvl : Int, lvl ∉ ([50, 40, 30, 20, 10] : List Int) →
      to_cosmolog_level lvl = Option.none := by
  refine ⟨⟨rfl, rfl, rfl, rfl, rfl⟩, ?_⟩
  intro lvl h
  simp only [List.mem_cons, List.not_mem_nil, or_false] at h
  push_neg at h
  obtain ⟨h1, h2, h3, h4, h5⟩ := h
  simp [to_cosmolog_level, h1, h2, h3, h4, h5]

/-- Witness for C7 at the trace-level severity 5. -/
theorem C7_witness : to_cosmolog_level 5 = Option.none :=
  C7_level_registry.2 5 (by decide)

/-! ## Claim C9 -/

/-- C9: constructing an event with `stream_name` omitted or `None` (so the
regular-expression match runs on a non-string) raises an untyped
`TypeError`, not a typed `CosmologgerException`/`ValidationError` — origin
validation happens first, so any origin that validates exposes the
failure. -/
theorem C9_none_stream_name (fqdn : String) (now : PyDatetime)
    (version origin timestamp format level payload : PyVal) (o : String)
    (horigin : validateOrigin (pyOr origin (.str fqdn)) = .ok o) :
    CosmologEvent.init fqdn now version .none origin timestamp format level
      payload = .error (.typeError "expected string or bytes-like object") := by
  unfold CosmologEvent.init
  simp only [horigin]
  rfl

/-- Witness for C9 with a concrete valid origin. -/
theorem C9_witness :
    CosmologEvent.init "h" nowExample (.int 0) .none (.str "earth")
      (.str "now") .none .none (.dict []) =
      .error (.typeError "expected string or bytes-like object") :=
  C9_none_stream_name "h" nowExample (.int 0) (.str "earth") (.str "now")
    .none .none (.dict []) "earth" rfl

/-! ## Claim C5 -/

/-- C5 counterexample: the claim lists "payload not a mapping" among the
validation failures carrying the kind tag `'ValidationError'` as first
element, but `_validate_payload` raises `CosmologgerException(msg)` with a
single argument — the failure's first element is the human message, not the
tag. -/
theorem C5_counterexample :
    CosmologEvent.init "h" nowExample (.int 0) (.str "telemetry")
      (.str "earth") (.str "now") .none .none (.str "oops") =
      .error (.cosmolog
        ["Invalid payload: \"oops\". Payload must be a dictionary, not type <class 'str'>"])
    ∧ ("Invalid payload: \"oops\". Payload must be a dictionary, not type <class 'str'>"
        ≠ "ValidationError") := by
  exact ⟨rfl, by decide⟩

/-- The payload-not-a-mapping message can never read as the kind tag: it is
longer than the tag no matter what the payload prints as. -/
theorem payloadMsgNeTag (x y : String) :
    "Invalid payload: \"" ++ x ++ "\". Payload must be a dictionary, not type "
      ++ y ≠ "ValidationError" := by
  intro hc
  have hl := congrArg String.length hc
  simp only [String.length_append] at hl
  have h1 : ("Invalid payload: \"" : String).length = 18 := rfl
  have h2 :
      ("\". Payload must be a dictionary, not type " : String).length = 42 :=
    rfl
  have h3 : ("ValidationError" : String).length = 15 := rfl
  omega

/-- C5 (amended): origin, stream-name, payload-key and payload-value
validation failures always carry the machine-checkable `'ValidationError'`
tag as the first element of the `CosmologgerException` arguments, followed
by the human message; the payload-not-a-mapping failure alone is raised
untagged, with the human message as its only argument. -/
theorem C5_validation_tags :
    (∀ v args, validateOrigin v = .error (.cosmolog args) →
      ∃ m, args = ["ValidationError", m]) ∧
    (∀ v args, validateStreamName v = .error (.cosmolog args) →
      ∃ m, args = ["ValidationError", m]) ∧
    (∀ k args, validatePayloadKey k = .error (.cosmolog args) →
      ∃ m, args = ["ValidationError", m]) ∧
    (∀ v args, validatePayloadValue v = .error (.cosmolog args) →
      ∃ m, args = ["ValidationError", m]) ∧
    (∀ v args, validatePayload v = .error (.cosmolog args) →
      (∃ m, args = ["ValidationError", m]) ∨
      (∃ m, args = [m] ∧ m ≠ "ValidationError")) := by
  have hkey : ∀ k args, validatePayloadKey k = .error (.cosmolog args) →
      ∃ m, args = ["ValidationError", m] := by
    intro k args h
    unfold validatePayloadKey at h
    split at h
    · exact absurd h (by simp)
    · exact ⟨_, (Err.cosmolog.inj (Except.error.inj h)).symm⟩
  have hval : ∀ v args, validatePayloadValue v = .error (.cosmolog args) →
      ∃ m, args = ["ValidationError", m] := by
    intro v args h
    cases v with
    | bool b => exact absurd h (by simp [validatePayloadValue])
    | int n => exact absurd h (by simp [validatePayloadValue])
    | float q => exact absurd h (by simp [validatePayloadValue])
    | str s => exact absurd h (by simp [validatePayloadValue])
    | none => exact absurd h (by simp [validatePayloadValue])
    | datetime d => exact ⟨_, (Err.cosmolog.inj (Except.error.inj h)).symm⟩
    | list xs => exact ⟨_, (Err.cosmolog.inj (Except.error.inj h)).symm⟩
    | dict es => exact ⟨_, (Err.cosmolog.inj (Except.error.inj h)).symm⟩
  have hentries : ∀ es args, checkEntries es = .error (.cosmolog args) →
      ∃ m, args = ["ValidationError", m] := by
    intro es
    induction es with
    | nil => intro args h; exact absurd h (by simp [checkEntries])
    | cons kv rest ih =>
        intro args h
        obtain ⟨k, v⟩ := kv
        unfold checkEntries at h
        split at h
        next e heq =>
          obtain rfl : e = .cosmolog args := Except.error.inj h
          exact hkey k args heq
        next u heq =>
          split at h
          next e2 heq2 =>
            obtain rfl : e2 = .cosmolog args := Except.error.inj h
            exact hval v args heq2
          next u2 heq2 => exact ih args h
  refine ⟨?_, ?_, hkey, hval, ?_⟩
  · intro v args h
    cases v with
    | str s =>
        have h' : (if s.length > 255 then
            (.error (.cosmolog ["ValidationError",
              "Invalid origin: \"" ++ s ++
                "\". Origin length cannot exceed 255 characters"]) :
              Except Err String)
          else if (splitDot s).all originPartOk then .ok s
          else .error (.cosmolog ["ValidationError",
            "Origin must be a fully qualified domain name"])) =
            .error (.cosmolog args) := h
        split at h'
        · exact ⟨_, (Err.cosmolog.inj (Except.error.inj h')).symm⟩
        · split at h'
          · exact absurd h' (by simp)
          · exact ⟨_, (Err.cosmolog.inj (Except.error.inj h')).symm⟩
    | list xs =>
        have h' : (if xs.length > 255 then
            (.error (.cosmolog ["ValidationError",
              "Invalid origin: \"" ++ pyStr (.list xs) ++
                "\". Origin length cannot exceed 255 characters"]) :
              Except Err String)
          else .error (.typeError "list object has no attribute split")) =
            .error (.cosmolog args) := h
        split at h'
        · exact ⟨_, (Err.cosmolog.inj (Except.error.inj h')).symm⟩
        · exact absurd h' (by simp)
    | none => exact absurd h (by simp [validateOrigin])
    | bool b => exact absurd h (by simp [validateOrigin])
    | int n => exact absurd h (by simp [validateOrigin])
    | float q => exact absurd h (by simp [validateOrigin])
    | datetime d => exact absurd h (by simp [validateOrigin])
    | dict es => exact absurd h (by simp [validateOrigin])
  · intro v args h
    cases v with
    | str s =>
        have h' : (if streamNameOk s then (.ok s : Except Err String)
          else .error (.cosmolog ["ValidationError",
            "Invalid stream_name: \"" ++ s ++
              "\". Stream name can contain alphanumeric characters and \"_\", \"-\", \".\""])) =
            .error (.cosmolog args) := h
        split at h'
        · exact absurd h' (by simp)
        · exact ⟨_, (Err.cosmolog.inj (Except.error.inj h')).symm⟩
    | none => exact absurd h (by simp [validateStreamName])
    | bool b => exact absurd h (by simp [validateStreamName])
    | int n => exact absurd h (by simp [validateStreamName])
    | float q => exact absurd h (by simp [validateStreamName])
    | datetime d => exact absurd h (by simp [validateStreamName])
    | list xs => exact absurd h (by simp [validateStreamName])
    | dict es => exact absurd h (by simp [validateStreamName])
  · intro v args h
    cases v with
    | dict entries =>
        left
        have h' : (match checkEntries entries with
          | .error e => (.error e : Except Err (List (String × PyVal)))
          | .ok _ => .ok entries) = .error (.cosmolog args) := h
        split at h'
        next e heq =>
          obtain rfl : e = .cosmolog args := Except.error.inj h'
          exact hentries entries args heq
        next u heq => exact absurd h' (by simp)
    | none =>
        right
        exact ⟨_, (Err.cosmolog.inj (Except.error.inj h)).symm,
          payloadMsgNeTag _ _⟩
    | bool b =>
        right
        exact ⟨_, (Err.cosmolog.inj (Except.error.inj h)).symm,
          payloadMsgNeTag _ _⟩
    | int n =>
        right
        exact ⟨_, (Err.cosmolog.inj (Except.error.inj h)).symm,
          payloadMsgNeTag _ _⟩
    | float q =>
        right
        exact ⟨_, (Err.cosmolog.inj (Except.error.inj h)).symm,
          payloadMsgNeTag _ _⟩
    | str s =>
        right
        exact ⟨_, (Err.cosmolog.inj (Except.error.inj h)).symm,
          payloadMsgNeTag _ _⟩
    | datetime d =>
        right
        exact ⟨_, (Err.cosmolog.inj (Except.error.inj h)).symm,
          payloadMsgNeTag _ _⟩
    | list xs =>
        right
        exact ⟨_, (Err.cosmolog.inj (Except.error.inj h)).symm,
          payloadMsgNeTag _ _⟩

/-- Witness for C5's amended theorem at a malformed stream name. -/
theorem C5_witness :
    ∃ m, (["ValidationError",
      "Invalid stream_name: \"%&^\". Stream name can contain alphanumeric characters and \"_\", \"-\", \".\""] :
        List String) = ["ValidationError", m] :=
  C5_validation_tags.2.1 (.str "%&^")
    ["ValidationError",
      "Invalid stream_name: \"%&^\". Stream name can contain alphanumeric characters and \"_\", \"-\", \".\""]
    rfl

/-! ## Claim C2 -/

/-- C2 counterexample: `"42"` is valid JSON but not an object of the
expected fields; `from_json` escapes with an untyped `TypeError`
(`cls(**42)`), not a typed failure. -/
theorem C2_counterexample :
    CosmologEvent.from_json "h" nowExample "42" =
      .error (.typeError "argument after ** must be a mapping") := rfl

/-- C2 (amended): `from_json` fails with the typed `CosmologgerException`
(carrying the decoder's message) whenever the input is not valid JSON, and
raises the same typed validation errors as construction for decoded objects
with the expected keys and validly-typed fields (shown for a malformed
stream name); but valid JSON that is not an object of the expected fields —
a non-object document, an unexpected key, a missing or non-string
`stream_name`, an unparseable timestamp string — escapes with an untyped
`TypeError`/`ValueError` rather than a typed failure. -/
theorem C2_from_json_failures :
    (∀ (fqdn : String) (now : PyDatetime) (s : String) (m : String),
      jsonLoads s = .error m →
      CosmologEvent.from_json fqdn now s = .error (.cosmolog [m])) ∧
    (CosmologEvent.from_json "h" nowExample
      "\x7b\"stream_name\": \"%&^\", \"origin\": \"earth\"\x7d" =
      .error (.cosmolog ["ValidationError",
        "Invalid stream_name: \"%&^\". Stream name can contain alphanumeric characters and \"_\", \"-\", \".\""])) := by
  constructor
  · intro fqdn now s m h
    unfold CosmologEvent.from_json
    rw [h]
  · rfl

/-- Witness for C2's amended theorem at the malformed line `*$`. -/
theorem C2_witness :
    CosmologEvent.from_json "h" nowExample "*$" =
      .error (.cosmolog ["Expecting value: line 1 column 1 (char 0)"]) :=
  C2_from_json_failures.1 "h" nowExample "*$"
    "Expecting value: line 1 column 1 (char 0)" rfl

/-! ## Claim C3 -/

/-- C3 counterexample: on the spec's own scenario the CLI line processor's
fallback is `BadLogFormat the {blarg} has exploded` — no quotes around the
format and no payload repr — not the
`BadLogFormat("<original-format>") <payload-repr>` form the claim asserts
for both renderers. -/
theorem C3_counterexample :
    cliFormatPayload (.str "the \x7bblarg\x7d has exploded")
        [("component", .str "oxygen tank")] =
      .ok "BadLogFormat the \x7bblarg\x7d has exploded" ∧
    "BadLogFormat the \x7bblarg\x7d has exploded" ≠
      "BadLogFormat(\"the \x7bblarg\x7d has exploded\") \x7b'component': 'oxygen tank'\x7d" :=
  ⟨rfl, by decide⟩

/-- C3 (amended): when the format string references a key absent from the
payload (a `KeyError` from substitution), the line still renders: the Human
Formatter's payload part falls back to exactly
`BadLogFormat("<original-format>") <payload-repr>` (as in the spec's
scenario, shown concretely), while the CLI line processor's fallback is the
bare `BadLogFormat <original-format>`, without quotes or payload repr. -/
theorem C3_badlogformat_fallback :
    (∀ fmt payload k, vformat fmt payload = .error (.keyError k) →
      humanPayloadPart (.str fmt) payload =
        .ok ("BadLogFormat(\"" ++ fmt ++ "\") " ++ pyStr (.dict payload))) ∧
    (∀ fmt kwargs k, pyFormat fmt kwargs = .error (.keyError k) →
      cliFormatPayload (.str fmt) kwargs = .ok ("BadLogFormat " ++ fmt)) ∧
    humanPayloadPart (.str "the \x7bblarg\x7d has exploded")
        [("component", .str "oxygen tank")] =
      .ok "BadLogFormat(\"the \x7bblarg\x7d has exploded\") \x7b'component': 'oxygen tank'\x7d" := by
  refine ⟨?_, ?_, rfl⟩
  · intro fmt payload k h
    have hfmt : ¬fmt = "" := by
      intro he
      rw [he] at h
      have hv : vformat "" payload = .ok "" := rfl
      rw [hv] at h
      exact Except.noConfusion h
    unfold humanPayloadPart
    rw [if_pos (by simp [pyTruthy, hfmt])]
    show (match vformat fmt payload with
      | .ok s => (.ok s : Except Err String)
      | .error (.keyError _) =>
          .ok ("BadLogFormat(\"" ++ fmt ++ "\") " ++ pyStr (.dict payload))
      | .error e => .error e) = _
    rw [h]
  · intro fmt kwargs k h
    have hfmt : ¬fmt = "" := by
      intro he
      rw [he] at h
      have hv : pyFormat "" kwargs = .ok "" := rfl
      rw [hv] at h
      exact Except.noConfusion h
    unfold cliFormatPayload
    rw [if_pos (by simp [pyTruthy, hfmt])]
    show (match pyFormat fmt kwargs with
      | .ok s => (.ok s : Except Err String)
      | .error (.keyError _) => .ok ("BadLogFormat " ++ fmt)
      | .error e => .error e) = _
    rw [h]

/-- Witness for C3's amended theorem on the spec scenario's substitution
failure. -/
theorem C3_witness :
    cliFormatPayload (.str "the \x7bblarg\x7d has exploded")
        [("component", .str "oxygen tank")] =
      .ok ("BadLogFormat " ++ "the \x7bblarg\x7d has exploded") :=
  C3_badlogformat_fallback.2.1 "the \x7bblarg\x7d has exploded"
    [("component", .str "oxygen tank")] "blarg" rfl

/-! ## Claim C10 -/

/-- C10: event construction does not validate `level` (an event built with
any integer level stores it as-is), and rendering an event whose integer
level is not one of the six registry ranks 100–600 with the Human Formatter
in non-color mode raises an untyped `KeyError` from the `LEVELS[level]`
subscript (carrying the repr of the level), rather than producing a display
line or a typed failure. -/
theorem C10_unmapped_level :
    (∀ fqdn now version stream_name origin timestamp format payload
       (lvl : Int) e,
       CosmologEvent.init fqdn now version stream_name origin timestamp
         format (.int lvl) payload = .ok e → e.level = .int lvl) ∧
    (∀ (datefmt : String) (e : CosmologEvent) (n : Int) (ts : String),
       e.level = .int n → n ∉ ([100, 200, 300, 400, 500, 600] : List Int) →
       hfFormatTimestamp datefmt e.timestamp = .ok ts →
       event_format false datefmt e =
         .error (.keyError (pyRepr (.int n)))) := by
  constructor
  · intro fqdn now version stream_name origin timestamp format payload lvl e h
    unfold CosmologEvent.init at h
    split at h
    · exact Except.noConfusion h
    · split at h
      · exact Except.noConfusion h
      · split at h
        · exact Except.noConfusion h
        · split at h
          · exact Except.noConfusion h
          · cases Except.ok.inj h
            rfl
  · intro datefmt e n ts hl hn hts
    simp only [List.mem_cons, List.not_mem_nil, or_false] at hn
    push_neg at hn
    obtain ⟨h1, h2, h3, h4, h5, h6⟩ := hn
    have hlook : LEVELS_lookup (.int n) = Option.none := by
      simp [LEVELS_lookup, h1, h2, h3, h4, h5, h6]
    unfold event_format
    rw [hts, hl, hlook]
    rfl

/-- Witness for C10: level 42 is accepted by construction and non-color
rendering then fails with `KeyError: 42`. -/
theorem C10_witness :
    ((⟨.int 0, "telemetry", "earth", "2020-01-01T00:00:00.000000Z", .none,
        .int 42, []⟩ : CosmologEvent).level = .int 42) ∧
    event_format false (hfDefaultDatefmt false)
        ⟨.int 0, "telemetry", "earth", "2020-01-01T00:00:00.000000Z", .none,
          .int 42, []⟩ =
      .error (.keyError (pyRepr (.int 42))) :=
  ⟨C10_unmapped_level.1 "h" nowExample (.int 0) (.str "telemetry")
      (.str "earth") (.str "now") .none (.dict []) 42 _ rfl,
   C10_unmapped_level.2 (hfDefaultDatefmt false) _ 42 "Jan 01 00:00:00" rfl
     (by decide) rfl⟩

/-! ## Claim C8 -/

/-- C8 counterexample: `"99999999999999999999"` parses as a float, yet the
coercion still falls back to the generic date parser (whose failure it
reports), because the parsed epoch is outside `utcfromtimestamp`'s range —
so the fallback is not taken "only when float parsing fails". -/
theorem C8_counterexample :
    pyFloatOfString "99999999999999999999" =
      some (mkRat 99999999999999999999 1) ∧
    coerceTimestamp nowExample (.str "99999999999999999999") =
      .error (.valueError "Unknown string format: 99999999999999999999") :=
  ⟨rfl, rfl⟩

/-- C8 (amended): a string timestamp other than `"now"` that parses as a
float is interpreted as seconds since the Unix epoch whenever that epoch is
representable, identically to the same value given as a number; the generic
date parser is the fallback, consulted when float parsing fails or when the
float's epoch is outside the representable datetime range.  In particular
the spec's example value coerces identically as a float and as a string. -/
theorem C8_epoch_preference :
    (∀ (now : PyDatetime) (s : String) (q : ℚ), s ≠ "now" →
      pyFloatOfString s = some q →
      (minEpochMicros ≤ roundMicros q ∧ roundMicros q ≤ maxEpochMicros) →
      coerceTimestamp now (.str s) = coerceTimestamp now (.float q)) ∧
    (∀ (now : PyDatetime) (s : String) (d : PyDatetime), s ≠ "now" →
      pyFloatOfString s = Option.none → dateparse false s = .ok d →
      coerceTimestamp now (.str s) = .ok (strftimeDefault d.replaceTzUtc)) ∧
    (∀ (now : PyDatetime) (s : String) (err : Err), s ≠ "now" →
      pyFloatOfString s = Option.none → dateparse false s = .error err →
      coerceTimestamp now (.str s) = .error err) ∧
    (∀ (now : PyDatetime) (s : String) (q : ℚ) (d : PyDatetime), s ≠ "now" →
      pyFloatOfString s = some q →
      ¬(minEpochMicros ≤ roundMicros q ∧ roundMicros q ≤ maxEpochMicros) →
      dateparse false s = .ok d →
      coerceTimestamp now (.str s) = .ok (strftimeDefault d.replaceTzUtc)) ∧
    (∀ (now : PyDatetime) (s : String) (q : ℚ) (err : Err), s ≠ "now" →
      pyFloatOfString s = some q →
      ¬(minEpochMicros ≤ roundMicros q ∧ roundMicros q ≤ maxEpochMicros) →
      dateparse false s = .error err →
      coerceTimestamp now (.str s) = .error err) ∧
    (coerceTimestamp nowExample (.float (mkRat 1472834052019105 1000000)) =
        .ok "2016-09-02T16:34:12.019105Z" ∧
      coerceTimestamp nowExample (.str "1472834052.019105") =
        .ok "2016-09-02T16:34:12.019105Z") := by
  have hinr : ∀ q : ℚ, (minEpochMicros ≤ roundMicros q ∧
      roundMicros q ≤ maxEpochMicros) →
      utcfromtimestamp q = .ok (fromEpochMicros (roundMicros q)) := by
    intro q hrange
    show (if minEpochMicros ≤ roundMicros q ∧
        roundMicros q ≤ maxEpochMicros then
        (.ok (fromEpochMicros (roundMicros q)) : Except Err PyDatetime)
      else .error (.valueError "year is out of range")) = _
    rw [if_pos hrange]
  have houtr : ∀ q : ℚ, ¬(minEpochMicros ≤ roundMicros q ∧
      roundMicros q ≤ maxEpochMicros) →
      utcfromtimestamp q = .error (.valueError "year is out of range") := by
    intro q hrange
    show (if minEpochMicros ≤ roundMicros q ∧
        roundMicros q ≤ maxEpochMicros then
        (.ok (fromEpochMicros (roundMicros q)) : Except Err PyDatetime)
      else .error (.valueError "year is out of range")) = _
    rw [if_neg hrange]
  refine ⟨?_, ?_, ?_, ?_, ?_, rfl, rfl⟩
  · intro now s q hnow hq hrange
    simp only [coerceTimestamp, if_neg hnow, hq, hinr q hrange]
  · intro now s d hnow hq hd
    simp only [coerceTimestamp, if_neg hnow, hq, hd]
  · intro now s err hnow hq hd
    simp only [coerceTimestamp, if_neg hnow, hq, hd]
  · intro now s q d hnow hq hrange hd
    simp only [coerceTimestamp, if_neg hnow, hq, houtr q hrange, hd]
  · intro now s q err hnow hq hrange hd
    simp only [coerceTimestamp, if_neg hnow, hq, houtr q hrange, hd]

/-- Witness for C8 on the spec's epoch value. -/
theorem C8_witness :
    coerceTimestamp nowExample (.str "1472834052.019105") =
      coerceTimestamp nowExample (.float (mkRat 1472834052019105 1000000)) :=
  C8_epoch_preference.1 nowExample "1472834052.019105"
    (mkRat 1472834052019105 1000000) (by decide) rfl (by decide)

/-! ## Claim C6 -/

/-- C6 counterexample: the line `42` is valid JSON that `from_json` rejects
with an untyped `TypeError`; the `human` loop catches only
`CosmologgerException`, so this one line aborts the whole stream (nonzero
exit), with no diagnostic written for it. -/
theorem C6_counterexample :
    humanRun "h" nowExample 600 Option.none false ["42"] =
      ⟨[], [], some (.typeError "argument after ** must be a mapping")⟩ ∧
    some (.typeError "argument after ** must be a mapping") ≠
      (Option.none : Option Err) :=
  ⟨rfl, by simp⟩

/-- C6 (amended): a per-line failure that is the library's typed
`CosmologgerException` is reported as `Failed to interpret '<line>':
<message>` on stderr (red, colors stripped under `--no-color`; the message
is the sole exception argument when there is exactly one) and the loop
continues with the remaining lines; when every line either renders, is
filtered, or fails with a `CosmologgerException`, the loop runs the stream
to completion (exit code 0).  Any other exception escaping interpretation
(`TypeError`, `ValueError`, `KeyError`, …) aborts the stream at that line
instead. -/
theorem C6_per_line_failures :
    (∀ fqdn now v dfmt nc line rest args,
      cliProcess fqdn now v dfmt nc (pyStrip line) = .error (.cosmolog args) →
      humanRun fqdn now v dfmt nc (line :: rest) =
        ⟨(humanRun fqdn now v dfmt nc rest).stdout,
         formatException (pyStrip line) args nc ::
           (humanRun fqdn now v dfmt nc rest).stderr,
         (humanRun fqdn now v dfmt nc rest).crashed⟩) ∧
    (∀ line m nc, formatException line [m] nc =
      (if nc then
        clearColors (red ("Failed to interpret '" ++ line ++ "': " ++ m))
       else red ("Failed to interpret '" ++ line ++ "': " ++ m))) ∧
    (∀ fqdn now v dfmt nc lines,
      (∀ line ∈ lines, ∀ e,
        cliProcess fqdn now v dfmt nc (pyStrip line) = .error e →
        e.isCosmolog = true) →
      (humanRun fqdn now v dfmt nc lines).crashed = Option.none) ∧
    (∀ fqdn now v dfmt nc line rest e,
      cliProcess fqdn now v dfmt nc (pyStrip line) = .error e →
      e.isCosmolog = false →
      humanRun fqdn now v dfmt nc (line :: rest) = ⟨[], [], some e⟩) := by
  refine ⟨?_, ?_, ?_, ?_⟩
  · intro fqdn now v dfmt nc line rest args h
    simp only [humanRun, h]
  · intro line m nc
    cases nc <;> rfl
  · intro fqdn now v dfmt nc lines h
    induction lines with
    | nil => rfl
    | cons line rest ih =>
        have hrest := ih (fun l hl e he => h l (List.mem_cons_of_mem _ hl) e he)
        cases hp : cliProcess fqdn now v dfmt nc (pyStrip line) with
        | ok o =>
            cases o with
            | none => simp only [humanRun, hp]; exact hrest
            | some out => simp only [humanRun, hp]; exact hrest
        | error e =>
            cases e with
            | cosmolog args => simp only [humanRun, hp]; exact hrest
            | typeError m =>
                have := h line (List.mem_cons_self _ _) _ hp
                simp [Err.isCosmolog] at this
            | valueError m =>
                have := h line (List.mem_cons_self _ _) _ hp
                simp [Err.isCosmolog] at this
            | keyError k =>
                have := h line (List.mem_cons_self _ _) _ hp
                simp [Err.isCosmolog] at this
            | attributeError m =>
                have := h line (List.mem_cons_self _ _) _ hp
                simp [Err.isCosmolog] at this
  · intro fqdn now v dfmt nc line rest e h hnc
    cases e with
    | cosmolog args => simp [Err.isCosmolog] at hnc
    | typeError m => simp only [humanRun, h]
    | valueError m => simp only [humanRun, h]
    | keyError k => simp only [humanRun, h]
    | attributeError m => simp only [humanRun, h]

/-- Witness for C6: a stream whose only line fails with the typed exception
completes with exit code 0. -/
theorem C6_witness :
    (humanRun "h" nowExample 600 Option.none false ["*$"]).crashed =
      Option.none :=
  C6_per_line_failures.2.2.1 "h" nowExample 600 Option.none false ["*$"]
    (by
      intro line hl e he
      rw [List.mem_singleton] at hl
      subst hl
      rw [show cliProcess "h" nowExample 600 Option.none false (pyStrip "*$") =
        .error (.cosmolog ["Expecting value: line 1 column 1 (char 0)"])
        from rfl] at he
      obtain rfl : (.cosmolog ["Expecting value: line 1 column 1 (char 0)"] :
        Err) = e := Except.error.inj he
      rfl)

/-! ## Claim C4 -/

/-- C4 counterexample: a timezone-aware `datetime` carrying the offset
+05:00 is relabelled as UTC without conversion, so the stored timestamp
denotes an instant five hours later than the input's. -/
theorem C4_counterexample :
    coerceTimestamp nowExample
        (.datetime ⟨2016, 9, 2, 16, 34, 12, 19105, some 300⟩) =
      .ok "2016-09-02T16:34:12.019105Z" ∧
    toEpochMicros ⟨2016, 9, 2, 16, 34, 12, 19105, some 300⟩ =
      1472816052019105 ∧
    isoInstant "2016-09-02T16:34:12.019105Z" = some 1472834052019105 ∧
    (1472834052019105 : Int) ≠ 1472816052019105 :=
  ⟨rfl, rfl, rfl, by decide⟩

/-- Reading a stored timestamp back through the date parser recovers the
instant of the relabelled datetime. -/
theorem isoInstant_strftime (d : PyDatetime) (hwf : d.WF) :
    isoInstant (strftimeDefault d.replaceTzUtc) =
      some (toEpochMicros d.replaceTzUtc) := by
  unfold isoInstant dateparse
  rw [parseIso_strftime false d.replaceTzUtc hwf]
  rfl

/-- For a naive or UTC-labelled datetime the stored timestamp preserves the
input's instant. -/
theorem isoInstant_strftime_utc (d : PyDatetime) (hwf : d.WF)
    (htz : d.tz = Option.none ∨ d.tz = some 0) :
    isoInstant (strftimeDefault d.replaceTzUtc) = some (toEpochMicros d) := by
  rw [isoInstant_strftime d hwf]
  congr 1
  rcases htz with h | h <;>
    simp [toEpochMicros, PyDatetime.replaceTzUtc, h]

/-- C4 (amended): every successful timestamp coercion stores the fixed
format `%Y-%m-%dT%H:%M:%S.%fZ`.  The stored instant matches the input
for naive datetimes (read as UTC), UTC-aware datetimes, in-range numeric
epochs, and offset-free parseable date strings; a timezone-aware datetime
is relabelled as UTC without conversion, shifting the denoted instant by
its UTC offset. -/
theorem C4_timestamp_normalization :
    (∀ (now : PyDatetime) (v : PyVal) (ts : String),
      coerceTimestamp now v = .ok ts → ∃ d, ts = strftimeDefault d) ∧
    (∀ (now d : PyDatetime),
      coerceTimestamp now (.datetime d) =
        .ok (strftimeDefault d.replaceTzUtc)) ∧
    (∀ d : PyDatetime, d.WF → (d.tz = Option.none ∨ d.tz = some 0) →
      isoInstant (strftimeDefault d.replaceTzUtc) =
        some (toEpochMicros d)) ∧
    (∀ (d : PyDatetime) (tzm : Int), d.WF → d.tz = some tzm →
      isoInstant (strftimeDefault d.replaceTzUtc) =
        some (toEpochMicros d + tzm * 60000000)) ∧
    (∀ now : PyDatetime, coerceTimestamp now (.str "now") =
      .ok (strftimeDefault now.replaceTzUtc)) ∧
    (∀ (now : PyDatetime) (n : Int), coerceTimestamp now (.int n) =
      coerceTimestamp now (.float (mkRat n 1))) ∧
    (∀ (now : PyDatetime) (q : ℚ),
      minEpochMicros ≤ roundMicros q → roundMicros q ≤ maxEpochMicros →
      coerceTimestamp now (.float q) =
        .ok (strftimeDefault
          (fromEpochMicros (roundMicros q)).replaceTzUtc) ∧
      isoInstant (strftimeDefault
          (fromEpochMicros (roundMicros q)).replaceTzUtc) =
        some (roundMicros q)) ∧
    (∀ (now : PyDatetime) (s : String) (d : PyDatetime), s ≠ "now" →
      pyFloatOfString s = Option.none → dateparse false s = .ok d →
      (d.tz = Option.none ∨ d.tz = some 0) →
      coerceTimestamp now (.str s) = .ok (strftimeDefault d.replaceTzUtc) ∧
      isoInstant (strftimeDefault d.replaceTzUtc) =
        some (toEpochMicros d)) := by
  refine ⟨?_, ?_, ?_, ?_, ?_, ?_, ?_, ?_⟩
  · intro now v ts h
    cases v with
    | datetime d => exact ⟨_, (Except.ok.inj h).symm⟩
    | str s =>
        simp only [coerceTimestamp] at h
        split at h
        · exact ⟨_, (Except.ok.inj h).symm⟩
        · split at h
          next q hq =>
            split at h
            next d hd => exact ⟨_, (Except.ok.inj h).symm⟩
            next e he =>
              split at h
              next d hd => exact ⟨_, (Except.ok.inj h).symm⟩
              next e2 he2 => exact Except.noConfusion h
          next hq =>
            split at h
            next d hd => exact ⟨_, (Except.ok.inj h).symm⟩
            next e he => exact Except.noConfusion h
    | bool b =>
        simp only [coerceTimestamp] at h
        split at h
        next d hd => exact ⟨_, (Except.ok.inj h).symm⟩
        next e he => exact Except.noConfusion h
    | int n =>
        simp only [coerceTimestamp] at h
        split at h
        next d hd => exact ⟨_, (Except.ok.inj h).symm⟩
        next e he => exact Except.noConfusion h
    | float q =>
        simp only [coerceTimestamp] at h
        split at h
        next d hd => exact ⟨_, (Except.ok.inj h).symm⟩
        next e he => exact Except.noConfusion h
    | none => exact Except.noConfusion h
    | list xs => exact Except.noConfusion h
    | dict es => exact Except.noConfusion h
  · intro now d
    rfl
  · exact fun d hwf htz => isoInstant_strftime_utc d hwf htz
  · intro d tzm hwf htz
    rw [isoInstant_strftime d hwf]
    congr 1
    simp [toEpochMicros, PyDatetime.replaceTzUtc, htz]
  · intro now
    rfl
  · intro now n
    rfl
  · intro now q h1 h2
    have hu : utcfromtimestamp q =
        .ok (fromEpochMicros (roundMicros q)) := by
      show (if minEpochMicros ≤ roundMicros q ∧
          roundMicros q ≤ maxEpochMicros then
          (.ok (fromEpochMicros (roundMicros q)) : Except Err PyDatetime)
        else .error (.valueError "year is out of range")) = _
      rw [if_pos ⟨h1, h2⟩]
    refine ⟨?_, ?_⟩
    · simp only [coerceTimestamp, hu]
    · have hwf := fromEpochMicros_wf (roundMicros q) h1 h2
      rw [isoInstant_strftime _ hwf,
        toEpochMicros_fromEpochMicros (roundMicros q) h1 h2]
  · intro now s d hnow hq hd htz
    have hwf : d.WF := by
      unfold dateparse at hd
      split at hd
      next d' heq =>
        obtain rfl : d' = d := Except.ok.inj hd
        exact parseIso_wf false s.toList d' heq
      next heq => exact Except.noConfusion hd
    exact ⟨by simp only [coerceTimestamp, if_neg hnow, hq, hd],
      isoInstant_strftime_utc d hwf htz⟩

/-- Witness for C4 at the counterexample's offset-aware datetime: the
stored instant is the input instant shifted by the +05:00 offset. -/
theorem C4_witness :
    isoInstant (strftimeDefault
        (⟨2016, 9, 2, 16, 34, 12, 19105, some 300⟩ :
          PyDatetime).replaceTzUtc) =
      some (toEpochMicros
          (⟨2016, 9, 2, 16, 34, 12, 19105, some 300⟩ : PyDatetime) +
        300 * 60000000) :=
  C4_timestamp_normalization.2.2.2.1 ⟨2016, 9, 2, 16, 34, 12, 19105, some 300⟩
    300 (by decide) rfl

/-! ## Claim C1: inversion of the wire rendering

The lemmas below invert `jsonDumps` through `jsonLoads` on the documents
the serializer emits (the seven-field object with scalar values and plain
strings), and show that re-validating a constructed event's fields
succeeds, establishing the round trip. -/

theorem jsonPlainChar_range {c : Char} (h1 : 32 ≤ c.toNat)
    (h2 : c.toNat < 127) (h3 : c.toNat ≠ 34) (h4 : c.toNat ≠ 92) :
    jsonPlainChar c = true := by
  unfold jsonPlainChar
  simp only [Bool.and_eq_true, decide_eq_true_eq, Bool.not_eq_true',
    decide_eq_false_iff_not]
  exact ⟨⟨⟨h1, h2⟩, fun he => h3 (congrArg Char.toNat he)⟩,
    fun he => h4 (congrArg Char.toNat he)⟩

theorem jsonPlainChar_of_isDig {c : Char} (h : isDig c = true) :
    jsonPlainChar c = true := by
  unfold isDig at h
  simp only [Bool.and_eq_true, decide_eq_true_eq] at h
  exact jsonPlainChar_range (by omega) (by omega) (by omega) (by omega)

theorem jsonPlainChar_of_alnum {c : Char} (h : isAlnumAscii c = true) :
    jsonPlainChar c = true := by
  unfold isAlnumAscii at h
  simp only [Bool.or_eq_true, Bool.and_eq_true, decide_eq_true_eq] at h
  exact jsonPlainChar_range (by omega) (by omega) (by omega) (by omega)

theorem jsonPlainChar_of_streamBody {c : Char} (h : streamBodyChar c = true) :
    jsonPlainChar c = true := by
  unfold streamBodyChar at h
  simp only [Bool.or_eq_true, decide_eq_true_eq] at h
  rcases h with ((ha | h) | h) | h
  · exact jsonPlainChar_of_alnum ha
  all_goals subst h
  all_goals decide

/-- Validated stream names (and payload keys) render verbatim. -/
theorem jsonPlain_of_streamNameOk {s : String} (h : streamNameOk s = true) :
    jsonPlain s = true := by
  unfold streamNameOk at h
  unfold jsonPlain
  split at h
  next c c2 rest heq =>
    rw [show s.toList = c :: c2 :: rest from heq]
    simp only [Bool.and_eq_true, List.all_eq_true] at h ⊢
    intro x hx
    simp only [List.mem_cons] at hx
    rcases hx with rfl | hx
    · exact jsonPlainChar_of_alnum h.1
    · exact jsonPlainChar_of_streamBody (h.2 x (List.mem_cons.mpr hx))
  next => exact absurd h (by simp)

/-- The wire timestamp renders verbatim. -/
theorem jsonPlain_strftime (d : PyDatetime) :
    jsonPlain (strftimeDefault d) = true := by
  unfold jsonPlain strftimeDefault
  have hchars : ∀ c ∈ strfChars d, jsonPlainChar c = true := by
    intro c hc
    rw [strfChars_eq] at hc
    simp only [List.mem_append, List.mem_cons, List.mem_singleton] at hc
    rcases hc with h | h | h | h | h | h | h | h | h | h | h | h | h | h
    · exact jsonPlainChar_of_isDig (padDig_all_dig 4 d.year c h)
    · subst h; decide
    · exact jsonPlainChar_of_isDig (padDig_all_dig 2 d.month c h)
    · subst h; decide
    · exact jsonPlainChar_of_isDig (padDig_all_dig 2 d.day c h)
    · subst h; decide
    · exact jsonPlainChar_of_isDig (padDig_all_dig 2 d.hour c h)
    · subst h; decide
    · exact jsonPlainChar_of_isDig (padDig_all_dig 2 d.minute c h)
    · subst h; decide
    · exact jsonPlainChar_of_isDig (padDig_all_dig 2 d.second c h)
    · subst h; decide
    · exact jsonPlainChar_of_isDig (padDig_all_dig 6 d.microsecond c h)
    · rcases h with rfl | h
      · decide
      · simp at h
  show (String.mk (strfChars d)).toList.all jsonPlainChar = true
  simp only [List.all_eq_true]
  exact fun c hc => hchars c hc

/-- A plain string body escapes to itself. -/
theorem jsonEscapeStr_plain (cs : List Char)
    (h : ∀ c ∈ cs, jsonPlainChar c = true) : jsonEscapeStr cs = cs := by
  induction cs with
  | nil => rfl
  | cons c cs ih =>
      have hc := h c (by simp)
      unfold jsonPlainChar at hc
      simp only [Bool.and_eq_true, decide_eq_true_eq, Bool.not_eq_true',
        decide_eq_false_iff_not] at hc
      obtain ⟨⟨⟨h1, h2⟩, h3⟩, h4⟩ := hc
      unfold jsonEscapeStr jsonEscapeChar
      rw [if_neg h3, if_neg h4,
        if_neg (fun he => by
          have h5 : c.toNat = 10 := congrArg Char.toNat he
          omega),
        if_neg (fun he => by
          have h5 : c.toNat = 9 := congrArg Char.toNat he
          omega),
        if_neg (fun he => by
          have h5 : c.toNat = 13 := congrArg Char.toNat he
          omega),
        if_neg (by omega : ¬c.toNat = 8),
        if_neg (by omega : ¬c.toNat = 12),
        if_neg (by omega : ¬(c.toNat < 32 ∨ 127 ≤ c.toNat))]
      simp only [List.singleton_append, List.cons.injEq, true_and]
      exact ih (fun x hx => h x (by simp [hx]))

theorem digitsVal_append_one (xs : List Char) (c : Char) :
    digitsVal (xs ++ [c]) = 10 * digitsVal xs + digitVal c := by
  unfold digitsVal
  rw [List.foldl_append]
  rfl

theorem digitChar_ne_zero {n : Nat} (h1 : 1 ≤ n) (h2 : n < 10) :
    digitChar n ≠ '0' := by
  intro he
  have := congrArg digitVal he
  rw [digitVal_digitChar] at this
  have h0 : digitVal '0' = 0 := by decide
  rw [h0] at this
  omega

/-- Specification of the decimal renderer. -/
theorem natDecimalAux_spec : ∀ (fuel n : Nat), n < 10 ^ fuel → 1 ≤ fuel →
    (∀ c ∈ natDecimalAux fuel n, isDig c = true) ∧
    digitsVal (natDecimalAux fuel n) = n ∧
    natDecimalAux fuel n ≠ [] ∧
    (1 ≤ n → (natDecimalAux fuel n).headD 'x' ≠ '0') := by
  intro fuel
  induction fuel with
  | zero => intro n _ h1; omega
  | succ f ih =>
      intro n hn _
      unfold natDecimalAux
      by_cases h10 : n < 10
      · rw [if_pos h10]
        refine ⟨?_, ?_, by simp, ?_⟩
        · intro c hc
          simp only [List.mem_singleton] at hc
          subst hc
          exact isDig_digitChar n
        · show digitsVal [digitChar n] = n
          unfold digitsVal
          simp only [List.foldl_cons, List.foldl_nil]
          rw [digitVal_digitChar]
          omega
        · intro h1
          exact digitChar_ne_zero h1 h10
      · rw [if_neg h10]
        have hfd : n / 10 < 10 ^ f := by
          rw [Nat.div_lt_iff_lt_mul (by omega)]
          calc n < 10 ^ (f + 1) := hn
          _ = 10 ^ f * 10 := by rw [pow_succ]
        have hf1 : 1 ≤ f := by
          rcases Nat.eq_zero_or_pos f with h | h
          · subst h
            simp only [pow_succ, pow_zero, one_mul] at hn
            omega
          · exact h
        obtain ⟨hdig, hval, hne, hhead⟩ := ih (n / 10) hfd hf1
        refine ⟨?_, ?_, by simp [hne], ?_⟩
        · intro c hc
          simp only [List.mem_append, List.mem_singleton] at hc
          rcases hc with h | h
          · exact hdig c h
          · subst h; exact isDig_digitChar _
        · rw [digitsVal_append_one, hval, digitVal_digitChar]
          omega
        · intro _
          obtain ⟨a, xs, hax⟩ : ∃ a xs, natDecimalAux f (n / 10) = a :: xs := by
            cases hcase : natDecimalAux f (n / 10) with
            | nil => exact absurd hcase hne
            | cons a xs => exact ⟨a, xs, rfl⟩
          rw [hax]
          have := hhead (by omega)
          rw [hax] at this
          simpa using this

/-- Specification of `natDecimal`. -/
theorem natDecimal_spec (n : Nat) :
    (∀ c ∈ natDecimal n, isDig c = true) ∧
    digitsVal (natDecimal n) = n ∧
    natDecimal n ≠ [] ∧
    (1 ≤ n → (natDecimal n).headD 'x' ≠ '0') := by
  unfold natDecimal
  have h2 : n < 2 ^ n := Nat.lt_two_pow n
  have h10 : (2 : Nat) ^ n ≤ 10 ^ n := Nat.pow_le_pow_left (by omega) n
  have hsucc : (10 : Nat) ^ n ≤ 10 ^ (n + 1) :=
    Nat.pow_le_pow_right (by omega) (by omega)
  exact natDecimalAux_spec (n + 1) n (by omega) (by omega)

theorem digitsVal_foldl_acc : ∀ (cs : List Char) (a : Nat),
    cs.foldl (fun x c => 10 * x + digitVal c) a =
      a * 10 ^ cs.length + digitsVal cs := by
  intro cs
  induction cs with
  | nil => intro a; simp [digitsVal]
  | cons c cs ih =>
      intro a
      show cs.foldl (fun x c => 10 * x + digitVal c) (10 * a + digitVal c) = _
      rw [ih (10 * a + digitVal c)]
      have h2 : digitsVal (c :: cs) =
          cs.foldl (fun x c => 10 * x + digitVal c) (10 * 0 + digitVal c) :=
        rfl
      rw [h2, ih (10 * 0 + digitVal c)]
      simp only [List.length_cons, pow_succ]
      ring

theorem digitsVal_cons (c : Char) (cs : List Char) :
    digitsVal (c :: cs) = digitVal c * 10 ^ cs.length + digitsVal cs := by
  have h : digitsVal (c :: cs) =
      cs.foldl (fun x c => 10 * x + digitVal c) (10 * 0 + digitVal c) := rfl
  rw [h, digitsVal_foldl_acc]
  ring

/-- Invariant of the fractional-digit renderer: when the expansion
terminates within the fuel (the denominator divides `r·10^fuel`), the
emitted digits are digits and denote exactly `r / den`. -/
theorem fracDigitsAux_spec : ∀ (fuel r den : Nat), 0 < den → r < den →
    den ∣ r * 10 ^ fuel →
    (∀ c ∈ fracDigitsAux fuel r den, isDig c = true) ∧
    digitsVal (fracDigitsAux fuel r den) * den =
      r * 10 ^ (fracDigitsAux fuel r den).length := by
  intro fuel
  induction fuel with
  | zero =>
      intro r den hden hr hdvd
      simp only [pow_zero, mul_one] at hdvd
      have hr0 : r = 0 := Nat.eq_zero_of_dvd_of_lt hdvd hr
      subst hr0
      exact ⟨by intro c hc; simp [fracDigitsAux] at hc,
        by simp [fracDigitsAux, digitsVal]⟩
  | succ f ih =>
      intro r den hden hr hdvd
      rcases Nat.eq_zero_or_pos r with rfl | hrpos
      · exact ⟨by intro c hc; simp [fracDigitsAux] at hc,
          by simp [fracDigitsAux, digitsVal]⟩
      · obtain ⟨r', rfl⟩ : ∃ r', r = r' + 1 := ⟨r - 1, by omega⟩
        have hstep : fracDigitsAux (f + 1) (r' + 1) den =
            digitChar ((r' + 1) * 10 / den) ::
              fracDigitsAux f ((r' + 1) * 10 % den) den := rfl
        have hr2 : (r' + 1) * 10 % den < den := Nat.mod_lt _ hden
        have hdm : den * ((r' + 1) * 10 / den) + (r' + 1) * 10 % den =
            (r' + 1) * 10 := Nat.div_add_mod _ _
        have hdvd2 : den ∣ ((r' + 1) * 10 % den) * 10 ^ f := by
          have h3 : (r' + 1) * 10 ^ (f + 1) =
              den * ((r' + 1) * 10 / den) * 10 ^ f +
                ((r' + 1) * 10 % den) * 10 ^ f := by
            rw [pow_succ]
            calc (r' + 1) * (10 ^ f * 10) = ((r' + 1) * 10) * 10 ^ f := by
                  ring
              _ = (den * ((r' + 1) * 10 / den) + (r' + 1) * 10 % den) *
                  10 ^ f := by rw [hdm]
              _ = _ := by ring
          have h4 : den ∣ den * ((r' + 1) * 10 / den) * 10 ^ f :=
            Dvd.dvd.mul_right (Dvd.intro _ rfl) _
          have h5 := Nat.dvd_sub' (h3 ▸ hdvd) h4
          rwa [Nat.add_sub_cancel_left] at h5
        obtain ⟨hdig', hval'⟩ := ih ((r' + 1) * 10 % den) den hden hr2 hdvd2
        rw [hstep]
        constructor
        · intro c hc
          rcases List.mem_cons.mp hc with rfl | hc
          · exact isDig_digitChar _
          · exact hdig' c hc
        · rw [digitsVal_cons, digitVal_digitChar]
          have hmlt : (r' + 1) * 10 / den < 10 := by
            have h6 : (r' + 1) * 10 < den * 10 :=
              Nat.mul_lt_mul_of_pos_right hr (by omega)
            rw [Nat.div_lt_iff_lt_mul hden]
            omega
          rw [Nat.mod_eq_of_lt hmlt]
          simp only [List.length_cons]
          calc ((r' + 1) * 10 / den *
                10 ^ (fracDigitsAux f ((r' + 1) * 10 % den) den).length +
              digitsVal (fracDigitsAux f ((r' + 1) * 10 % den) den)) * den
              = (r' + 1) * 10 / den * den *
                  10 ^ (fracDigitsAux f ((r' + 1) * 10 % den) den).length +
                digitsVal (fracDigitsAux f ((r' + 1) * 10 % den) den) *
                  den := by ring
            _ = (r' + 1) * 10 / den * den *
                  10 ^ (fracDigitsAux f ((r' + 1) * 10 % den) den).length +
                ((r' + 1) * 10 % den) *
                  10 ^ (fracDigitsAux f ((r' + 1) * 10 % den) den).length := by
                rw [hval']
            _ = (den * ((r' + 1) * 10 / den) + (r' + 1) * 10 % den) *
                  10 ^ (fracDigitsAux f ((r' + 1) * 10 % den) den).length := by
                ring
            _ = ((r' + 1) * 10) *
                  10 ^ (fracDigitsAux f ((r' + 1) * 10 % den) den).length := by
                rw [hdm]
            _ = (r' + 1) *
                  10 ^ ((fracDigitsAux f ((r' + 1) * 10 % den) den).length +
                    1) := by
                rw [pow_succ]
                ring

/-- The rendered fractional digits of an exact-decimal rational: all
digits, nonempty, and denoting exactly the fractional part. -/
theorem floatFracDigits_spec (q : ℚ) (hq : decimalFloat q = true) :
    (∀ c ∈ floatFracDigits q, isDig c = true) ∧
    floatFracDigits q ≠ [] ∧
    digitsVal (floatFracDigits q) * q.den =
      (q.num.natAbs % q.den) * 10 ^ (floatFracDigits q).length := by
  have hden : 0 < q.den := q.den_pos
  have hdvd : q.den ∣ 10 ^ 30 :=
    Nat.dvd_of_mod_eq_zero (by simpa [decimalFloat] using hq)
  have hr : q.num.natAbs % q.den < q.den := Nat.mod_lt _ hden
  have hdvd2 : q.den ∣ (q.num.natAbs % q.den) * 10 ^ 30 :=
    Dvd.dvd.mul_left hdvd _
  obtain ⟨hdig, hval⟩ := fracDigitsAux_spec 30 _ q.den hden hr hdvd2
  unfold floatFracDigits
  by_cases hemp : (fracDigitsAux 30 (q.num.natAbs % q.den) q.den).isEmpty
  · rw [if_pos hemp]
    have hnil : fracDigitsAux 30 (q.num.natAbs % q.den) q.den = [] := by
      cases hcase : fracDigitsAux 30 (q.num.natAbs % q.den) q.den with
      | nil => rfl
      | cons a l => rw [hcase] at hemp; exact absurd hemp (by simp)
    rw [hnil] at hval
    have hr0 : q.num.natAbs % q.den = 0 := by
      have h0 : digitsVal [] = 0 := by decide
      rw [h0] at hval
      simp only [List.length_nil, pow_zero, mul_one] at hval
      omega
    refine ⟨?_, by simp, ?_⟩
    · intro c hc
      simp only [List.mem_singleton] at hc
      subst hc
      decide
    · rw [hr0]
      have h1 : digitsVal ['0'] = 0 := by decide
      rw [h1]
      simp
  · rw [if_neg hemp]
    exact ⟨hdig, by simpa using hemp, hval⟩

theorem takeWhile_all {p : Char → Bool} (xs : List Char)
    (h : ∀ c ∈ xs, p c = true) :
    xs.takeWhile p = xs ∧ xs.dropWhile p = [] := by
  induction xs with
  | nil => simp
  | cons x xs ih =>
      have hx := h x (by simp)
      have hr := ih (fun c hc => h c (by simp [hc]))
      simp [List.takeWhile_cons, List.dropWhile_cons, hx, hr.1, hr.2]

theorem numStop_cons {c : Char} {r : List Char}
    (h : numStop (c :: r) = true) :
    isDig c = false ∧ c ≠ '.' ∧ c ≠ 'e' ∧ c ≠ 'E' := by
  unfold numStop at h
  simp only [Bool.and_eq_true, Bool.not_eq_true',
    decide_eq_false_iff_not] at h
  exact ⟨h.1.1.1, h.1.1.2, h.1.2, h.2⟩

theorem takeWhile_digits_append (xs rest : List Char)
    (hxs : ∀ c ∈ xs, isDig c = true) (hrest : numStop rest = true) :
    (xs ++ rest).takeWhile isDig = xs ∧
      (xs ++ rest).dropWhile isDig = rest := by
  cases rest with
  | nil =>
      have h := takeWhile_all xs hxs
      simp [h.1, h.2]
  | cons c r => exact takeWhile_append_stop xs hxs c (numStop_cons hrest).1 r

theorem jsonStringAux_plain : ∀ (cs : List Char),
    (∀ c ∈ cs, jsonPlainChar c = true) →
    ∀ (acc rest : List Char) (fuel : Nat), cs.length + 1 ≤ fuel →
    jsonStringAux fuel acc (cs ++ '"' :: rest) =
      some (String.mk (acc.reverse ++ cs), rest) := by
  intro cs
  induction cs with
  | nil =>
      intro _ acc rest fuel hfuel
      obtain ⟨f, rfl⟩ : ∃ f, fuel = f + 1 := ⟨fuel - 1, by omega⟩
      show jsonStringAux (f + 1) acc ('"' :: rest) = _
      unfold jsonStringAux
      rw [if_pos rfl]
      simp
  | cons c cs ih =>
      intro h acc rest fuel hfuel
      obtain ⟨f, rfl⟩ : ∃ f, fuel = f + 1 := ⟨fuel - 1, by omega⟩
      have hc := h c (by simp)
      unfold jsonPlainChar at hc
      simp only [Bool.and_eq_true, decide_eq_true_eq, Bool.not_eq_true',
        decide_eq_false_iff_not] at hc
      obtain ⟨⟨⟨h1, h2⟩, h3⟩, h4⟩ := hc
      show jsonStringAux (f + 1) acc (c :: (cs ++ '"' :: rest)) = _
      unfold jsonStringAux
      rw [if_neg h3, if_neg h4,
        ih (fun x hx => h x (by simp [hx])) (c :: acc) rest f
          (by simp only [List.length_cons] at hfuel; omega)]
      simp [List.append_assoc]

theorem hexVal_hexDigitChar (m : Nat) :
    hexVal (hexDigitChar m) = some (m % 16) := by
  unfold hexDigitChar hexVal
  have h : m % 16 < 16 := Nat.mod_lt _ (by omega)
  interval_cases h : m % 16 <;> decide

/-- Dispatch of the string scanner on a `\uXXXX` escape. -/
theorem jsonStringAux_u (f : Nat) (acc : List Char) (h1 h2 h3 h4 : Char)
    (cs3 : List Char) :
    jsonStringAux (f + 1) acc ('\\' :: 'u' :: h1 :: h2 :: h3 :: h4 :: cs3) =
      match hexVal h1, hexVal h2, hexVal h3, hexVal h4 with
      | some a, some b, some c', some d =>
          jsonStringAux f
            (Char.ofNat (((a * 16 + b) * 16 + c') * 16 + d) :: acc) cs3
      | _, _, _, _ => Option.none := rfl

/-- The scanner decodes a rendered `\uXXXX` escape back to its BMP
character. -/
theorem jsonStringAux_uEsc (f : Nat) (acc : List Char) (c : Char)
    (hbmp : c.toNat < 65536) (T : List Char) :
    jsonStringAux (f + 1) acc (('\\' :: 'u' :: padHex 4 c.toNat) ++ T) =
      jsonStringAux f (c :: acc) T := by
  show jsonStringAux (f + 1) acc ('\\' :: 'u' ::
    hexDigitChar (c.toNat / 4096) :: hexDigitChar (c.toNat / 256) ::
    hexDigitChar (c.toNat / 16) :: hexDigitChar (c.toNat / 1) :: T) = _
  rw [jsonStringAux_u]
  simp only [hexVal_hexDigitChar]
  show jsonStringAux f (Char.ofNat ((((c.toNat / 4096) % 16 * 16 +
    (c.toNat / 256) % 16) * 16 + (c.toNat / 16) % 16) * 16 +
    (c.toNat / 1) % 16) :: acc) T = _
  rw [show (((c.toNat / 4096) % 16 * 16 + (c.toNat / 256) % 16) * 16 +
      (c.toNat / 16) % 16) * 16 + (c.toNat / 1) % 16 = c.toNat from by omega,
    Char.ofNat_toNat]

/-- A string body of BMP characters, escaped, is decoded back to itself by
the string scanner (generalizes `jsonStringAux_plain` to bodies needing
escapes). -/
theorem jsonStringAux_escaped : ∀ (cs : List Char),
    (∀ c ∈ cs, c.toNat < 65536) →
    ∀ (acc rest : List Char) (fuel : Nat),
    (jsonEscapeStr cs).length + 1 ≤ fuel →
    jsonStringAux fuel acc (jsonEscapeStr cs ++ '"' :: rest) =
      some (String.mk (acc.reverse ++ cs), rest) := by
  intro cs
  induction cs with
  | nil =>
      intro _ acc rest fuel hfuel
      obtain ⟨f, rfl⟩ : ∃ f, fuel = f + 1 := ⟨fuel - 1, by omega⟩
      show jsonStringAux (f + 1) acc ('"' :: rest) = _
      unfold jsonStringAux
      rw [if_pos rfl]
      simp
  | cons c cs ih =>
      intro h acc rest fuel hfuel
      have hbmp := h c (by simp)
      have htail : ∀ x ∈ cs, x.toNat < 65536 := fun x hx => h x (by simp [hx])
      have hren : jsonEscapeStr (c :: cs) =
          jsonEscapeChar c ++ jsonEscapeStr cs := rfl
      by_cases h1 : c = '"'
      · subst h1
        have hlen : (jsonEscapeStr ('"' :: cs)).length =
            (jsonEscapeStr cs).length + 2 := by
          rw [hren, show jsonEscapeChar '"' = ['\\', '"'] from rfl]
          simp only [List.length_append, List.length_cons, List.length_nil]
          omega
        obtain ⟨f, rfl⟩ : ∃ f, fuel = f + 1 := ⟨fuel - 1, by omega⟩
        rw [show jsonEscapeStr ('"' :: cs) ++ '"' :: rest =
          '\\' :: '"' :: (jsonEscapeStr cs ++ '"' :: rest) from by
            rw [hren, show jsonEscapeChar '"' = ['\\', '"'] from rfl]
            rfl]
        show jsonStringAux f ('"' :: acc) (jsonEscapeStr cs ++ '"' :: rest) = _
        rw [ih htail ('"' :: acc) rest f (by omega)]
        simp [List.append_assoc]
      by_cases h2 : c = '\\'
      · subst h2
        have hlen : (jsonEscapeStr ('\\' :: cs)).length =
            (jsonEscapeStr cs).length + 2 := by
          rw [hren, show jsonEscapeChar '\\' = ['\\', '\\'] from rfl]
          simp only [List.length_append, List.length_cons, List.length_nil]
          omega
        obtain ⟨f, rfl⟩ : ∃ f, fuel = f + 1 := ⟨fuel - 1, by omega⟩
        rw [show jsonEscapeStr ('\\' :: cs) ++ '"' :: rest =
          '\\' :: '\\' :: (jsonEscapeStr cs ++ '"' :: rest) from by
            rw [hren, show jsonEscapeChar '\\' = ['\\', '\\'] from rfl]
            rfl]
        show jsonStringAux f ('\\' :: acc) (jsonEscapeStr cs ++ '"' :: rest) =
          _
        rw [ih htail ('\\' :: acc) rest f (by omega)]
        simp [List.append_assoc]
      by_cases h3 : c = '\n'
      · subst h3
        have hlen : (jsonEscapeStr ('\n' :: cs)).length =
            (jsonEscapeStr cs).length + 2 := by
          rw [hren, show jsonEscapeChar '\n' = ['\\', 'n'] from rfl]
          simp only [List.length_append, List.length_cons, List.length_nil]
          omega
        obtain ⟨f, rfl⟩ : ∃ f, fuel = f + 1 := ⟨fuel - 1, by omega⟩
        rw [show jsonEscapeStr ('\n' :: cs) ++ '"' :: rest =
          '\\' :: 'n' :: (jsonEscapeStr cs ++ '"' :: rest) from by
            rw [hren, show jsonEscapeChar '\n' = ['\\', 'n'] from rfl]
            rfl]
        show jsonStringAux f ('\n' :: acc) (jsonEscapeStr cs ++ '"' :: rest) =
          _
        rw [ih htail ('\n' :: acc) rest f (by omega)]
        simp [List.append_assoc]
      by_cases h4 : c = '\t'
      · subst h4
        have hlen : (jsonEscapeStr ('\t' :: cs)).length =
            (jsonEscapeStr cs).length + 2 := by
          rw [hren, show jsonEscapeChar '\t' = ['\\', 't'] from rfl]
          simp only [List.length_append, List.length_cons, List.length_nil]
          omega
        obtain ⟨f, rfl⟩ : ∃ f, fuel = f + 1 := ⟨fuel - 1, by omega⟩
        rw [show jsonEscapeStr ('\t' :: cs) ++ '"' :: rest =
          '\\' :: 't' :: (jsonEscapeStr cs ++ '"' :: rest) from by
            rw [hren, show jsonEscapeChar '\t' = ['\\', 't'] from rfl]
            rfl]
        show jsonStringAux f ('\t' :: acc) (jsonEscapeStr cs ++ '"' :: rest) =
          _
        rw [ih htail ('\t' :: acc) rest f (by omega)]
        simp [List.append_assoc]
      by_cases h5 : c = '\r'
      · subst h5
        have hlen : (jsonEscapeStr ('\r' :: cs)).length =
            (jsonEscapeStr cs).length + 2 := by
          rw [hren, show jsonEscapeChar '\r' = ['\\', 'r'] from rfl]
          simp only [List.length_append, List.length_cons, List.length_nil]
          omega
        obtain ⟨f, rfl⟩ : ∃ f, fuel = f + 1 := ⟨fuel - 1, by omega⟩
        rw [show jsonEscapeStr ('\r' :: cs) ++ '"' :: rest =
          '\\' :: 'r' :: (jsonEscapeStr cs ++ '"' :: rest) from by
            rw [hren, show jsonEscapeChar '\r' = ['\\', 'r'] from rfl]
            rfl]
        show jsonStringAux f ('\r' :: acc) (jsonEscapeStr cs ++ '"' :: rest) =
          _
        rw [ih htail ('\r' :: acc) rest f (by omega)]
        simp [List.append_assoc]
      by_cases h6 : c.toNat = 8
      · obtain rfl : c = Char.ofNat 8 := by
          rw [← Char.ofNat_toNat c, h6]
        have hlen : (jsonEscapeStr (Char.ofNat 8 :: cs)).length =
            (jsonEscapeStr cs).length + 2 := by
          rw [hren, show jsonEscapeChar (Char.ofNat 8) = ['\\', 'b'] from rfl]
          simp only [List.length_append, List.length_cons, List.length_nil]
          omega
        obtain ⟨f, rfl⟩ : ∃ f, fuel = f + 1 := ⟨fuel - 1, by omega⟩
        rw [show jsonEscapeStr (Char.ofNat 8 :: cs) ++ '"' :: rest =
          '\\' :: 'b' :: (jsonEscapeStr cs ++ '"' :: rest) from by
            rw [hren, show jsonEscapeChar (Char.ofNat 8) = ['\\', 'b']
              from rfl]
            rfl]
        show jsonStringAux f (Char.ofNat 8 :: acc)
          (jsonEscapeStr cs ++ '"' :: rest) = _
        rw [ih htail (Char.ofNat 8 :: acc) rest f (by omega)]
        simp [List.append_assoc]
      by_cases h7 : c.toNat = 12
      · obtain rfl : c = Char.ofNat 12 := by
          rw [← Char.ofNat_toNat c, h7]
        have hlen : (jsonEscapeStr (Char.ofNat 12 :: cs)).length =
            (jsonEscapeStr cs).length + 2 := by
          rw [hren,
            show jsonEscapeChar (Char.ofNat 12) = ['\\', 'f'] from rfl]
          simp only [List.length_append, List.length_cons, List.length_nil]
          omega
        obtain ⟨f, rfl⟩ : ∃ f, fuel = f + 1 := ⟨fuel - 1, by omega⟩
        rw [show jsonEscapeStr (Char.ofNat 12 :: cs) ++ '"' :: rest =
          '\\' :: 'f' :: (jsonEscapeStr cs ++ '"' :: rest) from by
            rw [hren, show jsonEscapeChar (Char.ofNat 12) = ['\\', 'f']
              from rfl]
            rfl]
        show jsonStringAux f (Char.ofNat 12 :: acc)
          (jsonEscapeStr cs ++ '"' :: rest) = _
        rw [ih htail (Char.ofNat 12 :: acc) rest f (by omega)]
        simp [List.append_assoc]
      by_cases h8 : c.toNat < 32 ∨ 127 ≤ c.toNat
      · have hcase : jsonEscapeChar c = '\\' :: 'u' :: padHex 4 c.toNat := by
          unfold jsonEscapeChar
          rw [if_neg h1, if_neg h2, if_neg h3, if_neg h4, if_neg h5,
            if_neg h6, if_neg h7, if_pos h8]
        have hlen : (jsonEscapeStr (c :: cs)).length =
            (jsonEscapeStr cs).length + 6 := by
          rw [hren, hcase]
          simp only [List.length_append, List.length_cons, List.length_nil]
          rw [show (padHex 4 c.toNat).length = 4 from rfl]
          omega
        obtain ⟨f, rfl⟩ : ∃ f, fuel = f + 1 := ⟨fuel - 1, by omega⟩
        rw [show jsonEscapeStr (c :: cs) ++ '"' :: rest =
          ('\\' :: 'u' :: padHex 4 c.toNat) ++
            (jsonEscapeStr cs ++ '"' :: rest) from by
            rw [hren, hcase]
            simp [List.append_assoc],
          jsonStringAux_uEsc f acc c hbmp _,
          ih htail (c :: acc) rest f (by omega)]
        simp [List.append_assoc]
      · have hcase : jsonEscapeChar c = [c] := by
          unfold jsonEscapeChar
          rw [if_neg h1, if_neg h2, if_neg h3, if_neg h4, if_neg h5,
            if_neg h6, if_neg h7, if_neg h8]
        have hlen : (jsonEscapeStr (c :: cs)).length =
            (jsonEscapeStr cs).length + 1 := by
          rw [hren, hcase]
          simp only [List.length_append, List.length_cons, List.length_nil]
          omega
        obtain ⟨f, rfl⟩ : ∃ f, fuel = f + 1 := ⟨fuel - 1, by omega⟩
        rw [show jsonEscapeStr (c :: cs) ++ '"' :: rest =
          c :: (jsonEscapeStr cs ++ '"' :: rest) from by
            rw [hren, hcase]
            rfl]
        unfold jsonStringAux
        rw [if_neg h1, if_neg h2, ih htail (c :: acc) rest f (by omega)]
        simp [List.append_assoc]

theorem jsonNumber_intDecimal (n : Int) (rest : List Char)
    (hstop : numStop rest = true) :
    jsonNumber (intDecimal n ++ rest) = some (.int n, rest) := by
  obtain ⟨hdig, hval, hne, hlz0⟩ := natDecimal_spec (Int.natAbs n)
  obtain ⟨hd, tl, hcons⟩ : ∃ hd tl, natDecimal n.natAbs = hd :: tl := by
    cases hcase : natDecimal n.natAbs with
    | nil => exact absurd hcase hne
    | cons a xs => exact ⟨a, xs, rfl⟩
  have hdigs : ∀ c ∈ hd :: tl, isDig c = true := by
    rw [← hcons]; exact hdig
  have hhd : isDig hd = true := hdigs hd (by simp)
  have hhdne : hd ≠ '-' := by
    intro he
    rw [he] at hhd
    exact absurd hhd (by decide)
  have htw := takeWhile_digits_append (hd :: tl) rest hdigs hstop
  simp only [List.cons_append] at htw
  have hlz : ¬(1 < (hd :: tl).length ∧ (hd :: tl).headD 'x' = '0') := by
    intro hcontra
    rcases Nat.eq_zero_or_pos n.natAbs with h0 | h1
    · have hz : natDecimal n.natAbs = ['0'] := by rw [h0]; rfl
      rw [hz] at hcons
      obtain ⟨rfl, rfl⟩ : hd = '0' ∧ tl = [] := by
        cases hcons
        exact ⟨rfl, rfl⟩
      simp at hcontra
    · exact (hcons ▸ hlz0) h1 hcontra.2
  have hdv : digitsVal (hd :: tl) = n.natAbs := hcons ▸ hval
  by_cases hneg : n < 0
  · have hint : intDecimal n ++ rest = '-' :: (hd :: (tl ++ rest)) := by
      unfold intDecimal
      rw [if_pos hneg, hcons, List.cons_append, List.cons_append]
    have hn' : -1 * ((n.natAbs : Nat) : Int) = n := by omega
    rw [hint]
    unfold jsonNumber
    simp only [reduceIte, htw.1, htw.2]
    rw [if_neg (by simp), if_neg hlz]
    cases rest with
    | nil =>
        show some (Json.int (-1 * ↑(digitsVal (hd :: tl))), ([] : List Char)) =
          some (Json.int n, ([] : List Char))
        rw [hdv, hn']
    | cons c r =>
        obtain ⟨hcd, hcp, hce, hcE⟩ := numStop_cons hstop
        simp only [if_neg hcp,
          if_neg (show ¬(c = 'e' ∨ c = 'E') from fun hor => hor.elim hce hcE)]
        rw [hdv, hn']
  · have hint : intDecimal n ++ rest = hd :: (tl ++ rest) := by
      unfold intDecimal
      rw [if_neg hneg, show n.toNat = n.natAbs from by omega, hcons,
        List.cons_append]
    have hn' : 1 * ((n.natAbs : Nat) : Int) = n := by omega
    rw [hint]
    unfold jsonNumber
    simp only [if_neg hhdne, reduceIte, htw.1, htw.2]
    rw [if_neg (by simp), if_neg hlz]
    cases rest with
    | nil =>
        show some (Json.int (1 * ↑(digitsVal (hd :: tl))), ([] : List Char)) =
          some (Json.int n, ([] : List Char))
        rw [hdv, hn']
    | cons c r =>
        obtain ⟨hcd, hcp, hce, hcE⟩ := numStop_cons hstop
        simp only [if_neg hcp,
          if_neg (show ¬(c = 'e' ∨ c = 'E') from fun hor => hor.elim hce hcE),
          reduceIte, hdv, one_mul]
        exact congrArg (fun z => some (Json.int z, c :: r)) (by
          rw [if_neg (by decide : ¬(false = true))]
          omega)

/-- The rendered form of an exact-decimal float parses back to it: the
sign, the integer digits, the dot and the fractional digits are consumed
and the mantissa over `10^frac-length` reconstitutes the rational. -/
theorem jsonNumber_floatStr (q : ℚ) (hq : decimalFloat q = true)
    (rest : List Char) (hstop : numStop rest = true) :
    jsonNumber ((floatStr q).toList ++ rest) = some (.float q, rest) := by
  obtain ⟨hfdig, hfne, hfval⟩ := floatFracDigits_spec q hq
  obtain ⟨hidig, hival, hine, hilz⟩ := natDecimal_spec (q.num.natAbs / q.den)
  obtain ⟨ihd, itl, hicons⟩ : ∃ a l,
      natDecimal (q.num.natAbs / q.den) = a :: l := by
    cases hcase : natDecimal (q.num.natAbs / q.den) with
    | nil => exact absurd hcase hine
    | cons a l => exact ⟨a, l, rfl⟩
  obtain ⟨fc, ftl, hfcons⟩ : ∃ a l, floatFracDigits q = a :: l := by
    cases hcase : floatFracDigits q with
    | nil => exact absurd hcase hfne
    | cons a l => exact ⟨a, l, rfl⟩
  have hidigs : ∀ c ∈ ihd :: itl, isDig c = true := by
    rw [← hicons]; exact hidig
  have hfdigs : ∀ c ∈ fc :: ftl, isDig c = true := by
    rw [← hfcons]; exact hfdig
  have htw := takeWhile_append_stop (ihd :: itl) hidigs '.'
    (by decide) ((fc :: ftl) ++ rest)
  simp only [List.cons_append] at htw
  have htw2 := takeWhile_digits_append (fc :: ftl) rest hfdigs hstop
  simp only [List.cons_append] at htw2
  have hihd : isDig ihd = true := hidigs ihd (by simp)
  have hihdne : ihd ≠ '-' := by
    intro he
    rw [he] at hihd
    exact absurd hihd (by decide)
  have hlz : ¬(1 < (ihd :: itl).length ∧ (ihd :: itl).headD 'x' = '0') := by
    intro hcontra
    rcases Nat.eq_zero_or_pos (q.num.natAbs / q.den) with h0 | h1
    · have hz : natDecimal (q.num.natAbs / q.den) = ['0'] := by rw [h0]; rfl
      rw [hz] at hicons
      obtain ⟨rfl, rfl⟩ : ihd = '0' ∧ itl = [] := by
        cases hicons
        exact ⟨rfl, rfl⟩
      simp at hcontra
    · exact (hicons ▸ hilz) h1 hcontra.2
  have hdval : digitsVal (ihd :: itl) = q.num.natAbs / q.den :=
    hicons ▸ hival
  have hfval2 : digitsVal (fc :: ftl) * q.den =
      (q.num.natAbs % q.den) * 10 ^ (fc :: ftl).length := by
    rw [← hfcons]
    exact hfval
  have hkey : ((q.num.natAbs / q.den) * 10 ^ (fc :: ftl).length +
      digitsVal (fc :: ftl)) * q.den =
      q.num.natAbs * 10 ^ (fc :: ftl).length := by
    have hdm : q.den * (q.num.natAbs / q.den) + q.num.natAbs % q.den =
        q.num.natAbs := Nat.div_add_mod _ _
    calc ((q.num.natAbs / q.den) * 10 ^ (fc :: ftl).length +
          digitsVal (fc :: ftl)) * q.den
        = (q.num.natAbs / q.den) * q.den * 10 ^ (fc :: ftl).length +
          digitsVal (fc :: ftl) * q.den := by ring
      _ = (q.num.natAbs / q.den) * q.den * 10 ^ (fc :: ftl).length +
          (q.num.natAbs % q.den) * 10 ^ (fc :: ftl).length := by rw [hfval2]
      _ = (q.den * (q.num.natAbs / q.den) + q.num.natAbs % q.den) *
          10 ^ (fc :: ftl).length := by ring
      _ = q.num.natAbs * 10 ^ (fc :: ftl).length := by rw [hdm]
  have hA : ((q.num.natAbs / q.den * 10 ^ (fc :: ftl).length +
      digitsVal (fc :: ftl) : Nat) : Int) * ((q.den : Nat) : Int) =
      ((q.num.natAbs : Nat) : Int) * ((10 ^ (fc :: ftl).length : Nat) : Int) := by
    rw [← Nat.cast_mul, ← Nat.cast_mul, hkey]
  by_cases hneg : q.num < 0
  · have h0 : floatStr q = String.mk ('-' ::
        (natDecimal (q.num.natAbs / q.den) ++ '.' :: floatFracDigits q)) := by
      unfold floatStr
      rw [if_pos hneg]
      rfl
    have hint : (floatStr q).toList ++ rest =
        '-' :: (ihd :: (itl ++ '.' :: (fc :: (ftl ++ rest)))) := by
      rw [h0, hicons, hfcons]
      show ('-' :: ((ihd :: itl) ++ '.' :: (fc :: ftl))) ++ rest = _
      simp [List.append_assoc]
    have hmk : mkRat ((-1) * ((digitsVal (ihd :: itl) *
        10 ^ (fc :: ftl).length + digitsVal (fc :: ftl) : Nat) : Int) *
        10 ^ (0 : Int).toNat) (10 ^ (fc :: ftl).length) = q := by
      rw [← Rat.mkRat_self q]
      apply (Rat.mkRat_eq_iff (pow_ne_zero _ (by omega))
        q.den_pos.ne').mpr
      rw [hdval, show ((0 : Int).toNat) = 0 from rfl, pow_zero, mul_one]
      have hnum : -(q.num.natAbs : Int) = q.num := by omega
      calc (-1 : Int) * ((q.num.natAbs / q.den * 10 ^ (fc :: ftl).length +
            digitsVal (fc :: ftl) : Nat) : Int) * ((q.den : Nat) : Int)
          = -(((q.num.natAbs / q.den * 10 ^ (fc :: ftl).length +
            digitsVal (fc :: ftl) : Nat) : Int) * ((q.den : Nat) : Int)) := by
            ring
        _ = -(((q.num.natAbs : Nat) : Int) *
            ((10 ^ (fc :: ftl).length : Nat) : Int)) := by rw [hA]
        _ = q.num * ((10 ^ (fc :: ftl).length : Nat) : Int) := by
            linear_combination ((10 ^ (fc :: ftl).length : Nat) : Int) * hnum
    rw [hint]
    unfold jsonNumber
    simp only [reduceIte, htw.1, htw.2, htw2.1, htw2.2]
    rw [if_neg (by simp), if_neg hlz]
    cases rest with
    | nil =>
        exact congrArg (fun z => (some (Json.float z, ([] : List Char)) :
          Option (Json × List Char))) hmk
    | cons c r =>
        obtain ⟨hcd, hcp, hce, hcE⟩ := numStop_cons hstop
        simp only [List.isEmpty_cons, Bool.false_eq_true, reduceIte]
        rw [if_neg
          (show ¬(c = 'e' ∨ c = 'E') from fun hor => hor.elim hce hcE)]
        exact congrArg (fun z => (some (Json.float z, c :: r) :
          Option (Json × List Char))) hmk
  · have h0 : floatStr q = String.mk
        (natDecimal (q.num.natAbs / q.den) ++ '.' :: floatFracDigits q) := by
      unfold floatStr
      rw [if_neg hneg]
      rfl
    have hint : (floatStr q).toList ++ rest =
        ihd :: (itl ++ '.' :: (fc :: (ftl ++ rest))) := by
      rw [h0, hicons, hfcons]
      show ((ihd :: itl) ++ '.' :: (fc :: ftl)) ++ rest = _
      simp [List.append_assoc]
    have hmk : mkRat ((1 : Int) * ((digitsVal (ihd :: itl) *
        10 ^ (fc :: ftl).length + digitsVal (fc :: ftl) : Nat) : Int) *
        10 ^ (0 : Int).toNat) (10 ^ (fc :: ftl).length) = q := by
      rw [← Rat.mkRat_self q]
      apply (Rat.mkRat_eq_iff (pow_ne_zero _ (by omega))
        q.den_pos.ne').mpr
      rw [hdval, show ((0 : Int).toNat) = 0 from rfl, pow_zero, mul_one]
      have hnum : ((q.num.natAbs : Nat) : Int) = q.num := by omega
      calc (1 : Int) * ((q.num.natAbs / q.den * 10 ^ (fc :: ftl).length +
            digitsVal (fc :: ftl) : Nat) : Int) * ((q.den : Nat) : Int)
          = ((q.num.natAbs / q.den * 10 ^ (fc :: ftl).length +
            digitsVal (fc :: ftl) : Nat) : Int) * ((q.den : Nat) : Int) := by
            ring
        _ = ((q.num.natAbs : Nat) : Int) *
            ((10 ^ (fc :: ftl).length : Nat) : Int) := hA
        _ = q.num * ((10 ^ (fc :: ftl).length : Nat) : Int) := by
            rw [hnum]
    rw [hint]
    unfold jsonNumber
    simp only [if_neg hihdne, reduceIte, htw.1, htw.2, htw2.1, htw2.2]
    rw [if_neg (by simp), if_neg hlz]
    cases rest with
    | nil =>
        exact congrArg (fun z => (some (Json.float z, ([] : List Char)) :
          Option (Json × List Char))) hmk
    | cons c r =>
        obtain ⟨hcd, hcp, hce, hcE⟩ := numStop_cons hstop
        simp only [List.isEmpty_cons, Bool.false_eq_true, reduceIte]
        rw [if_neg
          (show ¬(c = 'e' ∨ c = 'E') from fun hor => hor.elim hce hcE)]
        exact congrArg (fun z => (some (Json.float z, c :: r) :
          Option (Json × List Char))) hmk

theorem isDig_toNat {c : Char} (h : isDig c = true) :
    48 ≤ c.toNat ∧ c.toNat ≤ 57 := by
  unfold isDig at h
  simpa using h

/-- A digit is not any of the characters the value dispatcher treats
specially. -/
theorem digit_not_special {c : Char} (h : isDig c = true) :
    jsonWs c = false ∧ c ≠ 'n' ∧ c ≠ 't' ∧ c ≠ 'f' ∧ c ≠ '"' ∧ c ≠ '[' ∧
      c ≠ '\x7b' ∧ c ≠ '-' := by
  obtain ⟨h1, h2⟩ := isDig_toNat h
  refine ⟨?_, ?_, ?_, ?_, ?_, ?_, ?_, ?_⟩
  · unfold jsonWs
    simp only [Bool.or_eq_false_iff, decide_eq_false_iff_not]
    refine ⟨⟨⟨?_, ?_⟩, ?_⟩, ?_⟩ <;> intro he
    · have h3 : c.toNat = 32 := congrArg Char.toNat he
      omega
    · have h3 : c.toNat = 9 := congrArg Char.toNat he
      omega
    · have h3 : c.toNat = 10 := congrArg Char.toNat he
      omega
    · have h3 : c.toNat = 13 := congrArg Char.toNat he
      omega
  · intro he
    have h3 : c.toNat = 110 := congrArg Char.toNat he
    omega
  · intro he
    have h3 : c.toNat = 116 := congrArg Char.toNat he
    omega
  · intro he
    have h3 : c.toNat = 102 := congrArg Char.toNat he
    omega
  · intro he
    have h3 : c.toNat = 34 := congrArg Char.toNat he
    omega
  · intro he
    have h3 : c.toNat = 91 := congrArg Char.toNat he
    omega
  · intro he
    have h3 : c.toNat = 123 := congrArg Char.toNat he
    omega
  · intro he
    have h3 : c.toNat = 45 := congrArg Char.toNat he
    omega

/-- The value dispatcher hands anything not starting a literal, string,
array or object to the number parser. -/
theorem jsonVal_notspecial (fuel : Nat) (c : Char) (cs : List Char)
    (hws : jsonWs c = false) (hn : c ≠ 'n') (ht : c ≠ 't') (hf : c ≠ 'f')
    (hq : c ≠ '"') (hb : c ≠ '[') (ho : c ≠ '\x7b') :
    jsonVal (fuel + 1) (c :: cs) = jsonNumber (c :: cs) := by
  have hdw : (c :: cs).dropWhile jsonWs = c :: cs := by
    simp [List.dropWhile_cons, hws]
  unfold jsonVal
  split
  next heq =>
    rw [hdw] at heq
    exact absurd heq (by simp)
  next c' rest' heq =>
    rw [hdw] at heq
    injection heq with hc hrest
    subst hc
    subst hrest
    rw [if_neg hn, if_neg ht, if_neg hf, if_neg hq, if_neg hb, if_neg ho]

theorem jsonVal_quote (fuel : Nat) (cs : List Char) :
    jsonVal (fuel + 1) ('"' :: cs) =
      match jsonStringAux (cs.length + 1) [] cs with
      | some (s, r) => some (.str s, r)
      | Option.none => Option.none := rfl

theorem jsonVal_int (fuel : Nat) (n : Int) (rest : List Char)
    (hstop : numStop rest = true) :
    jsonVal (fuel + 1) (jsonDumpsVal (.int n) ++ rest) =
      some (.int n, rest) := by
  show jsonVal (fuel + 1) (intDecimal n ++ rest) = _
  by_cases hneg : n < 0
  · have hint : intDecimal n = '-' :: natDecimal n.natAbs := by
      unfold intDecimal
      rw [if_pos hneg]
    rw [hint, List.cons_append,
      jsonVal_notspecial fuel '-' _ (by decide) (by decide) (by decide)
        (by decide) (by decide) (by decide) (by decide),
      ← List.cons_append, ← hint]
    exact jsonNumber_intDecimal n rest hstop
  · have hint : intDecimal n = natDecimal n.natAbs := by
      unfold intDecimal
      rw [if_neg hneg, show n.toNat = n.natAbs from by omega]
    obtain ⟨hdig, _, hne, _⟩ := natDecimal_spec (Int.natAbs n)
    obtain ⟨hd, tl, hcons⟩ : ∃ hd tl, natDecimal n.natAbs = hd :: tl := by
      cases hcase : natDecimal n.natAbs with
      | nil => exact absurd hcase hne
      | cons a xs => exact ⟨a, xs, rfl⟩
    have hhd : isDig hd = true := by
      apply hdig
      rw [hcons]
      simp
    obtain ⟨hws, hn', ht, hf, hq, hb, ho, _⟩ := digit_not_special hhd
    rw [hint, hcons, List.cons_append,
      jsonVal_notspecial fuel hd _ hws hn' ht hf hq hb ho,
      ← List.cons_append, ← hcons, ← hint]
    exact jsonNumber_intDecimal n rest hstop

/-- The rendered form of an exact-decimal float parses back to it, at any
fuel, leaving the rest of the input untouched. -/
theorem jsonVal_float (fuel : Nat) (q : ℚ) (hq : decimalFloat q = true)
    (rest : List Char) (hstop : numStop rest = true) :
    jsonVal (fuel + 1) (jsonDumpsVal (.float q) ++ rest) =
      some (.float q, rest) := by
  obtain ⟨hidig, _, hine, _⟩ := natDecimal_spec (q.num.natAbs / q.den)
  obtain ⟨ihd, itl, hicons⟩ : ∃ a l,
      natDecimal (q.num.natAbs / q.den) = a :: l := by
    cases hcase : natDecimal (q.num.natAbs / q.den) with
    | nil => exact absurd hcase hine
    | cons a l => exact ⟨a, l, rfl⟩
  show jsonVal (fuel + 1) ((floatStr q).toList ++ rest) = _
  by_cases hneg : q.num < 0
  · have h0 : floatStr q = String.mk ('-' ::
        (natDecimal (q.num.natAbs / q.den) ++ '.' :: floatFracDigits q)) := by
      unfold floatStr
      rw [if_pos hneg]
      rfl
    have hdec : (floatStr q).toList ++ rest =
        '-' :: ((natDecimal (q.num.natAbs / q.den) ++
          '.' :: floatFracDigits q) ++ rest) := by
      rw [h0]
      rfl
    rw [hdec,
      jsonVal_notspecial fuel '-' _ (by decide) (by decide) (by decide)
        (by decide) (by decide) (by decide) (by decide),
      ← hdec]
    exact jsonNumber_floatStr q hq rest hstop
  · have h0 : floatStr q = String.mk
        (natDecimal (q.num.natAbs / q.den) ++ '.' :: floatFracDigits q) := by
      unfold floatStr
      rw [if_neg hneg]
      rfl
    have hdec : (floatStr q).toList ++ rest =
        ihd :: ((itl ++ '.' :: floatFracDigits q) ++ rest) := by
      rw [h0, hicons]
      rfl
    have hhd : isDig ihd = true := by
      apply hidig
      rw [hicons]
      simp
    obtain ⟨hws, hn', ht, hf, hqq, hb, ho, _⟩ := digit_not_special hhd
    rw [hdec,
      jsonVal_notspecial fuel ihd _ hws hn' ht hf hqq hb ho,
      ← hdec]
    exact jsonNumber_floatStr q hq rest hstop

/-- The rendered form of every wire scalar parses back to it, at any fuel,
leaving the rest of the input untouched. -/
theorem jsonVal_scalar (v : Json) (hv : wireScalarJson v = true) (fuel : Nat)
    (rest : List Char) (hstop : numStop rest = true) :
    jsonVal (fuel + 1) (jsonDumpsVal v ++ rest) = some (v, rest) := by
  cases v with
  | null => rfl
  | b bv => cases bv <;> rfl
  | int n => exact jsonVal_int fuel n rest hstop
  | str s =>
      have hbmp : ∀ c ∈ s.toList, c.toNat < 65536 := by
        have hb : bmpStr s = true := by simpa [wireScalarJson] using hv
        unfold bmpStr at hb
        simp only [List.all_eq_true] at hb
        intro c hc
        have := hb c hc
        unfold bmpChar at this
        simpa using this
      show jsonVal (fuel + 1)
        (('"' :: (jsonEscapeStr s.toList ++ ['"'])) ++ rest) = _
      rw [List.cons_append, List.append_assoc, List.singleton_append,
        jsonVal_quote,
        jsonStringAux_escaped s.toList hbmp [] rest _ (by
          simp only [List.length_append, List.length_cons]
          omega)]
      simp [String.mk]
  | float q =>
      exact jsonVal_float fuel q (by simpa [wireScalarJson] using hv) rest
        hstop
  | arr xs => exact absurd hv (by simp [wireScalarJson])
  | obj es => exact absurd hv (by simp [wireScalarJson])

theorem jsonVal_ws (fuel : Nat) (cs : List Char) :
    jsonVal (fuel + 1) (' ' :: cs) = jsonVal (fuel + 1) cs := by
  unfold jsonVal
  rw [show (' ' :: cs).dropWhile jsonWs = cs.dropWhile jsonWs from by
    simp [List.dropWhile_cons, jsonWs]]

theorem jsonObjItems_ws (fuel : Nat) (acc : List (String × Json))
    (cs : List Char) :
    jsonObjItems (fuel + 1) acc (' ' :: cs) =
      jsonObjItems (fuel + 1) acc cs := by
  unfold jsonObjItems
  rw [show (' ' :: cs).dropWhile jsonWs = cs.dropWhile jsonWs from by
    simp [List.dropWhile_cons, jsonWs]]

theorem jsonObjItems_quote (fuel : Nat) (acc : List (String × Json))
    (cs : List Char) :
    jsonObjItems (fuel + 1) acc ('"' :: cs) =
      match jsonStringAux (cs.length + 1) [] cs with
      | Option.none => Option.none
      | some (k, r2) =>
          match r2.dropWhile jsonWs with
          | c2 :: r3 =>
              if c2 = ':' then
                match jsonVal fuel r3 with
                | Option.none => Option.none
                | some (v, r4) =>
                    match r4.dropWhile jsonWs with
                    | c3 :: r5 =>
                        if c3 = ',' then
                          jsonObjItems fuel (dictInsert acc k v) r5
                        else if c3 = '\x7d' then
                          some (dictInsert acc k v, r5)
                        else Option.none
                    | [] => Option.none
              else Option.none
          | [] => Option.none := rfl

/-- Consuming one rendered `"key": ` prefix of an object member. -/
theorem jsonObjItems_keyed (fuel : Nat) (acc : List (String × Json))
    (k : String) (hk : ∀ c ∈ k.toList, jsonPlainChar c = true)
    (body : List Char) :
    jsonObjItems (fuel + 1) acc
      ('"' :: (k.toList ++ '"' :: ':' :: ' ' :: body)) =
      (match jsonVal fuel (' ' :: body) with
       | Option.none => Option.none
       | some (v, r4) =>
           match r4.dropWhile jsonWs with
           | c3 :: r5 =>
               if c3 = ',' then jsonObjItems fuel (dictInsert acc k v) r5
               else if c3 = '\x7d' then some (dictInsert acc k v, r5)
               else Option.none
           | [] => Option.none) := by
  rw [jsonObjItems_quote,
    jsonStringAux_plain k.toList hk [] (':' :: ' ' :: body) _ (by
      simp only [List.length_append, List.length_cons]
      omega)]
  rfl

theorem dictInsert_fresh (acc : List (String × Json)) (k : String) (v : Json)
    (h : acc.lookup k = Option.none) :
    dictInsert acc k v = acc ++ [(k, v)] := by
  induction acc with
  | nil => rfl
  | cons kv rest ih =>
      obtain ⟨k', v'⟩ := kv
      unfold dictInsert
      by_cases hk : k' = k
      · subst hk
        simp [List.lookup] at h
      · rw [if_neg hk]
        have h' : rest.lookup k = Option.none := by
          simp only [List.lookup] at h
          rw [show (k == k') = false from
            beq_eq_false_iff_ne.mpr (Ne.symm hk)] at h
          exact h
        rw [ih h', List.cons_append]

theorem lookup_append_singleton_none (acc : List (String × Json))
    (k k' : String) (v : Json) (h : acc.lookup k' = Option.none)
    (hne : k' ≠ k) :
    (acc ++ [(k, v)]).lookup k' = Option.none := by
  induction acc with
  | nil =>
      simp only [List.nil_append, List.lookup]
      rw [show (k' == k) = false from beq_eq_false_iff_ne.mpr hne]
  | cons kv rest ih =>
      obtain ⟨a, b⟩ := kv
      by_cases hab : k' = a
      · subst hab
        simp [List.lookup] at h
      · simp only [List.cons_append, List.lookup] at h ⊢
        rw [show (k' == a) = false from beq_eq_false_iff_ne.mpr hab] at h ⊢
        exact ih h

/-- Parsing the rendered members of a nonempty object with fresh, nodup
keys appends exactly those members to the accumulator. -/
theorem jsonObjItems_render :
    ∀ (entries : List (String × Json)) (minF : Nat), 1 ≤ minF →
    (∀ kv ∈ entries, ∀ (f : Nat) (r : List Char), minF ≤ f →
      numStop r = true → jsonVal f (jsonDumpsVal kv.2 ++ r) = some (kv.2, r)) →
    (∀ kv ∈ entries, ∀ c ∈ (kv.1 : String).toList, jsonPlainChar c = true) →
    ∀ (fuel : Nat) (acc : List (String × Json)) (rest : List Char),
      (∀ kv ∈ entries, acc.lookup kv.1 = Option.none) →
      (entries.map Prod.fst).Nodup →
      entries ≠ [] →
      entries.length + minF ≤ fuel →
      jsonObjItems fuel acc (jsonDumpsObj entries ++ '\x7d' :: rest) =
        some (acc ++ entries, rest) := by
  intro entries
  induction entries with
  | nil =>
      intro minF _ _ _ fuel acc rest _ _ hne _
      exact absurd rfl hne
  | cons kv restE ih =>
      intro minF hminF hv hkeys fuel acc rest hfresh hnodup _ hfuel
      obtain ⟨f, rfl⟩ : ∃ f, fuel = f + 1 :=
        ⟨fuel - 1, by simp only [List.length_cons] at hfuel; omega⟩
      obtain ⟨k, v⟩ := kv
      have hkplain : ∀ c ∈ k.toList, jsonPlainChar c = true :=
        hkeys (k, v) (by simp)
      have hesc : jsonEscapeStr k.toList = k.toList :=
        jsonEscapeStr_plain _ hkplain
      have hfmin : minF ≤ f := by
        simp only [List.length_cons] at hfuel
        omega
      obtain ⟨f2, rfl⟩ : ∃ f2, f = f2 + 1 := ⟨f - 1, by omega⟩
      cases restE with
      | nil =>
          show jsonObjItems (f2 + 1 + 1) acc
            (('"' :: (jsonEscapeStr k.toList ++ '"' :: ':' :: ' ' ::
              jsonDumpsVal v)) ++ '\x7d' :: rest) =
            some (acc ++ [(k, v)], rest)
          rw [hesc, List.cons_append, List.append_assoc]
          show jsonObjItems (f2 + 1 + 1) acc
            ('"' :: (k.toList ++ '"' :: ':' :: ' ' ::
              (jsonDumpsVal v ++ '\x7d' :: rest))) = _
          rw [jsonObjItems_keyed (f2 + 1) acc k hkplain
              (jsonDumpsVal v ++ '\x7d' :: rest),
            jsonVal_ws f2 (jsonDumpsVal v ++ '\x7d' :: rest),
            hv (k, v) (by simp) (f2 + 1) ('\x7d' :: rest) hfmin rfl]
          show some (dictInsert acc k v, rest) = some (acc ++ [(k, v)], rest)
          rw [dictInsert_fresh acc k v (hfresh (k, v) (by simp))]
      | cons kv2 restE2 =>
          show jsonObjItems (f2 + 1 + 1) acc
            (('"' :: (jsonEscapeStr k.toList ++ '"' :: ':' :: ' ' ::
              jsonDumpsVal v ++ ',' :: ' ' ::
                jsonDumpsObj (kv2 :: restE2))) ++ '\x7d' :: rest) =
            some (acc ++ (k, v) :: kv2 :: restE2, rest)
          rw [hesc, List.cons_append]
          show jsonObjItems (f2 + 1 + 1) acc
            ('"' :: ((k.toList ++ '"' :: ':' :: ' ' :: jsonDumpsVal v ++
              ',' :: ' ' :: jsonDumpsObj (kv2 :: restE2)) ++
                '\x7d' :: rest)) = _
          rw [show ((k.toList ++ '"' :: ':' :: ' ' :: jsonDumpsVal v ++
              ',' :: ' ' :: jsonDumpsObj (kv2 :: restE2)) ++
                '\x7d' :: rest) =
              k.toList ++ '"' :: ':' :: ' ' ::
                (jsonDumpsVal v ++ ',' :: ' ' ::
                  (jsonDumpsObj (kv2 :: restE2) ++ '\x7d' :: rest)) from by
            simp [List.append_assoc]]
          rw [jsonObjItems_keyed (f2 + 1) acc k hkplain _,
            jsonVal_ws f2,
            hv (k, v) (by simp) (f2 + 1)
              (',' :: ' ' :: (jsonDumpsObj (kv2 :: restE2) ++ '\x7d' :: rest))
              hfmin rfl]
          show jsonObjItems (f2 + 1) (dictInsert acc k v)
            (' ' :: (jsonDumpsObj (kv2 :: restE2) ++ '\x7d' :: rest)) = _
          rw [jsonObjItems_ws f2,
            dictInsert_fresh acc k v (hfresh (k, v) (by simp))]
          have hnodup2 : ((kv2 :: restE2).map Prod.fst).Nodup := by
            simp only [List.map_cons, List.nodup_cons] at hnodup ⊢
            exact ⟨hnodup.2.1, hnodup.2.2⟩
          have hknotin : k ∉ ((kv2 :: restE2).map Prod.fst) := by
            simp only [List.map_cons, List.nodup_cons] at hnodup
            exact hnodup.1
          rw [ih minF hminF
            (fun kv' h' f' r' hf' hr' => hv kv' (by simp [h']) f' r' hf' hr')
            (fun kv' h' => hkeys kv' (by simp [h']))
            (f2 + 1) (acc ++ [(k, v)]) rest
            (fun kv' h' => lookup_append_singleton_none acc k kv'.1 v
              (hfresh kv' (by simp [h']))
              (fun he => hknotin (he ▸ List.mem_map_of_mem Prod.fst h')))
            hnodup2 (by simp)
            (by simp only [List.length_cons] at hfuel ⊢; omega)]
          simp

theorem jsonVal_brace (fuel : Nat) (cs : List Char) :
    jsonVal (fuel + 1) ('\x7b' :: cs) =
      (match cs.dropWhile jsonWs with
       | '\x7d' :: r2 => some (.obj [], r2)
       | _ => match jsonObjItems fuel [] cs with
              | some (es, r) => some (.obj es, r)
              | Option.none => Option.none) := rfl

/-- The rendered form of an object of plainly-keyed, nodup, parsable values
parses back to it. -/
theorem jsonVal_objRender (es : List (String × Json)) (minF : Nat)
    (hminF : 1 ≤ minF)
    (hv : ∀ kv ∈ es, ∀ (f : Nat) (r : List Char), minF ≤ f →
      numStop r = true → jsonVal f (jsonDumpsVal kv.2 ++ r) = some (kv.2, r))
    (hkeys : ∀ kv ∈ es, ∀ c ∈ (kv.1 : String).toList, jsonPlainChar c = true)
    (hnodup : (es.map Prod.fst).Nodup)
    (fuel : Nat) (rest : List Char) (hfuel : es.length + minF ≤ fuel) :
    jsonVal (fuel + 1) (jsonDumpsVal (.obj es) ++ rest) =
      some (.obj es, rest) := by
  show jsonVal (fuel + 1)
    (('\x7b' :: (jsonDumpsObj es ++ ['\x7d'])) ++ rest) = _
  rw [List.cons_append, List.append_assoc, List.singleton_append,
    jsonVal_brace]
  cases es with
  | nil => rfl
  | cons kv es2 =>
      obtain ⟨tl, htl⟩ : ∃ tl, jsonDumpsObj (kv :: es2) = '"' :: tl := by
        cases es2 <;> exact ⟨_, rfl⟩
      rw [htl, List.cons_append]
      show (match jsonObjItems fuel []
          ('"' :: (tl ++ '\x7d' :: rest)) with
        | some (es', r) => some (Json.obj es', r)
        | Option.none => Option.none) = _
      rw [← List.cons_append, ← htl,
        jsonObjItems_render (kv :: es2) minF hminF hv hkeys fuel [] rest
          (fun kv' h' => rfl) hnodup (by simp) hfuel]
      simp

theorem jsonDumpsObj_len_ge (es : List (String × Json)) :
    es.length ≤ (jsonDumpsObj es).length := by
  induction es with
  | nil => simp [jsonDumpsObj]
  | cons kv es2 ih =>
      cases es2 with
      | nil =>
          show (1 : Nat) ≤ ('"' :: (jsonEscapeStr kv.1.toList ++ '"' :: ':' ::
            ' ' :: jsonDumpsVal kv.2)).length
          simp
      | cons kv2 es3 =>
          show (kv :: kv2 :: es3).length ≤
            ('"' :: (jsonEscapeStr kv.1.toList ++ '"' :: ':' :: ' ' ::
              jsonDumpsVal kv.2 ++ ',' :: ' ' ::
                jsonDumpsObj (kv2 :: es3))).length
          simp only [List.length_cons, List.length_append] at ih ⊢
          omega

/-- `json.loads` inverts `json.dumps` on an object document whose members
all render invertibly. -/
theorem jsonLoads_dumps_obj (e7 : List (String × Json)) (minF : Nat)
    (hminF : 1 ≤ minF)
    (hv : ∀ kv ∈ e7, ∀ (f : Nat) (r : List Char), minF ≤ f →
      numStop r = true → jsonVal f (jsonDumpsVal kv.2 ++ r) = some (kv.2, r))
    (hkeys : ∀ kv ∈ e7, ∀ c ∈ (kv.1 : String).toList, jsonPlainChar c = true)
    (hnodup : (e7.map Prod.fst).Nodup)
    (hfuel : e7.length + minF ≤ (jsonDumpsVal (.obj e7)).length * 2 + 3) :
    jsonLoads (jsonDumps (.obj e7)) = .ok (.obj e7) := by
  have hparse : jsonVal (((jsonDumpsVal (.obj e7)).length * 2 + 3) + 1)
      (jsonDumpsVal (.obj e7)) = some (.obj e7, []) := by
    have h := jsonVal_objRender e7 minF hminF hv hkeys hnodup
      ((jsonDumpsVal (.obj e7)).length * 2 + 3) [] hfuel
    simpa using h
  show (match jsonVal ((jsonDumpsVal (.obj e7)).length * 2 + 4)
      (jsonDumpsVal (.obj e7)) with
    | Option.none =>
        (.error "Expecting value: line 1 column 1 (char 0)" :
          Except String Json)
    | some (j, rest) =>
        if (rest.dropWhile jsonWs).isEmpty then .ok j
        else .error "Extra data") = .ok (.obj e7)
  rw [show (jsonDumpsVal (.obj e7)).length * 2 + 4 =
      ((jsonDumpsVal (.obj e7)).length * 2 + 3) + 1 from by omega, hparse]
  rfl

/-- `json.loads` inverts `json.dumps` on the seven-field wire document. -/
theorem jsonLoads_dumps_wire
    (v f l : Json) (sn og ts : String) (pl : List (String × Json))
    (hv : wireScalarJson v = true) (hf : wireScalarJson f = true)
    (hl : wireScalarJson l = true)
    (hsn : bmpStr sn = true) (hog : bmpStr og = true)
    (hts : bmpStr ts = true)
    (hplv : ∀ kv ∈ pl, wireScalarJson kv.2 = true)
    (hplk : ∀ kv ∈ pl, jsonPlain kv.1 = true)
    (hplnd : (pl.map Prod.fst).Nodup) :
    jsonLoads (jsonDumps (.obj [("version", v), ("stream_name", .str sn),
      ("origin", .str og), ("timestamp", .str ts), ("format", f),
      ("level", l), ("payload", .obj pl)])) =
      .ok (.obj [("version", v), ("stream_name", .str sn),
        ("origin", .str og), ("timestamp", .str ts), ("format", f),
        ("level", l), ("payload", .obj pl)]) := by
  have hplain : ∀ s : String, bmpStr s = true →
      wireScalarJson (.str s) = true := by
    intro s hs
    simpa [wireScalarJson] using hs
  apply jsonLoads_dumps_obj _ (pl.length + 2) (by omega)
  · intro kv hkv f' r hf' hr
    simp only [List.mem_cons, List.not_mem_nil, or_false] at hkv
    obtain ⟨f2, rfl⟩ : ∃ f2, f' = f2 + 1 := ⟨f' - 1, by omega⟩
    rcases hkv with rfl | rfl | rfl | rfl | rfl | rfl | rfl
    · exact jsonVal_scalar v hv f2 r hr
    · exact jsonVal_scalar (.str sn) (hplain sn hsn) f2 r hr
    · exact jsonVal_scalar (.str og) (hplain og hog) f2 r hr
    · exact jsonVal_scalar (.str ts) (hplain ts hts) f2 r hr
    · exact jsonVal_scalar f hf f2 r hr
    · exact jsonVal_scalar l hl f2 r hr
    · apply jsonVal_objRender pl 1 (by omega)
      · intro kv2 hkv2 f3 r3 hf3 hr3
        obtain ⟨f4, rfl⟩ : ∃ f4, f3 = f4 + 1 := ⟨f3 - 1, by omega⟩
        exact jsonVal_scalar kv2.2 (hplv kv2 hkv2) f4 r3 hr3
      · intro kv2 hkv2 c hc
        have hpl := hplk kv2 hkv2
        unfold jsonPlain at hpl
        simp only [List.all_eq_true] at hpl
        exact hpl c hc
      · exact hplnd
      · omega
  · intro kv hkv c hc
    simp only [List.mem_cons, List.not_mem_nil, or_false] at hkv
    rcases hkv with rfl | rfl | rfl | rfl | rfl | rfl | rfl
    · exact (by decide : ∀ x ∈ ("version" : String).toList,
        jsonPlainChar x = true) c hc
    · exact (by decide : ∀ x ∈ ("stream_name" : String).toList,
        jsonPlainChar x = true) c hc
    · exact (by decide : ∀ x ∈ ("origin" : String).toList,
        jsonPlainChar x = true) c hc
    · exact (by decide : ∀ x ∈ ("timestamp" : String).toList,
        jsonPlainChar x = true) c hc
    · exact (by decide : ∀ x ∈ ("format" : String).toList,
        jsonPlainChar x = true) c hc
    · exact (by decide : ∀ x ∈ ("level" : String).toList,
        jsonPlainChar x = true) c hc
    · exact (by decide : ∀ x ∈ ("payload" : String).toList,
        jsonPlainChar x = true) c hc
  · show (["version", "stream_name", "origin", "timestamp", "format",
      "level", "payload"] : List String).Nodup
    decide
  · have h1 := jsonDumpsObj_len_ge pl
    simp only [jsonDumpsVal, jsonDumpsObj, List.length_cons,
      List.length_append, List.length_singleton, List.length_nil]
    omega

/-! ### Re-validation of a constructed event's fields -/

/-- A printable-ASCII string is in particular a BMP string. -/
theorem bmpStr_of_jsonPlain {s : String} (h : jsonPlain s = true) :
    bmpStr s = true := by
  unfold jsonPlain at h
  unfold bmpStr
  simp only [List.all_eq_true] at h ⊢
  intro c hc
  have h2 := h c hc
  unfold jsonPlainChar at h2
  unfold bmpChar
  simp only [Bool.and_eq_true, decide_eq_true_eq] at h2 ⊢
  omega

/-- Every character accumulated so far lands in some part of the split. -/
theorem splitDotAux_mem_acc : ∀ (cs acc : List Char) (x : Char), x ∈ acc →
    ∃ part, part ∈ splitDotAux cs acc ∧ x ∈ (part : String).toList := by
  intro cs
  induction cs with
  | nil =>
      intro acc x hx
      refine ⟨String.mk acc.reverse, ?_, ?_⟩
      · show String.mk acc.reverse ∈ [String.mk acc.reverse]
        simp
      · show x ∈ acc.reverse
        exact List.mem_reverse.mpr hx
  | cons d cs ih =>
      intro acc x hx
      by_cases hd : d = '.'
      · subst hd
        refine ⟨String.mk acc.reverse, ?_, ?_⟩
        · show String.mk acc.reverse ∈
            String.mk acc.reverse :: splitDotAux cs []
          simp
        · show x ∈ acc.reverse
          exact List.mem_reverse.mpr hx
      · obtain ⟨p, hp1, hp2⟩ := ih (d :: acc) x (by simp [hx])
        refine ⟨p, ?_, hp2⟩
        rw [show splitDotAux (d :: cs) acc = splitDotAux cs (d :: acc)
          from by
            show (if d = '.' then String.mk acc.reverse :: splitDotAux cs []
              else splitDotAux cs (d :: acc)) = _
            rw [if_neg hd]]
        exact hp1

/-- A character predicate holding on every split part and on the dot holds
on every character of the split string. -/
theorem splitDotAux_chars (P : Char → Bool) (hdot : P '.' = true) :
    ∀ (cs acc : List Char),
    (∀ part ∈ splitDotAux cs acc, ∀ c ∈ (part : String).toList, P c = true) →
    ∀ c ∈ cs, P c = true := by
  intro cs
  induction cs with
  | nil =>
      intro acc _ c hc
      simp at hc
  | cons d cs ih =>
      intro acc h c hc
      simp only [List.mem_cons] at hc
      by_cases hd : d = '.'
      · subst hd
        have hsub : splitDotAux ('.' :: cs) acc =
            String.mk acc.reverse :: splitDotAux cs [] := by
          show (if '.' = '.' then String.mk acc.reverse :: splitDotAux cs []
            else splitDotAux cs ('.' :: acc)) = _
          rw [if_pos rfl]
        rcases hc with rfl | hc
        · exact hdot
        · refine ih [] ?_ c hc
          intro part hp
          exact h part (by rw [hsub]; simp [hp])
      · have hsub : splitDotAux (d :: cs) acc =
            splitDotAux cs (d :: acc) := by
          show (if d = '.' then String.mk acc.reverse :: splitDotAux cs []
            else splitDotAux cs (d :: acc)) = _
          rw [if_neg hd]
        rcases hc with rfl | hc
        · obtain ⟨p, hp1, hp2⟩ :=
            splitDotAux_mem_acc cs (c :: acc) c (by simp)
          exact h p (by rw [hsub]; exact hp1) c hp2
        · exact ih (d :: acc)
            (fun part hp => h part (by rw [hsub]; exact hp)) c hc

/-- Characters of a validated origin label: the FQDN class, except that the
last character may be the newline the `$` anchor tolerates. -/
theorem originPartOk_chars (p : String) (h : originPartOk p = true) :
    ∀ c ∈ p.toList, fqdnChar c = true ∨ c = '\n' := by
  unfold originPartOk at h
  simp only [Bool.and_eq_true, List.all_eq_true, decide_eq_true_eq] at h
  obtain ⟨⟨⟨⟨hlen1, hlen2⟩, hall⟩, hhead⟩, hlast⟩ := h
  intro c hmem
  by_cases hl : p.toList.getLast? = some '\n'
  · rw [if_pos hl] at hall
    have hne : p.toList ≠ [] := by
      intro he
      rw [he] at hl
      simp at hl
    have hsplit : p.toList.dropLast ++ [p.toList.getLast hne] = p.toList :=
      List.dropLast_append_getLast hne
    have hlastc : p.toList.getLast hne = '\n' := by
      have h3 := List.getLast?_eq_getLast p.toList hne
      rw [hl] at h3
      exact (Option.some.inj h3).symm
    rw [← hsplit] at hmem
    rcases List.mem_append.mp hmem with hm | hm
    · exact Or.inl (hall c hm)
    · right
      rw [hlastc] at hm
      simpa using hm
  · rw [if_neg hl] at hall
    exact Or.inl (hall c hmem)

/-- FQDN-class characters are ASCII, hence BMP. -/
theorem bmpChar_of_fqdn {c : Char} (h : fqdnChar c = true) :
    bmpChar c = true := by
  unfold fqdnChar isAlnumAscii at h
  unfold bmpChar
  simp only [Bool.or_eq_true, Bool.and_eq_true, decide_eq_true_eq] at h ⊢
  rcases h with (((h | h) | h) | h) | h
  · omega
  · omega
  · omega
  · have h5 : c.toNat = 95 := congrArg Char.toNat h
    omega
  · have h5 : c.toNat = 45 := congrArg Char.toNat h
    omega

/-- A validated origin consists of BMP characters (it is in fact ASCII:
label characters, dots, and at most a tolerated newline per label). -/
theorem validOrigin_bmp (s : String)
    (h : (splitDot s).all originPartOk = true) : bmpStr s = true := by
  unfold bmpStr
  simp only [List.all_eq_true] at h ⊢
  intro c hc
  refine splitDotAux_chars bmpChar (by decide) s.toList [] ?_ c hc
  intro part hp x hx
  have hpo : originPartOk part = true := h part hp
  rcases originPartOk_chars part hpo x hx with h1 | h1
  · exact bmpChar_of_fqdn h1
  · subst h1
    decide

theorem validateOrigin_ok (v : PyVal) (o : String)
    (h : validateOrigin v = .ok o) :
    v = .str o ∧ o ≠ "" ∧ (splitDot o).all originPartOk = true := by
  cases v with
  | str s =>
      have h' : (if s.length > 255 then
          (.error (.cosmolog ["ValidationError",
            "Invalid origin: \"" ++ s ++
              "\". Origin length cannot exceed 255 characters"]) :
            Except Err String)
        else if (splitDot s).all originPartOk then .ok s
        else .error (.cosmolog ["ValidationError",
          "Origin must be a fully qualified domain name"])) = .ok o := h
      split at h'
      · exact absurd h' (by simp)
      · split at h'
        next hg =>
          obtain rfl : s = o := Except.ok.inj h'
          refine ⟨rfl, ?_, hg⟩
          intro he
          rw [he] at hg
          exact absurd hg (by decide)
        next => exact absurd h' (by simp)
  | none => exact absurd h (by simp [validateOrigin])
  | bool b => exact absurd h (by simp [validateOrigin])
  | int n => exact absurd h (by simp [validateOrigin])
  | float q => exact absurd h (by simp [validateOrigin])
  | datetime d => exact absurd h (by simp [validateOrigin])
  | list xs =>
      have h' : (if xs.length > 255 then
          (.error (.cosmolog ["ValidationError",
            "Invalid origin: \"" ++ pyStr (.list xs) ++
              "\". Origin length cannot exceed 255 characters"]) :
            Except Err String)
        else .error (.typeError "list object has no attribute split")) =
          .ok o := h
      split at h' <;> exact absurd h' (by simp)
  | dict es => exact absurd h (by simp [validateOrigin])

theorem validateStreamName_ok (v : PyVal) (s : String)
    (h : validateStreamName v = .ok s) :
    v = .str s ∧ streamNameOk s = true := by
  cases v with
  | str s' =>
      have h' : (if streamNameOk s' then (.ok s' : Except Err String)
        else .error (.cosmolog ["ValidationError",
          "Invalid stream_name: \"" ++ s' ++
            "\". Stream name can contain alphanumeric characters and \"_\", \"-\", \".\""])) =
          .ok s := h
      split at h'
      next hg =>
        obtain rfl : s' = s := Except.ok.inj h'
        exact ⟨rfl, hg⟩
      next => exact absurd h' (by simp)
  | none => exact absurd h (by simp [validateStreamName])
  | bool b => exact absurd h (by simp [validateStreamName])
  | int n => exact absurd h (by simp [validateStreamName])
  | float q => exact absurd h (by simp [validateStreamName])
  | datetime d => exact absurd h (by simp [validateStreamName])
  | list xs => exact absurd h (by simp [validateStreamName])
  | dict es => exact absurd h (by simp [validateStreamName])

theorem validatePayload_ok (v : PyVal) (entries : List (String × PyVal))
    (h : validatePayload v = .ok entries) :
    v = .dict entries ∧ checkEntries entries = .ok () := by
  cases v with
  | dict es =>
      have h' : (match checkEntries es with
        | .error e => (.error e : Except Err (List (String × PyVal)))
        | .ok _ => .ok es) = .ok entries := h
      split at h'
      next e heq => exact absurd h' (by simp)
      next u heq =>
        obtain rfl : es = entries := Except.ok.inj h'
        cases u
        exact ⟨rfl, heq⟩
  | none => exact absurd h (by simp [validatePayload])
  | bool b => exact absurd h (by simp [validatePayload])
  | int n => exact absurd h (by simp [validatePayload])
  | float q => exact absurd h (by simp [validatePayload])
  | str s => exact absurd h (by simp [validatePayload])
  | datetime d => exact absurd h (by simp [validatePayload])
  | list xs => exact absurd h (by simp [validatePayload])

theorem checkEntries_ok : ∀ (entries : List (String × PyVal)),
    checkEntries entries = .ok () →
    ∀ kv ∈ entries, streamNameOk kv.1 = true ∧
      validatePayloadValue kv.2 = .ok () := by
  intro entries
  induction entries with
  | nil =>
      intro _ kv hkv
      simp at hkv
  | cons kv2 rest ih =>
      intro h kv hkv
      obtain ⟨k, v⟩ := kv2
      unfold checkEntries at h
      split at h
      next e heq => exact absurd h (by simp)
      next u heq =>
        split at h
        next e2 heq2 => exact absurd h (by simp)
        next u2 heq2 =>
          simp only [List.mem_cons] at hkv
          rcases hkv with rfl | hkv
          · refine ⟨?_, ?_⟩
            · unfold validatePayloadKey at heq
              split at heq
              next hg => exact hg
              next => exact absurd heq (by simp)
            · cases u2
              exact heq2
          · exact ih h kv hkv

theorem init_ok_inv (fqdn : String) (now : PyDatetime)
    (version stream_name origin timestamp format level payload : PyVal)
    (e : CosmologEvent)
    (h : CosmologEvent.init fqdn now version stream_name origin timestamp
      format level payload = .ok e) :
    validateOrigin (pyOr origin (.str fqdn)) = .ok e.origin ∧
    validateStreamName stream_name = .ok e.stream_name ∧
    validatePayload payload = .ok e.payload ∧
    coerceTimestamp now timestamp = .ok e.timestamp ∧
    version = e.version ∧ format = e.format ∧ level = e.level := by
  unfold CosmologEvent.init at h
  split at h
  · exact Except.noConfusion h
  next originS ho =>
    split at h
    · exact Except.noConfusion h
    next streamS hs =>
      split at h
      · exact Except.noConfusion h
      next entries hp =>
        split at h
        · exact Except.noConfusion h
        next ts hts =>
          obtain rfl : (⟨version, streamS, originS, ts, format, level,
              entries⟩ : CosmologEvent) = e := Except.ok.inj h
          exact ⟨ho, hs, hp, hts, rfl, rfl, rfl⟩

theorem wirePyScalar_toJson (v : PyVal) (h : wirePyScalar v = true) :
    ∃ j, pyToJson v = some j ∧ wireScalarJson j = true ∧ jsonToPy j = v := by
  cases v with
  | none => exact ⟨.null, rfl, rfl, rfl⟩
  | bool b => exact ⟨.b b, rfl, rfl, rfl⟩
  | int n => exact ⟨.int n, rfl, rfl, rfl⟩
  | str s =>
      refine ⟨.str s, rfl, ?_, rfl⟩
      simpa [wireScalarJson, wirePyScalar] using h
  | float q =>
      refine ⟨.float q, rfl, ?_, rfl⟩
      simpa [wireScalarJson, wirePyScalar] using h
  | datetime d => exact absurd h (by simp [wirePyScalar])
  | list xs => exact absurd h (by simp [wirePyScalar])
  | dict es => exact absurd h (by simp [wirePyScalar])

theorem payload_serialize_inv : ∀ (entries : List (String × PyVal)),
    (∀ kv ∈ entries, ∃ j, pyToJson kv.2 = some j) →
    ∃ pl, entries.mapM (fun kv => do
        let jv ← pyToJson kv.2
        pure (kv.1, jv)) = some pl ∧
      jsonToPyObj pl = entries ∧
      pl.map Prod.fst = entries.map Prod.fst ∧
      ∀ kv ∈ pl, ∃ kv' ∈ entries, kv.1 = kv'.1 ∧
        pyToJson kv'.2 = some kv.2 := by
  intro entries
  induction entries with
  | nil => exact fun _ => ⟨[], rfl, rfl, rfl, by simp⟩
  | cons kv rest ih =>
      intro h
      obtain ⟨j, hj⟩ := h kv (by simp)
      obtain ⟨pl, hpl, hback, hkeys, horig⟩ :=
        ih (fun kv' h' => h kv' (by simp [h']))
      refine ⟨(kv.1, j) :: pl, ?_, ?_, ?_, ?_⟩
      · rw [List.mapM_cons, hj, hpl]
        rfl
      · show (kv.1, jsonToPy j) :: jsonToPyObj pl = kv :: rest
        have hji : jsonToPy j = kv.2 := by
          obtain ⟨k2, v2⟩ := kv
          cases v2 with
          | none => cases hj; rfl
          | bool b => cases hj; rfl
          | int n => cases hj; rfl
          | float q => cases hj; rfl
          | str s => cases hj; rfl
          | datetime d => exact absurd hj (by simp [pyToJson])
          | list xs => exact absurd hj (by simp [pyToJson])
          | dict es => exact absurd hj (by simp [pyToJson])
        rw [hji, hback]
      · simp [hkeys]
      · intro kv2 hkv2
        simp only [List.mem_cons] at hkv2
        rcases hkv2 with rfl | hkv2
        · exact ⟨kv, by simp, rfl, hj⟩
        · obtain ⟨kv', hkv', h1, h2⟩ := horig kv2 hkv2
          exact ⟨kv', by simp [hkv'], h1, h2⟩

theorem strftime_ne_now (x : PyDatetime) : strftimeDefault x ≠ "now" := by
  intro he
  have hd : strfChars x = ("now" : String).toList := congrArg String.toList he
  rw [strfChars_eq,
    show padDig 4 x.year = digitChar (x.year / 10 ^ 3) :: padDig 3 x.year
      from rfl,
    List.cons_append,
    show ("now" : String).toList = ['n', 'o', 'w'] from rfl] at hd
  injection hd with h1 _
  have h2 := isDig_digitChar (x.year / 10 ^ 3)
  rw [h1] at h2
  exact absurd h2 (by decide)

/-- Re-coercing a stored wire timestamp returns it unchanged: it is not
`"now"`, it does not parse as a float, and the date parser reproduces the
datetime it renders. -/
theorem recoerce (now2 : PyDatetime) (x : PyDatetime) (hwf : x.WF) :
    coerceTimestamp now2 (.str (strftimeDefault x.replaceTzUtc)) =
      .ok (strftimeDefault x.replaceTzUtc) := by
  have hne := strftime_ne_now x.replaceTzUtc
  have hpf := pyFloat_strftime x.replaceTzUtc
  have hdp : dateparse false (strftimeDefault x.replaceTzUtc) =
      .ok x.replaceTzUtc := by
    unfold dateparse
    rw [parseIso_strftime false x.replaceTzUtc hwf]
    rfl
  simp only [coerceTimestamp, if_neg hne, hpf, hdp]
  rfl

theorem utcfromtimestamp_wf (q : ℚ) (d : PyDatetime)
    (h : utcfromtimestamp q = .ok d) : d.WF := by
  simp only [utcfromtimestamp] at h
  split at h
  next hrange =>
    obtain rfl : fromEpochMicros (roundMicros q) = d := Except.ok.inj h
    exact fromEpochMicros_wf _ hrange.1 hrange.2
  next => exact Except.noConfusion h

theorem dateparse_wf (izt : Bool) (s : String) (d : PyDatetime)
    (h : dateparse izt s = .ok d) : d.WF := by
  unfold dateparse at h
  split at h
  next d' heq =>
    obtain rfl : d' = d := Except.ok.inj h
    exact parseIso_wf izt s.toList d' heq
  next => exact Except.noConfusion h

/-- Every successful coercion stores the default rendering of a well-formed
datetime relabelled as UTC. -/
theorem coerce_ok_shape (now : PyDatetime) (hnow : now.WF) (v : PyVal)
    (hv : ∀ d, v = .datetime d → d.WF) (ts : String)
    (h : coerceTimestamp now v = .ok ts) :
    ∃ x : PyDatetime, x.WF ∧ ts = strftimeDefault x.replaceTzUtc := by
  cases v with
  | datetime d => exact ⟨d, hv d rfl, (Except.ok.inj h).symm⟩
  | str s =>
      simp only [coerceTimestamp] at h
      split at h
      · exact ⟨now, hnow, (Except.ok.inj h).symm⟩
      · split at h
        next q hq =>
          split at h
          next d hd =>
            exact ⟨d, utcfromtimestamp_wf q d hd, (Except.ok.inj h).symm⟩
          next e he =>
            split at h
            next d hd =>
              exact ⟨d, dateparse_wf false s d hd, (Except.ok.inj h).symm⟩
            next e2 he2 => exact Except.noConfusion h
        next hq =>
          split at h
          next d hd =>
            exact ⟨d, dateparse_wf false s d hd, (Except.ok.inj h).symm⟩
          next e he => exact Except.noConfusion h
  | bool b =>
      simp only [coerceTimestamp] at h
      split at h
      next d hd => exact ⟨d, utcfromtimestamp_wf _ d hd, (Except.ok.inj h).symm⟩
      next e he => exact Except.noConfusion h
  | int n =>
      simp only [coerceTimestamp] at h
      split at h
      next d hd => exact ⟨d, utcfromtimestamp_wf _ d hd, (Except.ok.inj h).symm⟩
      next e he => exact Except.noConfusion h
  | float q =>
      simp only [coerceTimestamp] at h
      split at h
      next d hd => exact ⟨d, utcfromtimestamp_wf q d hd, (Except.ok.inj h).symm⟩
      next e he => exact Except.noConfusion h
  | none => exact Except.noConfusion h
  | list xs => exact Except.noConfusion h
  | dict es => exact Except.noConfusion h

/-- Re-constructing with a validated event's own fields succeeds and
reproduces it. -/
theorem reinit (fqdn2 : String) (now2 : PyDatetime) (e : CosmologEvent)
    (hor : validateOrigin (.str e.origin) = .ok e.origin)
    (hone : e.origin ≠ "")
    (hsn : validateStreamName (.str e.stream_name) = .ok e.stream_name)
    (hpl : checkEntries e.payload = .ok ())
    (hts : coerceTimestamp now2 (.str e.timestamp) = .ok e.timestamp) :
    CosmologEvent.init fqdn2 now2 e.version (.str e.stream_name)
      (.str e.origin) (.str e.timestamp) e.format e.level
      (.dict e.payload) = .ok e := by
  have hpor : pyOr (.str e.origin) (.str fqdn2) = .str e.origin := by
    unfold pyOr
    rw [if_pos (by simp [pyTruthy, hone])]
  have hvp : validatePayload (.dict e.payload) = .ok e.payload := by
    have h' : validatePayload (.dict e.payload) =
        (match checkEntries e.payload with
         | .error err => (.error err : Except Err (List (String × PyVal)))
         | .ok _ => .ok e.payload) := rfl
    rw [h', hpl]
  unfold CosmologEvent.init
  rw [hpor, hor, hsn, hvp, hts]

theorem from_json_doc_wire (fqdn2 : String) (now2 : PyDatetime)
    (v f l : Json) (sn og ts : String) (pl : List (String × Json)) :
    from_json_doc fqdn2 now2 (.obj [("version", v), ("stream_name", .str sn),
      ("origin", .str og), ("timestamp", .str ts), ("format", f),
      ("level", l), ("payload", .obj pl)]) =
      CosmologEvent.init fqdn2 now2 (jsonToPy v) (.str sn) (.str og)
        (.str ts) (jsonToPy f) (jsonToPy l) (.dict (jsonToPyObj pl)) := rfl

/-- C1: for every combination of fields the constructor accepts, parsing
the wire line produced by serializing the constructed event yields an event
equal to the constructed one — `parse(serialize(construct(fields)))` is
`construct(fields)`.  The hypotheses delimit the wire format this covers:
the host clock and any input datetime are real `datetime` objects (their
field ranges hold), and `version`/`format`/`level` and the payload values
are JSON-encodable scalars — `None`, booleans, ints, floats (exact
decimals, the model's floats), and strings of BMP characters (escaped as
needed on the wire; Python renders an astral character as a surrogate pair,
which the model does not reproduce) — with the payload keys distinct (as in
any Python dict).  Outside those bounds the equation can genuinely fail in
the source (e.g. `json.dumps` raises `TypeError` on a datetime-valued
`version`, which `construct()` accepts). -/
theorem C1_roundtrip (fqdn fqdn2 : String) (now now2 : PyDatetime)
    (version stream_name origin timestamp format level payload : PyVal)
    (e : CosmologEvent)
    (hnow : now.WF)
    (htsdt : ∀ d, timestamp = .datetime d → d.WF)
    (hinit : CosmologEvent.init fqdn now version stream_name origin timestamp
      format level payload = .ok e)
    (hver : wirePyScalar e.version = true)
    (hfmt : wirePyScalar e.format = true)
    (hlvl : wirePyScalar e.level = true)
    (hnd : (e.payload.map Prod.fst).Nodup)
    (hplv : ∀ kv ∈ e.payload, wirePyScalar kv.2 = true) :
    ∃ line : String, Option.map jsonDumps e.serializeDoc = some line ∧
      CosmologEvent.from_json fqdn2 now2 line = .ok e := by
  obtain ⟨hor, hsn, hpl, hts, hv0, hf0, hl0⟩ :=
    init_ok_inv fqdn now version stream_name origin timestamp format level
      payload e hinit
  obtain ⟨hps, hone, hguard⟩ := validateOrigin_ok _ _ hor
  have hogp : bmpStr e.origin = true := validOrigin_bmp e.origin hguard
  obtain ⟨hss, hsok⟩ := validateStreamName_ok _ _ hsn
  obtain ⟨hpd, hck⟩ := validatePayload_ok _ _ hpl
  have hentries := checkEntries_ok e.payload hck
  obtain ⟨x, hxwf, hxts⟩ := coerce_ok_shape now hnow timestamp htsdt
    e.timestamp hts
  obtain ⟨jv, hjv, hjv2, hjv3⟩ := wirePyScalar_toJson e.version hver
  obtain ⟨jf, hjf, hjf2, hjf3⟩ := wirePyScalar_toJson e.format hfmt
  obtain ⟨jl, hjl, hjl2, hjl3⟩ := wirePyScalar_toJson e.level hlvl
  obtain ⟨pljs, hmap, hback, hkeys, horig⟩ := payload_serialize_inv e.payload
    (fun kv h' => ⟨(wirePyScalar_toJson kv.2 (hplv kv h')).choose,
      (wirePyScalar_toJson kv.2 (hplv kv h')).choose_spec.1⟩)
  have hdoc : e.serializeDoc = some (.obj [("version", jv),
      ("stream_name", .str e.stream_name), ("origin", .str e.origin),
      ("timestamp", .str e.timestamp), ("format", jf), ("level", jl),
      ("payload", .obj pljs)]) := by
    unfold CosmologEvent.serializeDoc
    rw [hjv, hjf, hjl, hmap]
    rfl
  have htsp : bmpStr e.timestamp = true := by
    rw [hxts]
    exact bmpStr_of_jsonPlain (jsonPlain_strftime _)
  have hsnp : bmpStr e.stream_name = true :=
    bmpStr_of_jsonPlain (jsonPlain_of_streamNameOk hsok)
  have hpljk : ∀ kv ∈ pljs, jsonPlain kv.1 = true := by
    intro kv hkv
    obtain ⟨kv', hkv', h1, _⟩ := horig kv hkv
    rw [h1]
    exact jsonPlain_of_streamNameOk (hentries kv' hkv').1
  have hpljv : ∀ kv ∈ pljs, wireScalarJson kv.2 = true := by
    intro kv hkv
    obtain ⟨kv', hkv', _, h2⟩ := horig kv hkv
    obtain ⟨j, hj1, hj2, _⟩ := wirePyScalar_toJson kv'.2 (hplv kv' hkv')
    rw [hj1] at h2
    obtain rfl : j = kv.2 := Option.some.inj h2
    exact hj2
  have hpljnd : (pljs.map Prod.fst).Nodup := by
    rw [hkeys]
    exact hnd
  refine ⟨jsonDumps (.obj [("version", jv),
      ("stream_name", .str e.stream_name), ("origin", .str e.origin),
      ("timestamp", .str e.timestamp), ("format", jf), ("level", jl),
      ("payload", .obj pljs)]), by rw [hdoc]; rfl, ?_⟩
  unfold CosmologEvent.from_json
  rw [jsonLoads_dumps_wire jv jf jl e.stream_name e.origin e.timestamp pljs
    hjv2 hjf2 hjl2 hsnp hogp htsp hpljv hpljk hpljnd]
  show from_json_doc fqdn2 now2 (.obj [("version", jv),
      ("stream_name", .str e.stream_name), ("origin", .str e.origin),
      ("timestamp", .str e.timestamp), ("format", jf), ("level", jl),
      ("payload", .obj pljs)]) = .ok e
  rw [from_json_doc_wire, hjv3, hjf3, hjl3, hback]
  apply reinit
  · rw [← hps]
    exact hor
  · exact hone
  · rw [← hss]
    exact hsn
  · exact hck
  · rw [hxts]
    exact recoerce now2 x hxwf

/-- Witness for C1: a concrete event with a float payload value (`36.7`)
and a payload string needing JSON escapes round-trips through its own wire
line. -/
theorem C1_witness :
    ∃ line : String,
      Option.map jsonDumps (CosmologEvent.serializeDoc
        ⟨.int 0, "telemetry", "earth", "2020-01-01T00:00:00.000000Z",
          .str "the \x7bship\x7d is happy", .int 400,
          [("ship", .str "jupiter 2"), ("sensor", .float (mkRat 367 10)),
            ("note", .str "say \"hi\"\nback\\slash")]⟩) = some line ∧
      CosmologEvent.from_json "h2" nowExample line =
        .ok ⟨.int 0, "telemetry", "earth", "2020-01-01T00:00:00.000000Z",
          .str "the \x7bship\x7d is happy", .int 400,
          [("ship", .str "jupiter 2"), ("sensor", .float (mkRat 367 10)),
            ("note", .str "say \"hi\"\nback\\slash")]⟩ :=
  C1_roundtrip "h" "h2" nowExample nowExample (.int 0) (.str "telemetry")
    (.str "earth") (.str "now") (.str "the \x7bship\x7d is happy") (.int 400)
    (.dict [("ship", .str "jupiter 2"), ("sensor", .float (mkRat 367 10)),
      ("note", .str "say \"hi\"\nback\\slash")]) _
    (by decide) (fun d hd => PyVal.noConfusion hd) rfl
    (by decide) (by decide) (by decide) (by decide) (by decide)

end Cosmolog
